import Mathlib

/-!
# Quantized multi-axis reduce kernel (`ReduceInt8CPUKernel`)

A shallow embedding of `mindspore/lite/src/runtime/kernel/arm/int8/reduce_int8.cc`.

* Pointers are natural numbers, `0` being `nullptr`.
* The allocator is an explicit list of live blocks together with ghost logs of the
  blocks it handed out and of the `Free` calls it received.
* External collaborators (`Prepare`, `Malloc`, `ParallelLaunch`, `new (std::nothrow)`,
  the base class `Init`/`ReSize`, the fixed-point multiplier deriver) are parameters:
  each call is answered by an arbitrary function of the call's position.
* `double` is an abstract type `D` with uninterpreted arithmetic (`DoubleOps`).
* Element access outside a `std::vector` is undefined behaviour; the embedding stops
  there with `Outcome.undefined`.
-/

namespace ReduceInt8

/-! ## Constants and external types -/

/-- A raw pointer; `0` is `nullptr`. -/
abbrev Ptr := Nat

/-- Width of `size_t` in bits. -/
def SIZE_BITS : Nat := 64

/-- Unsigned `size_t` subtraction `a - b`, wrapping modulo `2 ^ SIZE_BITS`. -/
def size_t_sub (a b : Nat) : Nat := (a + 2 ^ SIZE_BITS - b % 2 ^ SIZE_BITS) % 2 ^ SIZE_BITS

/-- Conversion `static_cast<size_t>(int)`. -/
def size_t_of_int (x : Int) : Nat := (x % (2 ^ SIZE_BITS : Int)).toNat

/-- Reduction of an integer into the range of `int` (32 bit two's complement). -/
def wrapInt32 (x : Int) : Int := (x + 2 ^ 31) % 2 ^ 32 - 2 ^ 31

/-- Value of `static_cast<int32_t>(int8_t)` for the stored byte `b`. -/
def int8_to_int32 (b : Nat) : Int :=
  if b % 256 < 128 then ((b % 256 : Nat) : Int) else ((b % 256 : Nat) : Int) - 256

/-- Modelled from the spec: `include/errorcode.h` is not among the sources; success is the
zero status and every error status is non-zero. -/
def RET_OK : Int := 0

/-- Modelled from the spec: generic error status of `include/errorcode.h` (non-zero). -/
def RET_ERROR : Int := -1

/-- Modelled from the spec: null-pointer error status of `include/errorcode.h` (non-zero). -/
def RET_NULL_PTR : Int := -2

/-- The enumerators of `schema::ReduceMode` used by the kernel, as `int` values.
`schema/model_generated.h` is not among the sources, so the values are a parameter. -/
structure ReduceModeEnum where
  ReduceMode_ReduceMean : Int
  ReduceMode_ReduceSum : Int
  ReduceMode_ReduceMax : Int
  ReduceMode_ReduceMin : Int
  ReduceMode_ReduceProd : Int
  ReduceMode_ReduceSumSquare : Int
deriving DecidableEq, Repr

/-- The six enumerators as a list, in the order of the `switch` of `Init`. -/
def ReduceModeEnum.values (E : ReduceModeEnum) : List Int :=
  [E.ReduceMode_ReduceMean, E.ReduceMode_ReduceSum, E.ReduceMode_ReduceMax,
   E.ReduceMode_ReduceMin, E.ReduceMode_ReduceProd, E.ReduceMode_ReduceSumSquare]

/-- The arithmetic on `double` that `CalculateQuantArgs` uses, uninterpreted. -/
structure DoubleOps (D : Type) where
  one : D
  ofInt : Int → D
  div : D → D → D
  mul : D → D → D
  pow : D → D → D

/-- One element of `Tensor::GetQuantParams()`. -/
structure QuantArg (D : Type) where
  scale : D
  zeroPoint : Int
deriving DecidableEq, Repr

/-- Modelled from the spec: the external tensor exposes its shape, its quantization
parameters, a raw data pointer and its elements; `ElementsNum()` is the number of
stored elements. -/
structure Tensor (D : Type) where
  shape : List Int
  quant_params : List (QuantArg D)
  data_ptr : Ptr
  data : List Nat
deriving DecidableEq, Repr

/-- Modelled from the spec: `Tensor::ElementsNum()`, the element count of the tensor. -/
def Tensor.ElementsNum {D : Type} (t : Tensor D) : Nat := t.data.length

/-- The heap object `QuantMulArg` (per-axis multiplier with its shift pair). -/
structure QuantMulArg where
  multiplier_ : Int
  left_shift_ : Int
  right_shift_ : Int
deriving DecidableEq, Repr

/-- The record `quant_arg_` handed to every reducer. -/
structure ReduceQuantArg (D : Type) where
  in_scale_ : D
  in_zp_ : Int
  out_scale_ : D
  out_zp_ : Int
  in_out_multiplier_ : Int
  in_out_left_shift_ : Int
  in_out_right_shift_ : Int
  mean_multiplier_ : Int
  mean_left_shift_ : Int
  mean_right_shift_ : Int
  prod_multiplier_ : Int
  prod_left_shift_ : Int
  prod_right_shift_ : Int
  sum_square_multiplier_ : Int
  sum_square_left_shift_ : Int
  sum_square_right_shift_ : Int
deriving DecidableEq, Repr

/-- The reducer functions a kernel can be bound to (function pointers of nnacl). -/
inductive Reducer where
  | ReduceMeanInt8 | ReduceMeanLastAxis
  | ReduceSumInt8 | ReduceSumLastAxis
  | ReduceMaxInt8 | ReduceMaxLastAxis
  | ReduceMinInt8 | ReduceMinLastAxis
  | ReduceProdInt8 | ReduceProdLastAxis
  | ReduceSumSquareInt8 | ReduceSumSquareLastAxis
deriving DecidableEq, Repr

/-- The members of `ReduceInt8CPUKernel` (with those of its base class) that the
embedded functions read or write. -/
structure Kernel (D : Type) where
  mode_ : Int
  num_axes_ : Int
  axes_ : List Int
  in_tensor : Tensor D
  out_tensor : Tensor D
  buffer_sizes_ : List Nat
  outer_sizes_ : List Int
  inner_sizes_ : List Int
  axis_sizes_ : List Int
  outer_size_ : Int
  inner_size_ : Int
  axis_size_ : Int
  data_buffers_ : List Ptr
  begin_src_data_ : Ptr
  src_data_ : Ptr
  dst_data_ : Ptr
  last_dst_data_ : Ptr
  is_last_axis_ : Bool
  quant_arg_ : ReduceQuantArg D
  mean_multipliers_ : List QuantMulArg
  prod_multipliers_ : List QuantMulArg
  sum_square_multipliers_ : List QuantMulArg
  reducer_ : Option Reducer
  last_reducer_ : Option Reducer
deriving DecidableEq, Repr

/-! ## The allocator -/

/-- State of `context_->allocator`: the live blocks, and ghost logs of the non-null
blocks handed out and of the pointers passed to `Free`, both in call order. -/
structure Allocator where
  live : List Ptr
  allocated : List Ptr
  freed : List Ptr
deriving DecidableEq, Repr

/-- Effect of a `Malloc` call whose answer is `answer` (`0` for a failed allocation). -/
def Allocator.Malloc (a : Allocator) (answer : Ptr) : Allocator :=
  if answer = 0 then a
  else { a with live := answer :: a.live, allocated := a.allocated ++ [answer] }

/-- Effect of `Free(p)`. -/
def Allocator.Free (a : Allocator) (p : Ptr) : Allocator :=
  { a with live := a.live.erase p, freed := a.freed ++ [p] }

/-! ## Scratch buffers: `MallocTmpBuffer` and `FreeTmpBuffer` -/

/-- The range-for of `MallocTmpBuffer` over the remaining `buffer_sizes_`; `j` is the
number of `Malloc` calls made so far, `bufs` is `data_buffers_`. The flag is `false`
when an allocation returned `nullptr` and the function returned from inside the loop. -/
def MallocTmpBuffer.loop (malloc : Nat → Ptr) :
    List Nat → Nat → List Ptr → Allocator → Bool × List Ptr × Allocator
  | [], _, bufs, a => (true, bufs, a)
  | _ :: rest, j, bufs, a =>
    let buffer := malloc j
    if buffer = 0 then (false, bufs, a.Malloc buffer)
    else MallocTmpBuffer.loop malloc rest (j + 1) (bufs ++ [buffer]) (a.Malloc buffer)

/-- Embedding of `ReduceInt8CPUKernel::MallocTmpBuffer`; `malloc j` answers the `j`-th
`Malloc` call. -/
def MallocTmpBuffer {D : Type} (malloc : Nat → Ptr) (k : Kernel D) (a : Allocator) :
    Int × Kernel D × Allocator :=
  match MallocTmpBuffer.loop malloc k.buffer_sizes_ 0 [] a with
  | (false, bufs, a1) => (RET_ERROR, { k with data_buffers_ := bufs }, a1)
  | (true, bufs, a1) =>
    let p := malloc k.buffer_sizes_.length
    let k1 := { k with data_buffers_ := bufs, begin_src_data_ := p }
    if p = 0 then (RET_NULL_PTR, k1, a1.Malloc p) else (RET_OK, k1, a1.Malloc p)

/-- The range-for of `FreeTmpBuffer`: every non-null element is passed to `Free`. -/
def FreeTmpBuffer.loop : List Ptr → Allocator → Allocator
  | [], a => a
  | buffer :: rest, a =>
    if buffer ≠ 0 then FreeTmpBuffer.loop rest (a.Free buffer) else FreeTmpBuffer.loop rest a

/-- Embedding of `ReduceInt8CPUKernel::FreeTmpBuffer`. -/
def FreeTmpBuffer {D : Type} (k : Kernel D) (a : Allocator) : Kernel D × Allocator :=
  let a1 := FreeTmpBuffer.loop k.data_buffers_ a
  let k1 := { k with data_buffers_ := [] }
  if k1.begin_src_data_ ≠ 0 then
    ({ k1 with begin_src_data_ := 0 }, a1.Free k1.begin_src_data_)
  else (k1, a1)

/-! ## Per-axis quantization arguments: `GetQuantArgs` -/

/-- Embedding of `ReduceInt8CPUKernel::GetQuantArgs(i)`; `none` when a multiplier list is
read outside its bounds. -/
def GetQuantArgs {D : Type} (E : ReduceModeEnum) (i : Nat) (k : Kernel D) : Option (Kernel D) :=
  (if k.mode_ = E.ReduceMode_ReduceMean then
      (k.mean_multipliers_[i]?).map fun qm =>
        { k with quant_arg_ := { k.quant_arg_ with
            mean_multiplier_ := qm.multiplier_
            mean_left_shift_ := qm.left_shift_
            mean_right_shift_ := qm.right_shift_ } }
    else some k).bind fun k1 =>
  (if k1.mode_ = E.ReduceMode_ReduceProd then
      (k1.prod_multipliers_[i]?).map fun qm =>
        { k1 with quant_arg_ := { k1.quant_arg_ with
            prod_multiplier_ := qm.multiplier_
            prod_left_shift_ := qm.left_shift_
            prod_right_shift_ := qm.right_shift_ } }
    else some k1).bind fun k2 =>
  if k2.mode_ = E.ReduceMode_ReduceSumSquare then
    (k2.sum_square_multipliers_[i]?).map fun qm =>
      { k2 with quant_arg_ := { k2.quant_arg_ with
          sum_square_multiplier_ := qm.multiplier_
          sum_square_left_shift_ := qm.left_shift_
          sum_square_right_shift_ := qm.right_shift_ } }
  else some k2

/-! ## The driver: `Run` -/

/-- The reducer call every task of one `ParallelLaunch` makes (the task id and the
thread count apart). -/
structure ReduceCall (D : Type) where
  is_last_axis : Bool
  outer_size : Int
  inner_size : Int
  axis_size : Int
  src : Ptr
  dst : Ptr
  quant_arg : ReduceQuantArg D
deriving DecidableEq, Repr

/-- Embedding of `ReduceInt8CPUKernel::CallReduceUnit`: `reducer_` writing to `dst_data_`
when `is_last_axis_` is false, `last_reducer_` writing to `last_dst_data_` otherwise. -/
def CallReduceUnit {D : Type} (k : Kernel D) : ReduceCall D :=
  if !k.is_last_axis_ then
    { is_last_axis := false, outer_size := k.outer_size_, inner_size := k.inner_size_,
      axis_size := k.axis_size_, src := k.src_data_, dst := k.dst_data_,
      quant_arg := k.quant_arg_ }
  else
    { is_last_axis := true, outer_size := k.outer_size_, inner_size := k.inner_size_,
      axis_size := k.axis_size_, src := k.src_data_, dst := k.last_dst_data_,
      quant_arg := k.quant_arg_ }

/-- The answers of the collaborators during one `Run`: the status of `Prepare`, the
pointer returned by the `j`-th `Malloc` call (`0` is `nullptr`) and the status returned
by the `n`-th `ParallelLaunch`. `Prepare` belongs to the base class; the kernel given to
`Run` is the kernel as `Prepare` leaves it. -/
structure Env where
  prepare_ret : Int
  malloc : Nat → Ptr
  launch : Nat → Int

/-- How a call ended: it returned a status, or it ran into undefined behaviour (an
element access outside a vector) and did not return. -/
inductive Outcome where
  | returned (status : Int)
  | undefined
deriving DecidableEq, Repr

/-- Everything observable after a call of `Run`: the outcome, the kernel, the allocator,
the dispatched passes in order and the values stored through `begin_src_data_`. -/
structure RunResult (D : Type) where
  outcome : Outcome
  kernel : Kernel D
  alloc : Allocator
  passes : List (ReduceCall D)
  widened : List Int
deriving DecidableEq, Repr

/-- The part of `Run` after the non-terminal loop: the terminal pass and the cleanup. -/
def Run.lastPass {D : Type} (E : ReduceModeEnum) (env : Env) (widened : List Int)
    (k : Kernel D) (a : Allocator) (ps : List (ReduceCall D)) : RunResult D :=
  match GetQuantArgs E (size_t_of_int (k.num_axes_ - 1)) k with
  | none => ⟨Outcome.undefined, k, a, ps, widened⟩
  | some k1 =>
    match k1.outer_sizes_.getLast?, k1.inner_sizes_.getLast?, k1.axis_sizes_.getLast? with
    | some outer, some inner, some axis =>
      let k2 := { k1 with outer_size_ := outer, inner_size_ := inner, axis_size_ := axis,
                          last_dst_data_ := k1.out_tensor.data_ptr, is_last_axis_ := true }
      let ps2 := ps ++ [CallReduceUnit k2]
      let error_code := env.launch ps.length
      if error_code ≠ RET_OK then
        let (k3, a3) := FreeTmpBuffer k2 a
        ⟨Outcome.returned RET_ERROR, k3, a3, ps2, widened⟩
      else
        let (k3, a3) := FreeTmpBuffer k2 a
        ⟨Outcome.returned RET_OK, k3, a3, ps2, widened⟩
    | _, _, _ => ⟨Outcome.undefined, k1, a, ps, widened⟩

/-- The non-terminal loop of `Run`, `for (size_t i = 0; i < bound; ++i)`, with
`remaining = bound - i` iterations to go, followed by the rest of `Run`. `ps` are the
passes dispatched so far; the `n`-th `ParallelLaunch` of the call returns `env.launch n`. -/
def Run.loop {D : Type} (E : ReduceModeEnum) (env : Env) (widened : List Int) :
    Nat → Nat → Kernel D → Allocator → List (ReduceCall D) → RunResult D
  | 0, _, k, a, ps => Run.lastPass E env widened k a ps
  | remaining + 1, i, k, a, ps =>
    match GetQuantArgs E i k with
    | none => ⟨Outcome.undefined, k, a, ps, widened⟩
    | some k1 =>
      match k1.data_buffers_[i]?, k1.outer_sizes_[i]?, k1.inner_sizes_[i]?,
          k1.axis_sizes_[i]? with
      | some dst, some outer, some inner, some axis =>
        let k2 := { k1 with dst_data_ := dst, outer_size_ := outer, inner_size_ := inner,
                            axis_size_ := axis }
        let ps2 := ps ++ [CallReduceUnit k2]
        let error_code := env.launch ps.length
        if error_code ≠ RET_OK then
          let (k3, a3) := FreeTmpBuffer k2 a
          ⟨Outcome.returned RET_ERROR, k3, a3, ps2, widened⟩
        else
          Run.loop E env widened remaining (i + 1) { k2 with src_data_ := k2.dst_data_ } a ps2
      | _, _, _, _ => ⟨Outcome.undefined, k1, a, ps, widened⟩

/-- Embedding of `ReduceInt8CPUKernel::Run`. The loop bound is `data_buffers_.size() - 1`
in `size_t`. -/
def Run {D : Type} (E : ReduceModeEnum) (env : Env) (k : Kernel D) (a : Allocator) :
    RunResult D :=
  if env.prepare_ret ≠ RET_OK then ⟨Outcome.returned env.prepare_ret, k, a, [], []⟩
  else
    match MallocTmpBuffer env.malloc k a with
    | (ret, k1, a1) =>
      if ret ≠ RET_OK then
        let (k2, a2) := FreeTmpBuffer k1 a1
        ⟨Outcome.returned ret, k2, a2, [], []⟩
      else
        let k2 := { k1 with is_last_axis_ := false }
        let widened := k2.in_tensor.data.map int8_to_int32
        let k3 := { k2 with src_data_ := k2.begin_src_data_ }
        Run.loop E env widened (size_t_sub k3.data_buffers_.length 1) 0 k3 a1 []

/-! ## Setup: `CalculateQuantArgs` and `Init` -/

/-- The stored value of `shift < 0 ? -shift : 0` (negation in `int`). -/
def left_shift_of (shift : Int) : Int := if shift < 0 then wrapInt32 (-shift) else 0

/-- The stored value of `shift > 0 ? shift : 0`. -/
def right_shift_of (shift : Int) : Int := if shift > 0 then shift else 0

/-- The object built by `new QuantMulArg` followed by
`QuantizeMultiplierSmallerThanOne(ratio, &qm->multiplier_, &shift)` and the two shift
assignments; `Q ratio` is the (multiplier, shift) pair the deriver writes. -/
def newQuantMulArg {D : Type} (Q : D → Int × Int) (ratio : D) : QuantMulArg :=
  { multiplier_ := (Q ratio).1
    left_shift_ := left_shift_of (Q ratio).2
    right_shift_ := right_shift_of (Q ratio).2 }

/-- Element access `shape()[axis]` with an `int` index converted to `size_t`. -/
def shapeAt (shape : List Int) (axis : Int) : Option Int := shape[size_t_of_int axis]?

/-- The loop of mode `ReduceMean` in `CalculateQuantArgs`, with `remaining` iterations to
go from index `i`; `ms` is `mean_multipliers_`. The result is `none` on an element access
out of bounds, `some (some status, ms)` when the function returned inside the loop and
`some (none, ms)` when the loop ran to its end. -/
def CalculateQuantArgs.meanLoop {D : Type} (ops : DoubleOps D) (Q : D → Int × Int)
    (new_ok : Nat → Bool) (k : Kernel D) :
    Nat → Nat → List QuantMulArg → Option (Option Int × List QuantMulArg)
  | 0, _, ms => some (none, ms)
  | remaining + 1, i, ms =>
    match k.axes_[i]? with
    | none => none
    | some axis =>
      match shapeAt k.in_tensor.shape axis with
      | none => none
      | some len =>
        let reciprocal := ops.div ops.one (ops.ofInt len)
        if !new_ok i then some (some RET_NULL_PTR, ms)
        else
          CalculateQuantArgs.meanLoop ops Q new_ok k remaining (i + 1)
            (ms ++ [newQuantMulArg Q reciprocal])

/-- The loop of mode `ReduceProd` in `CalculateQuantArgs`; `ms` is `prod_multipliers_`. -/
def CalculateQuantArgs.prodLoop {D : Type} (ops : DoubleOps D) (Q : D → Int × Int)
    (new_ok : Nat → Bool) (k : Kernel D) :
    Nat → Nat → List QuantMulArg → Option (Option Int × List QuantMulArg)
  | 0, _, ms => some (none, ms)
  | remaining + 1, i, ms =>
    match k.axes_[i]? with
    | none => none
    | some axis =>
      match shapeAt k.in_tensor.shape axis with
      | none => none
      | some axis_size =>
        if !new_ok i then some (some RET_NULL_PTR, ms)
        else
          let prod_multiplier := ops.pow k.quant_arg_.in_scale_ (ops.ofInt (axis_size - 1))
          CalculateQuantArgs.prodLoop ops Q new_ok k remaining (i + 1)
            (ms ++ [newQuantMulArg Q prod_multiplier])

/-- The loop of mode `ReduceSumSquare` in `CalculateQuantArgs` over all axes but the last;
`ms` is `sum_square_multipliers_`. -/
def CalculateQuantArgs.sumSquareLoop {D : Type} (Q : D → Int × Int)
    (new_ok : Nat → Bool) (k : Kernel D) :
    Nat → Nat → List QuantMulArg → Option Int × List QuantMulArg
  | 0, _, ms => (none, ms)
  | remaining + 1, i, ms =>
    if !new_ok i then (some RET_NULL_PTR, ms)
    else
      let sumsquare_multiplier := k.quant_arg_.in_scale_
      CalculateQuantArgs.sumSquareLoop Q new_ok k remaining (i + 1)
        (ms ++ [newQuantMulArg Q sumsquare_multiplier])

/-- The answers of `new (std::nothrow) QuantMulArg` during one `CalculateQuantArgs`:
for each of the three loops the answer in iteration `i`, and the answer of the
allocation after the `ReduceSumSquare` loop (`true` is a non-null object). -/
structure NewEnv where
  mean_ok : Nat → Bool
  prod_ok : Nat → Bool
  sum_square_ok : Nat → Bool
  sum_square_last_ok : Bool

/-- The first part of `CalculateQuantArgs`: the scales and zero points of the first
quantization parameters `iq` of the input and `oq` of the output, and the multiplier and
shift pair derived from `in_scale_ / out_scale_`. -/
def CalculateQuantArgs.inOut {D : Type} (ops : DoubleOps D) (Q : D → Int × Int)
    (iq oq : QuantArg D) (k : Kernel D) : Kernel D :=
  let input_output_multiplier := ops.div iq.scale oq.scale
  { k with quant_arg_ := { k.quant_arg_ with
      in_scale_ := iq.scale
      in_zp_ := iq.zeroPoint
      out_scale_ := oq.scale
      out_zp_ := oq.zeroPoint
      in_out_multiplier_ := (Q input_output_multiplier).1
      in_out_left_shift_ := left_shift_of (Q input_output_multiplier).2
      in_out_right_shift_ := right_shift_of (Q input_output_multiplier).2 } }

/-- Embedding of `ReduceInt8CPUKernel::CalculateQuantArgs`; `none` when a vector is read
out of bounds (`front()` of empty quantization parameters, `axes_[i]`, `shape()[axis]`). -/
def CalculateQuantArgs {D : Type} (E : ReduceModeEnum) (ops : DoubleOps D)
    (Q : D → Int × Int) (nenv : NewEnv) (k : Kernel D) : Option (Int × Kernel D) :=
  match k.in_tensor.quant_params.head?, k.out_tensor.quant_params.head? with
  | some iq, some oq =>
    let k1 : Kernel D := CalculateQuantArgs.inOut ops Q iq oq k
    match (if k1.mode_ = E.ReduceMode_ReduceMean then
        CalculateQuantArgs.meanLoop ops Q nenv.mean_ok k1 k1.num_axes_.toNat 0
          k1.mean_multipliers_
      else some (none, k1.mean_multipliers_)) with
    | none => none
    | some (some status, ms) => some (status, { k1 with mean_multipliers_ := ms })
    | some (none, ms) =>
      let k2 : Kernel D := { k1 with mean_multipliers_ := ms }
      match (if k2.mode_ = E.ReduceMode_ReduceProd then
          CalculateQuantArgs.prodLoop ops Q nenv.prod_ok k2 k2.num_axes_.toNat 0
            k2.prod_multipliers_
        else some (none, k2.prod_multipliers_)) with
      | none => none
      | some (some status, ps) => some (status, { k2 with prod_multipliers_ := ps })
      | some (none, ps) =>
        let k3 : Kernel D := { k2 with prod_multipliers_ := ps }
        if k3.mode_ = E.ReduceMode_ReduceSumSquare then
          match CalculateQuantArgs.sumSquareLoop Q nenv.sum_square_ok k3
              (k3.num_axes_ - 1).toNat 0 k3.sum_square_multipliers_ with
          | (some status, ss) => some (status, { k3 with sum_square_multipliers_ := ss })
          | (none, ss) =>
            if !nenv.sum_square_last_ok then
              some (RET_NULL_PTR, { k3 with sum_square_multipliers_ := ss })
            else
              let sumsquare_multiplier :=
                ops.div (ops.mul k3.quant_arg_.in_scale_ k3.quant_arg_.in_scale_)
                  k3.quant_arg_.out_scale_
              some (RET_OK, { k3 with sum_square_multipliers_ :=
                ss ++ [newQuantMulArg Q sumsquare_multiplier] })
        else some (RET_OK, k3)
  | _, _ => none

/-- The base-class collaborators of `Init`: `ReduceBaseCPUKernel::Init`,
`InferShapeDone` and `ReduceBaseCPUKernel::ReSize`, each an arbitrary function. -/
structure InitEnv (D : Type) where
  base_Init : Kernel D → Int × Kernel D
  InferShapeDone : Kernel D → Bool
  base_ReSize : Kernel D → Int × Kernel D

/-- The `switch (mode_)` of `Init`: the kernel with both reducers bound, or `none` in the
`default` case. -/
def Init.bindReducers {D : Type} (E : ReduceModeEnum) (k : Kernel D) : Option (Kernel D) :=
  if k.mode_ = E.ReduceMode_ReduceMean then
    some { k with reducer_ := some Reducer.ReduceMeanInt8,
                  last_reducer_ := some Reducer.ReduceMeanLastAxis }
  else if k.mode_ = E.ReduceMode_ReduceSum then
    some { k with reducer_ := some Reducer.ReduceSumInt8,
                  last_reducer_ := some Reducer.ReduceSumLastAxis }
  else if k.mode_ = E.ReduceMode_ReduceMax then
    some { k with reducer_ := some Reducer.ReduceMaxInt8,
                  last_reducer_ := some Reducer.ReduceMaxLastAxis }
  else if k.mode_ = E.ReduceMode_ReduceMin then
    some { k with reducer_ := some Reducer.ReduceMinInt8,
                  last_reducer_ := some Reducer.ReduceMinLastAxis }
  else if k.mode_ = E.ReduceMode_ReduceProd then
    some { k with reducer_ := some Reducer.ReduceProdInt8,
                  last_reducer_ := some Reducer.ReduceProdLastAxis }
  else if k.mode_ = E.ReduceMode_ReduceSumSquare then
    some { k with reducer_ := some Reducer.ReduceSumSquareInt8,
                  last_reducer_ := some Reducer.ReduceSumSquareLastAxis }
  else none

/-- Embedding of `ReduceInt8CPUKernel::Init`; `ReSize` is the base-class `ReSize`. -/
def Init {D : Type} (E : ReduceModeEnum) (ops : DoubleOps D) (Q : D → Int × Int)
    (nenv : NewEnv) (ienv : InitEnv D) (k : Kernel D) : Option (Int × Kernel D) :=
  match ienv.base_Init k with
  | (ret, k0) =>
    if ret ≠ RET_OK then some (ret, k0)
    else
      match CalculateQuantArgs E ops Q nenv k0 with
      | none => none
      | some (ret1, k1) =>
        if ret1 ≠ RET_OK then some (ret1, k1)
        else
          match Init.bindReducers E k1 with
          | none => some (RET_ERROR, k1)
          | some k2 =>
            if !ienv.InferShapeDone k2 then some (RET_OK, k2) else some (ienv.base_ReSize k2)

/-! ## Specification-side notions -/

/-- The non-null buffer handles a kernel holds: the non-null elements of `data_buffers_`
in order, then `begin_src_data_` when it is not null. -/
def heldBuffers {D : Type} (k : Kernel D) : List Ptr :=
  k.data_buffers_.filter (fun p => decide (p ≠ 0)) ++
    (if k.begin_src_data_ ≠ 0 then [k.begin_src_data_] else [])

/-- The live list after freeing the blocks `ps` one after the other. -/
def eraseAll (live ps : List Ptr) : List Ptr := ps.foldl List.erase live

/-- The answers `malloc 0 .. malloc (n - 1)` are pairwise distinct wherever non-null: the
allocator never hands out a block twice while it is live. -/
def DistinctBlocks (malloc : Nat → Ptr) (n : Nat) : Prop :=
  ∀ i j, i < j → j < n → malloc j ≠ 0 → malloc i ≠ malloc j

/-- The state `(k1, a1)` holds no buffer and, relative to the allocator `a` of before,
every block allocated since has been freed exactly once: the live list is as before and
the ghost logs grew by one and the same duplicate-free list of blocks. -/
def BuffersReleased {D : Type} (a : Allocator) (k1 : Kernel D) (a1 : Allocator) : Prop :=
  k1.data_buffers_ = [] ∧ k1.begin_src_data_ = 0 ∧ a1.live = a.live ∧
    ∃ blocks : List Ptr, blocks.Nodup ∧ a1.allocated = a.allocated ++ blocks ∧
      a1.freed = a.freed ++ blocks

/-- The length `shape()[axes_[i]]` of the input at the `i`-th reduced axis, when both
element accesses are in bounds. -/
def axisLength {D : Type} (k : Kernel D) (i : Nat) : Option Int :=
  (k.axes_[i]?).bind (shapeAt k.in_tensor.shape)

/-- The spec's `L_i`, the length of the input shape at axis `axes_[i]`: the entry of the
shape at the index `axes_[i]`, which has to be a non-negative index inside the shape. -/
def axisLengthOf {D : Type} (k : Kernel D) (i : Nat) : Option Int :=
  match k.axes_[i]? with
  | some axis => if 0 ≤ axis then k.in_tensor.shape[axis.toNat]? else none
  | none => none

/-- The spec's shift pair of a shift `s`: `l = max(0, -s)`, `r = max(0, s)`, with the
consequences that both are non-negative, at most one is non-zero and `r - l = s`. -/
def ShiftPairOf (s l r : Int) : Prop :=
  l = max 0 (-s) ∧ r = max 0 s ∧ 0 ≤ l ∧ 0 ≤ r ∧ (l = 0 ∨ r = 0) ∧ r - l = s

/-- The shift `s` is a value of `int` other than `INT_MIN`. -/
def ShiftInRange (s : Int) : Prop := -(2 ^ 31) < s ∧ s < 2 ^ 31

/-- An object of a multiplier list was built from the deriver's answer to some ratio. -/
def BuiltBy {D : Type} (Q : D → Int × Int) (qm : QuantMulArg) : Prop :=
  ∃ ratio : D, qm = newQuantMulArg Q ratio

/-- The spec's fixed mapping from mode to the pair (non-terminal reducer, last-axis
reducer), as the claim lists it. -/
def reducerTable (E : ReduceModeEnum) : List (Int × Reducer × Reducer) :=
  [(E.ReduceMode_ReduceMean, Reducer.ReduceMeanInt8, Reducer.ReduceMeanLastAxis),
   (E.ReduceMode_ReduceSum, Reducer.ReduceSumInt8, Reducer.ReduceSumLastAxis),
   (E.ReduceMode_ReduceMax, Reducer.ReduceMaxInt8, Reducer.ReduceMaxLastAxis),
   (E.ReduceMode_ReduceMin, Reducer.ReduceMinInt8, Reducer.ReduceMinLastAxis),
   (E.ReduceMode_ReduceProd, Reducer.ReduceProdInt8, Reducer.ReduceProdLastAxis),
   (E.ReduceMode_ReduceSumSquare, Reducer.ReduceSumSquareInt8,
     Reducer.ReduceSumSquareLastAxis)]

/-- The kernel is set up for `N` axes: `num_axes_` is `N`, there are `N - 1` scratch
sizes (the `MS_ASSERT` of `MallocTmpBuffer`), the axis plan has `N` triples, and the
multiplier list of the kernel's mode has an entry for each axis. -/
def PlanReady {D : Type} (E : ReduceModeEnum) (k : Kernel D) (N : Nat) : Prop :=
  k.num_axes_ = N ∧ k.buffer_sizes_.length + 1 = N ∧ N < 2 ^ 64 ∧
  k.outer_sizes_.length = N ∧ k.inner_sizes_.length = N ∧ k.axis_sizes_.length = N ∧
  (k.mode_ = E.ReduceMode_ReduceMean → N ≤ k.mean_multipliers_.length) ∧
  (k.mode_ = E.ReduceMode_ReduceProd → N ≤ k.prod_multipliers_.length) ∧
  (k.mode_ = E.ReduceMode_ReduceSumSquare → N ≤ k.sum_square_multipliers_.length)

/-- The part of `PlanReady` that the passes of `Run` rely on, for a kernel whose
`data_buffers_` are allocated. -/
def PassesReady {D : Type} (E : ReduceModeEnum) (k : Kernel D) (N : Nat) : Prop :=
  k.num_axes_ = N ∧ k.data_buffers_.length + 1 = N ∧ N < 2 ^ 64 ∧
  k.outer_sizes_.length = N ∧ k.inner_sizes_.length = N ∧ k.axis_sizes_.length = N ∧
  (k.mode_ = E.ReduceMode_ReduceMean → N ≤ k.mean_multipliers_.length) ∧
  (k.mode_ = E.ReduceMode_ReduceProd → N ≤ k.prod_multipliers_.length) ∧
  (k.mode_ = E.ReduceMode_ReduceSumSquare → N ≤ k.sum_square_multipliers_.length)

/-- The ratio the mean loop of `CalculateQuantArgs` hands to the deriver for an axis of
length `len`: `double reciprocal = 1.0 / shape()[axis]`. -/
def CalculateQuantArgs.reciprocal {D : Type} (ops : DoubleOps D) (len : Int) : D :=
  ops.div ops.one (ops.ofInt len)

/-- The ratio the product loop of `CalculateQuantArgs` hands to the deriver for an axis
of length `axis_size`: `double prod_multiplier = pow(quant_arg_.in_scale_, axis_size - 1)`. -/
def CalculateQuantArgs.prod_multiplier {D : Type} (ops : DoubleOps D) (in_scale : D)
    (axis_size : Int) : D :=
  ops.pow in_scale (ops.ofInt (axis_size - 1))

/-- The arithmetic of `CalculateQuantArgs` taken over the exact rationals; `pow` is the
power with the integral exponents the code passes. -/
def exactOps : DoubleOps ℚ :=
  ⟨1, fun n => (n : ℚ), fun x y => x / y, fun x y => x * y, fun x y => x ^ y.num⟩

/-- What `GetQuantArgs(i)` does to `quant_arg_`, as a function of the mode, the three
multiplier lists and the record itself. -/
def loadQuantArg {D : Type} (E : ReduceModeEnum) (mode : Int)
    (means prods squares : List QuantMulArg) (i : Nat) (qa : ReduceQuantArg D) :
    Option (ReduceQuantArg D) :=
  (if mode = E.ReduceMode_ReduceMean then
      (means[i]?).map fun qm =>
        { qa with
            mean_multiplier_ := qm.multiplier_
            mean_left_shift_ := qm.left_shift_
            mean_right_shift_ := qm.right_shift_ }
    else some qa).bind fun qa1 =>
  (if mode = E.ReduceMode_ReduceProd then
      (prods[i]?).map fun qm =>
        { qa1 with
            prod_multiplier_ := qm.multiplier_
            prod_left_shift_ := qm.left_shift_
            prod_right_shift_ := qm.right_shift_ }
    else some qa1).bind fun qa2 =>
  if mode = E.ReduceMode_ReduceSumSquare then
    (squares[i]?).map fun qm =>
      { qa2 with
          sum_square_multiplier_ := qm.multiplier_
          sum_square_left_shift_ := qm.left_shift_
          sum_square_right_shift_ := qm.right_shift_ }
  else some qa2

/-- The kernel `k1` has the input tensor, the output tensor, the mode, the axis plan, the
scratch sizes and the multiplier lists of `k`, and its `quant_arg_` is the one of `k` up
to the fields that `GetQuantArgs` overwrites before every pass. The members `Run` writes
before it reads them (buffers, source and destination, current sizes, `is_last_axis_`)
are left free. -/
def SamePlan {D : Type} (E : ReduceModeEnum) (k k1 : Kernel D) : Prop :=
  k1.mode_ = k.mode_ ∧ k1.num_axes_ = k.num_axes_ ∧ k1.in_tensor = k.in_tensor ∧
  k1.out_tensor = k.out_tensor ∧ k1.buffer_sizes_ = k.buffer_sizes_ ∧
  k1.outer_sizes_ = k.outer_sizes_ ∧ k1.inner_sizes_ = k.inner_sizes_ ∧
  k1.axis_sizes_ = k.axis_sizes_ ∧ k1.mean_multipliers_ = k.mean_multipliers_ ∧
  k1.prod_multipliers_ = k.prod_multipliers_ ∧
  k1.sum_square_multipliers_ = k.sum_square_multipliers_ ∧
  ∀ i, loadQuantArg E k.mode_ k.mean_multipliers_ k.prod_multipliers_
      k.sum_square_multipliers_ i k1.quant_arg_
    = loadQuantArg E k.mode_ k.mean_multipliers_ k.prod_multipliers_
      k.sum_square_multipliers_ i k.quant_arg_

/-! ## Sample inputs -/

/-- Sample enumerator values: mean 0, sum 4, max 1, min 2, prod 3, sum-square 5. -/
def sampleModes : ReduceModeEnum := ⟨0, 4, 1, 2, 3, 5⟩

/-- Sample arithmetic, with the integers standing in for `double`. -/
def sampleOps : DoubleOps Int :=
  ⟨1, id, fun x y => 60 * x / y, fun x y => x * y, fun x y => x ^ y.toNat⟩

/-- A sample deriver: multiplier `1000 + r`, shift `r - 25`. -/
def sampleQ (r : Int) : Int × Int := (1000 + r, r - 25)

/-- Every `new QuantMulArg` succeeds. -/
def sampleNewEnv : NewEnv := ⟨fun _ => true, fun _ => true, fun _ => true, true⟩

/-- A sample input tensor of shape `[2, 3, 4]`, scale `6`, data at address `7`; some of
its 24 stored bytes are 128 or more. -/
def sampleInput : Tensor Int :=
  ⟨[2, 3, 4], [⟨6, 0⟩], 7, (List.range 24).map fun i => i * 11 % 256⟩

/-- A sample output tensor of scale `2` whose data lives at address `8`. -/
def sampleOutput : Tensor Int := ⟨[1], [⟨2, 0⟩], 8, [0]⟩

/-- A sample `quant_arg_` with all multipliers and shifts zero. -/
def sampleQuantArg : ReduceQuantArg Int := ⟨6, 0, 2, 0, 0, 0, 0, 0, 0, 0, 0, 0, 0, 0, 0, 0⟩

/-- A set-up sample kernel reducing the first `n <= 3` axes of `sampleInput` in mode
`mode`: the axis plan of shape `[2, 3, 4]` is `(1, 12, 2)`, `(1, 4, 3)`, `(1, 1, 4)`, the
scratch sizes after the first two axes are `12` and `4`; the multiplier of axis `i` is
`100 + i` with right shift `i` in each of the three lists; no buffer is held. -/
def sampleKernel (mode : Int) (n : Nat) : Kernel Int :=
  { mode_ := mode, num_axes_ := n, axes_ := [0, 1, 2].take n,
    in_tensor := sampleInput, out_tensor := sampleOutput,
    buffer_sizes_ := [12, 4].take (n - 1),
    outer_sizes_ := [1, 1, 1].take n,
    inner_sizes_ := [12, 4, 1].take n,
    axis_sizes_ := [2, 3, 4].take n,
    outer_size_ := 0, inner_size_ := 0, axis_size_ := 0,
    data_buffers_ := [], begin_src_data_ := 0, src_data_ := 0, dst_data_ := 0,
    last_dst_data_ := 0, is_last_axis_ := false, quant_arg_ := sampleQuantArg,
    mean_multipliers_ := (List.range n).map fun i => ⟨100 + (i : Int), 0, i⟩,
    prod_multipliers_ := (List.range n).map fun i => ⟨100 + (i : Int), 0, i⟩,
    sum_square_multipliers_ := (List.range n).map fun i => ⟨100 + (i : Int), 0, i⟩,
    reducer_ := none, last_reducer_ := none }

/-- The sample kernel before `CalculateQuantArgs`: its multiplier lists are empty. -/
def sampleRawKernel (mode : Int) (n : Nat) : Kernel Int :=
  { sampleKernel mode n with
    mean_multipliers_ := [], prod_multipliers_ := [], sum_square_multipliers_ := [] }

/-- Collaborators that all succeed: `Prepare` returns `RET_OK`, the `j`-th `Malloc`
returns the block `100 + j`, every `ParallelLaunch` returns `RET_OK`. -/
def sampleEnv : Env := ⟨RET_OK, fun j => 100 + j, fun _ => RET_OK⟩

/-- Collaborators as in `sampleEnv`, except that the second `Malloc` returns `nullptr`. -/
def sampleEnvSecondMallocFails : Env :=
  ⟨RET_OK, fun j => if j = 1 then 0 else 100 + j, fun _ => RET_OK⟩

/-- A sample allocator with one live block `5` and empty logs. -/
def sampleAllocator : Allocator := ⟨[5], [], []⟩

/-- The sample kernel in mode mean after `CalculateQuantArgs`. -/
def sampleSetUpKernel : Kernel Int :=
  ((CalculateQuantArgs sampleModes sampleOps sampleQ sampleNewEnv (sampleRawKernel 0 3)).getD
    (RET_ERROR, sampleRawKernel 0 3)).2

/-- Base-class collaborators of `Init` that succeed and leave the kernel alone, shape
inference not being done yet. -/
def sampleInitEnv : InitEnv Int := ⟨fun k => (RET_OK, k), fun _ => false, fun k => (RET_OK, k)⟩

/-! ## Lemmas on the allocator and the scratch buffers -/

theorem eraseAll_nil (live : List Ptr) : eraseAll live [] = live := rfl

theorem eraseAll_cons (live : List Ptr) (p : Ptr) (ps : List Ptr) :
    eraseAll live (p :: ps) = eraseAll (live.erase p) ps := rfl

theorem eraseAll_append (live ps qs : List Ptr) :
    eraseAll live (ps ++ qs) = eraseAll (eraseAll live ps) qs := by
  simp [eraseAll, List.foldl_append]

/-- Freeing, oldest first, the distinct blocks that were pushed on the live list gives
the live list back. -/
theorem eraseAll_reverse_append (ps : List Ptr) (hnd : ps.Nodup) (live : List Ptr) :
    eraseAll (ps.reverse ++ live) ps = live := by
  induction ps with
  | nil => rfl
  | cons p t ih =>
    have hp : p ∉ t := (List.nodup_cons.mp hnd).1
    have ht : t.Nodup := (List.nodup_cons.mp hnd).2
    have hp2 : p ∉ t.reverse := by simpa using hp
    rw [eraseAll_cons, List.reverse_cons, List.append_assoc, List.erase_append_right _ hp2]
    simpa using ih ht

theorem FreeTmpBuffer_loop_spec (bufs : List Ptr) (a : Allocator) :
    (FreeTmpBuffer.loop bufs a).freed = a.freed ++ bufs.filter (fun p => decide (p ≠ 0)) ∧
    (FreeTmpBuffer.loop bufs a).allocated = a.allocated ∧
    (FreeTmpBuffer.loop bufs a).live
      = eraseAll a.live (bufs.filter (fun p => decide (p ≠ 0))) := by
  induction bufs generalizing a with
  | nil => simp [FreeTmpBuffer.loop, eraseAll]
  | cons b t ih =>
    by_cases hb : b = 0
    · simp [FreeTmpBuffer.loop, hb, ih]
    · simp [FreeTmpBuffer.loop, hb, ih, Allocator.Free, eraseAll_cons]

/-- What `FreeTmpBuffer` does, in terms of the handles held. -/
theorem FreeTmpBuffer_spec {D : Type} (k : Kernel D) (a : Allocator) :
    (FreeTmpBuffer k a).1 = { k with data_buffers_ := [], begin_src_data_ := 0 } ∧
    (FreeTmpBuffer k a).2.freed = a.freed ++ heldBuffers k ∧
    (FreeTmpBuffer k a).2.allocated = a.allocated ∧
    (FreeTmpBuffer k a).2.live = eraseAll a.live (heldBuffers k) := by
  obtain ⟨h1, h2, h3⟩ := FreeTmpBuffer_loop_spec k.data_buffers_ a
  by_cases hb : k.begin_src_data_ = 0
  · simp [FreeTmpBuffer, heldBuffers, hb, h1, h2, h3]
  · simp [FreeTmpBuffer, heldBuffers, hb, h1, h2, h3, Allocator.Free, eraseAll_append,
      eraseAll_cons, eraseAll_nil]

/-- The loop of `MallocTmpBuffer` allocates `m` blocks and stops: at the end of the sizes
(flag `true`) or at the first null answer (flag `false`). -/
theorem MallocTmpBuffer_loop_spec (malloc : Nat → Ptr) (sizes : List Nat) (j : Nat)
    (bufs : List Ptr) (a : Allocator) :
    ∃ m, m ≤ sizes.length ∧ (∀ i, i < m → malloc (j + i) ≠ 0) ∧
      (MallocTmpBuffer.loop malloc sizes j bufs a).2.1
        = bufs ++ (List.range' j m).map malloc ∧
      (MallocTmpBuffer.loop malloc sizes j bufs a).2.2.live
        = ((List.range' j m).map malloc).reverse ++ a.live ∧
      (MallocTmpBuffer.loop malloc sizes j bufs a).2.2.allocated
        = a.allocated ++ (List.range' j m).map malloc ∧
      (MallocTmpBuffer.loop malloc sizes j bufs a).2.2.freed = a.freed ∧
      ((MallocTmpBuffer.loop malloc sizes j bufs a).1 = true → m = sizes.length) ∧
      ((MallocTmpBuffer.loop malloc sizes j bufs a).1 = false →
        m < sizes.length ∧ malloc (j + m) = 0) := by
  induction sizes generalizing j bufs a with
  | nil => exact ⟨0, by simp [MallocTmpBuffer.loop]⟩
  | cons sz rest ih =>
    by_cases h0 : malloc j = 0
    · exact ⟨0, by simp [MallocTmpBuffer.loop, h0, Allocator.Malloc]⟩
    · obtain ⟨m, hm, hnz, hb, hl, hal, hf, ht, hfl⟩ :=
        ih (j + 1) (bufs ++ [malloc j]) (a.Malloc (malloc j))
      have hstep : MallocTmpBuffer.loop malloc (sz :: rest) j bufs a
          = MallocTmpBuffer.loop malloc rest (j + 1) (bufs ++ [malloc j])
              (a.Malloc (malloc j)) := by
        simp [MallocTmpBuffer.loop, h0]
      have hM : a.Malloc (malloc j)
          = { a with live := malloc j :: a.live, allocated := a.allocated ++ [malloc j] } := by
        simp [Allocator.Malloc, h0]
      rw [hstep]
      refine ⟨m + 1, by simpa using hm, ?_, ?_, ?_, ?_, ?_, ?_, ?_⟩
      · intro i hi
        cases i with
        | zero => simpa using h0
        | succ i =>
          have := hnz i (by omega)
          rwa [show j + (i + 1) = j + 1 + i by omega]
      · rw [hb]; simp [List.range'_succ]
      · rw [hl, hM]; simp [List.range'_succ]
      · rw [hal, hM]; simp [List.range'_succ]
      · rw [hf, hM]
      · intro h
        simpa using ht h
      · intro h
        obtain ⟨h1, h2⟩ := hfl h
        refine ⟨by simpa using h1, ?_⟩
        rwa [show j + (m + 1) = j + 1 + m by omega]

/-- Distinct non-null answers form a duplicate-free list. -/
theorem nodup_map_malloc (malloc : Nat → Ptr) (n m : Nat) (hm : m ≤ n)
    (hd : DistinctBlocks malloc n) (hnz : ∀ i, i < m → malloc i ≠ 0) :
    ((List.range' 0 m).map malloc).Nodup := by
  refine List.Nodup.map_on ?_ (List.nodup_range' 0 m)
  intro x hx y hy hxy
  have hx1 : x < m := by simpa using hx
  have hy1 : y < m := by simpa using hy
  rcases Nat.lt_trichotomy x y with h | h | h
  · exact absurd hxy (hd x y h (by omega) (hnz y hy1))
  · exact h
  · exact absurd hxy.symm (hd y x h (by omega) (hnz x hx1))

/-- The three ways `MallocTmpBuffer` ends. In each of them the kernel holds exactly the
blocks the call allocated, they are live on top of the former live list, and nothing was
freed. -/
theorem MallocTmpBuffer_spec {D : Type} (malloc : Nat → Ptr) (k : Kernel D) (a : Allocator) :
    ∃ m, m ≤ k.buffer_sizes_.length ∧ (∀ i, i < m → malloc i ≠ 0) ∧
      (MallocTmpBuffer malloc k a).2.2.freed = a.freed ∧
      ((MallocTmpBuffer malloc k a).1 = RET_OK ∧ m = k.buffer_sizes_.length ∧
          malloc m ≠ 0 ∧
          (MallocTmpBuffer malloc k a).2.1
            = { k with data_buffers_ := (List.range' 0 m).map malloc,
                       begin_src_data_ := malloc m } ∧
          (MallocTmpBuffer malloc k a).2.2.live
            = malloc m :: (((List.range' 0 m).map malloc).reverse ++ a.live) ∧
          (MallocTmpBuffer malloc k a).2.2.allocated
            = a.allocated ++ ((List.range' 0 m).map malloc ++ [malloc m])
        ∨
        ((MallocTmpBuffer malloc k a).1 = RET_NULL_PTR ∧ m = k.buffer_sizes_.length ∨
          (MallocTmpBuffer malloc k a).1 = RET_ERROR ∧ m < k.buffer_sizes_.length) ∧
          malloc m = 0 ∧
          (MallocTmpBuffer malloc k a).2.1
            = { k with data_buffers_ := (List.range' 0 m).map malloc,
                       begin_src_data_ :=
                         if m = k.buffer_sizes_.length then 0 else k.begin_src_data_ } ∧
          (MallocTmpBuffer malloc k a).2.2.live
            = ((List.range' 0 m).map malloc).reverse ++ a.live ∧
          (MallocTmpBuffer malloc k a).2.2.allocated
            = a.allocated ++ (List.range' 0 m).map malloc) := by
  obtain ⟨m, hm, hnz, hb, hl, hal, hf, ht, hfl⟩ :=
    MallocTmpBuffer_loop_spec malloc k.buffer_sizes_ 0 [] a
  simp only [Nat.zero_add, List.nil_append] at hnz hb hfl
  refine ⟨m, hm, hnz, ?_⟩
  rcases hloop : MallocTmpBuffer.loop malloc k.buffer_sizes_ 0 [] a with ⟨flag, bufs, a1⟩
  rw [hloop] at hb hl hal hf ht hfl
  simp only at hb hl hal hf ht hfl
  cases flag with
  | false =>
    obtain ⟨h1, h2⟩ := hfl rfl
    simp [MallocTmpBuffer, hloop, hb, hl, hal, hf, h1, h2, RET_OK, RET_ERROR, Nat.ne_of_lt h1]
  | true =>
    have hmn := ht rfl
    by_cases hp : malloc k.buffer_sizes_.length = 0
    · simp [MallocTmpBuffer, hloop, hb, hl, hal, hf, hp, hmn, RET_OK, RET_NULL_PTR,
        Allocator.Malloc]
    · simp [MallocTmpBuffer, hloop, hb, hl, hal, hf, hp, hmn, RET_OK, Allocator.Malloc]

/-- The kernel after `GetQuantArgs` differs from the kernel before in `quant_arg_` only. -/
theorem GetQuantArgs_frame {D : Type} (E : ReduceModeEnum) (i : Nat) (k k1 : Kernel D)
    (h : GetQuantArgs E i k = some k1) : k1 = { k with quant_arg_ := k1.quant_arg_ } := by
  unfold GetQuantArgs at h
  simp only [Option.bind_eq_some] at h
  obtain ⟨ka, hka, kb, hkb, hkc⟩ := h
  have ha : ka = { k with quant_arg_ := ka.quant_arg_ } := by
    split at hka
    · simp only [Option.map_eq_some'] at hka
      obtain ⟨qm, _, rfl⟩ := hka
      rfl
    · cases hka; rfl
  have hb : kb = { ka with quant_arg_ := kb.quant_arg_ } := by
    split at hkb
    · simp only [Option.map_eq_some'] at hkb
      obtain ⟨qm, _, rfl⟩ := hkb
      rfl
    · cases hkb; rfl
  have hc : k1 = { kb with quant_arg_ := k1.quant_arg_ } := by
    split at hkc
    · simp only [Option.map_eq_some'] at hkc
      obtain ⟨qm, _, rfl⟩ := hkc
      rfl
    · cases hkc; rfl
  rw [hc, hb, ha]

theorem filter_ne_zero_map_malloc (malloc : Nat → Ptr) (m : Nat)
    (hnz : ∀ i, i < m → malloc i ≠ 0) :
    ((List.range' 0 m).map malloc).filter (fun p => decide (p ≠ 0))
      = (List.range' 0 m).map malloc := by
  rw [List.filter_eq_self]
  intro p hp
  simp only [List.mem_map, List.mem_range'_1] at hp
  obtain ⟨i, hi, rfl⟩ := hp
  simpa using hnz i (by omega)

/-- After `MallocTmpBuffer` on a kernel without a stale `begin_src_data_`, the kernel
holds exactly the blocks just allocated, none of them twice. -/
theorem MallocTmpBuffer_holds {D : Type} (malloc : Nat → Ptr) (k : Kernel D) (a : Allocator)
    (hbegin : k.begin_src_data_ = 0)
    (hdist : DistinctBlocks malloc (k.buffer_sizes_.length + 1)) :
    (heldBuffers (MallocTmpBuffer malloc k a).2.1).Nodup ∧
    (MallocTmpBuffer malloc k a).2.2.live
      = (heldBuffers (MallocTmpBuffer malloc k a).2.1).reverse ++ a.live ∧
    (MallocTmpBuffer malloc k a).2.2.allocated
      = a.allocated ++ heldBuffers (MallocTmpBuffer malloc k a).2.1 ∧
    (MallocTmpBuffer malloc k a).2.2.freed = a.freed := by
  obtain ⟨m, hm, hnz, hf, h⟩ := MallocTmpBuffer_spec malloc k a
  have hfil := filter_ne_zero_map_malloc malloc m hnz
  rcases h with ⟨-, hmn, hp, hk, hl, hal⟩ | ⟨-, hp, hk, hl, hal⟩
  · have hheld : heldBuffers (MallocTmpBuffer malloc k a).2.1
        = (List.range' 0 (m + 1)).map malloc := by
      rw [hk]
      simp [heldBuffers, hp, List.range'_concat]
      exact hnz
    rw [hheld]
    refine ⟨?_, ?_, ?_, hf⟩
    · refine nodup_map_malloc malloc _ (m + 1) (by omega) hdist ?_
      intro i hi
      rcases Nat.lt_succ_iff_lt_or_eq.mp hi with h1 | h1
      · exact hnz i h1
      · rw [h1]; exact hp
    · rw [hl]; simp [List.range'_concat]
    · rw [hal]; simp [List.range'_concat]
  · have hheld : heldBuffers (MallocTmpBuffer malloc k a).2.1
        = (List.range' 0 m).map malloc := by
      rw [hk]
      simp [heldBuffers, hbegin]
      exact hnz
    rw [hheld]
    exact ⟨nodup_map_malloc malloc _ m (by omega) hdist hnz, hl, hal, hf⟩

/-- `FreeTmpBuffer` on a kernel that holds exactly the blocks allocated since `a`
releases them all. -/
theorem FreeTmpBuffer_restores {D : Type} (k2 : Kernel D) (a a1 : Allocator)
    (hnd : (heldBuffers k2).Nodup)
    (hl : a1.live = (heldBuffers k2).reverse ++ a.live)
    (hal : a1.allocated = a.allocated ++ heldBuffers k2)
    (hf : a1.freed = a.freed) :
    BuffersReleased a (FreeTmpBuffer k2 a1).1 (FreeTmpBuffer k2 a1).2 := by
  obtain ⟨h1, h2, h3, h4⟩ := FreeTmpBuffer_spec k2 a1
  refine ⟨by rw [h1], by rw [h1], ?_, heldBuffers k2, hnd, ?_, ?_⟩
  · rw [h4, hl, eraseAll_reverse_append _ hnd]
  · rw [h3, hal]
  · rw [h2, hf]

theorem heldBuffers_congr {D : Type} (k1 k2 : Kernel D)
    (h1 : k2.data_buffers_ = k1.data_buffers_)
    (h2 : k2.begin_src_data_ = k1.begin_src_data_) : heldBuffers k2 = heldBuffers k1 := by
  simp [heldBuffers, h1, h2]

/-- Cleanup on every returning path of the terminal pass. -/
theorem Run_lastPass_released {D : Type} (E : ReduceModeEnum) (env : Env) (w : List Int)
    (k : Kernel D) (a0 a : Allocator) (ps : List (ReduceCall D))
    (hnd : (heldBuffers k).Nodup)
    (hl : a.live = (heldBuffers k).reverse ++ a0.live)
    (hal : a.allocated = a0.allocated ++ heldBuffers k)
    (hf : a.freed = a0.freed) (status : Int)
    (hret : (Run.lastPass E env w k a ps).outcome = Outcome.returned status) :
    BuffersReleased a0 (Run.lastPass E env w k a ps).kernel
      (Run.lastPass E env w k a ps).alloc := by
  unfold Run.lastPass at hret ⊢
  cases hq : GetQuantArgs E (size_t_of_int (k.num_axes_ - 1)) k with
  | none => rw [hq] at hret; cases hret
  | some k1 =>
    rw [hq] at hret
    simp only at hret ⊢
    have hfr := GetQuantArgs_frame E _ k k1 hq
    have h2 : k1.data_buffers_ = k.data_buffers_ := by rw [hfr]
    have h3 : k1.begin_src_data_ = k.begin_src_data_ := by rw [hfr]
    split at hret
    · rename_i outer inner axis ho hi ha
      have hh := heldBuffers_congr k
        { k1 with
          outer_size_ := outer, inner_size_ := inner, axis_size_ := axis,
          last_dst_data_ := k1.out_tensor.data_ptr, is_last_axis_ := true } h2 h3
      have hrel := FreeTmpBuffer_restores _ a0 a (hh ▸ hnd) (hh ▸ hl) (hh ▸ hal) hf
      by_cases hlaunch : env.launch ps.length = RET_OK
      · simp only [hlaunch, ne_eq, not_true_eq_false, if_false]
        exact hrel
      · simp only [hlaunch, ne_eq, not_false_eq_true, if_true]
        exact hrel
    · cases hret

/-- Cleanup on every returning path of the loop of `Run` and what follows it. -/
theorem Run_loop_released {D : Type} (E : ReduceModeEnum) (env : Env) (w : List Int)
    (remaining i : Nat) (k : Kernel D) (a0 a : Allocator) (ps : List (ReduceCall D))
    (hnd : (heldBuffers k).Nodup)
    (hl : a.live = (heldBuffers k).reverse ++ a0.live)
    (hal : a.allocated = a0.allocated ++ heldBuffers k)
    (hf : a.freed = a0.freed) (status : Int)
    (hret : (Run.loop E env w remaining i k a ps).outcome = Outcome.returned status) :
    BuffersReleased a0 (Run.loop E env w remaining i k a ps).kernel
      (Run.loop E env w remaining i k a ps).alloc := by
  induction remaining generalizing i k ps with
  | zero =>
    rw [Run.loop] at hret ⊢
    exact Run_lastPass_released E env w k a0 a ps hnd hl hal hf status hret
  | succ n ih =>
    rw [Run.loop] at hret ⊢
    cases hq : GetQuantArgs E i k with
    | none => rw [hq] at hret; cases hret
    | some k1 =>
      rw [hq] at hret
      simp only at hret ⊢
      have hfr := GetQuantArgs_frame E _ k k1 hq
      have h2 : k1.data_buffers_ = k.data_buffers_ := by rw [hfr]
      have h3 : k1.begin_src_data_ = k.begin_src_data_ := by rw [hfr]
      split at hret
      · rename_i dst outer inner axis hd ho hi ha
        have hh := heldBuffers_congr k
          { k1 with
            dst_data_ := dst, outer_size_ := outer, inner_size_ := inner,
            axis_size_ := axis } h2 h3
        have hh2 := heldBuffers_congr k
          { k1 with
            dst_data_ := dst, outer_size_ := outer, inner_size_ := inner,
            axis_size_ := axis, src_data_ := dst } h2 h3
        have hrel := FreeTmpBuffer_restores _ a0 a (hh ▸ hnd) (hh ▸ hl) (hh ▸ hal) hf
        by_cases hlaunch : env.launch ps.length = RET_OK
        · simp only [hlaunch, ne_eq, not_true_eq_false, if_false] at hret ⊢
          exact ih (i + 1) _ _ (hh2 ▸ hnd) (hh2 ▸ hl) (hh2 ▸ hal) hret
        · simp only [hlaunch, ne_eq, not_false_eq_true, if_true]
          exact hrel
      · cases hret

/-! ## Lemmas on termination of `Run` -/

theorem size_t_sub_one (n : Nat) (h1 : 1 ≤ n) (h2 : n < 2 ^ 64) : size_t_sub n 1 = n - 1 := by
  unfold size_t_sub SIZE_BITS
  norm_num at h2 ⊢
  omega

theorem size_t_of_int_pred (N : Nat) (h1 : 1 ≤ N) (h2 : N < 2 ^ 64) :
    size_t_of_int ((N : Int) - 1) = N - 1 := by
  unfold size_t_of_int SIZE_BITS
  norm_num at h2 ⊢
  omega

/-- `GetQuantArgs(i)` stays in bounds when the list of the kernel's mode has an entry
`i`. -/
theorem GetQuantArgs_total {D : Type} (E : ReduceModeEnum) (i : Nat) (k : Kernel D)
    (h1 : k.mode_ = E.ReduceMode_ReduceMean → i < k.mean_multipliers_.length)
    (h2 : k.mode_ = E.ReduceMode_ReduceProd → i < k.prod_multipliers_.length)
    (h3 : k.mode_ = E.ReduceMode_ReduceSumSquare → i < k.sum_square_multipliers_.length) :
    ∃ k1, GetQuantArgs E i k = some k1 := by
  unfold GetQuantArgs
  have s1 : ∃ ka, (if k.mode_ = E.ReduceMode_ReduceMean then
        (k.mean_multipliers_[i]?).map fun qm =>
          { k with quant_arg_ := { k.quant_arg_ with
              mean_multiplier_ := qm.multiplier_
              mean_left_shift_ := qm.left_shift_
              mean_right_shift_ := qm.right_shift_ } }
      else some k) = some ka ∧ ka.mode_ = k.mode_ ∧
        ka.prod_multipliers_ = k.prod_multipliers_ ∧
        ka.sum_square_multipliers_ = k.sum_square_multipliers_ := by
    by_cases c : k.mode_ = E.ReduceMode_ReduceMean
    · rw [if_pos c, List.getElem?_eq_getElem (h1 c)]
      exact ⟨_, rfl, rfl, rfl, rfl⟩
    · rw [if_neg c]
      exact ⟨_, rfl, rfl, rfl, rfl⟩
  obtain ⟨ka, hka, m1, p1, q1⟩ := s1
  rw [hka, Option.some_bind]
  have s2 : ∃ kb, (if ka.mode_ = E.ReduceMode_ReduceProd then
        (ka.prod_multipliers_[i]?).map fun qm =>
          { ka with quant_arg_ := { ka.quant_arg_ with
              prod_multiplier_ := qm.multiplier_
              prod_left_shift_ := qm.left_shift_
              prod_right_shift_ := qm.right_shift_ } }
      else some ka) = some kb ∧ kb.mode_ = ka.mode_ ∧
        kb.sum_square_multipliers_ = ka.sum_square_multipliers_ := by
    by_cases c : ka.mode_ = E.ReduceMode_ReduceProd
    · rw [if_pos c, List.getElem?_eq_getElem (by rw [p1]; exact h2 (m1 ▸ c))]
      exact ⟨_, rfl, rfl, rfl⟩
    · rw [if_neg c]
      exact ⟨_, rfl, rfl, rfl⟩
  obtain ⟨kb, hkb, m2, q2⟩ := s2
  rw [hkb, Option.some_bind]
  by_cases c : kb.mode_ = E.ReduceMode_ReduceSumSquare
  · rw [if_pos c, List.getElem?_eq_getElem
      (by rw [q2, q1]; exact h3 (by rw [← m1, ← m2]; exact c))]
    exact ⟨_, rfl⟩
  · rw [if_neg c]
    exact ⟨_, rfl⟩

theorem getLast?_of_length_pos {α : Type} (l : List α) (h : 0 < l.length) :
    ∃ x, l.getLast? = some x := by
  cases l with
  | nil => simp at h
  | cons y t => exact ⟨_, List.getLast?_eq_getLast _ (List.cons_ne_nil y t)⟩

/-- The terminal pass returns on a kernel that is ready, with `RET_OK` when the launch
succeeds, and it dispatches exactly one pass. -/
theorem Run_lastPass_returns {D : Type} (E : ReduceModeEnum) (env : Env) (w : List Int)
    (k : Kernel D) (a : Allocator) (ps : List (ReduceCall D)) (N : Nat) (hN : 1 ≤ N)
    (hk : PassesReady E k N) :
    (∃ status, (Run.lastPass E env w k a ps).outcome = Outcome.returned status) ∧
    (Run.lastPass E env w k a ps).passes.length = ps.length + 1 ∧
    (env.launch ps.length = RET_OK →
      (Run.lastPass E env w k a ps).outcome = Outcome.returned RET_OK) := by
  obtain ⟨hnum, hdb, hlt, ho, hi, ha, hm, hp, hs⟩ := hk
  have hidx : size_t_of_int (k.num_axes_ - 1) = N - 1 := by
    rw [hnum]; exact size_t_of_int_pred N hN hlt
  obtain ⟨k1, hq⟩ := GetQuantArgs_total E (N - 1) k
    (fun h => by have := hm h; omega) (fun h => by have := hp h; omega)
    (fun h => by have := hs h; omega)
  have hfr := GetQuantArgs_frame E _ k k1 hq
  obtain ⟨outer, hou⟩ := getLast?_of_length_pos k1.outer_sizes_ (by rw [hfr]; simp; omega)
  obtain ⟨inner, hin⟩ := getLast?_of_length_pos k1.inner_sizes_ (by rw [hfr]; simp; omega)
  obtain ⟨axis, hax⟩ := getLast?_of_length_pos k1.axis_sizes_ (by rw [hfr]; simp; omega)
  unfold Run.lastPass
  rw [hidx, hq]
  simp only [hou, hin, hax]
  by_cases hl : env.launch ps.length = RET_OK
  · simp [hl]
  · simp [hl]

theorem PassesReady_of_eq {D : Type} (E : ReduceModeEnum) (k k1 : Kernel D) (N : Nat)
    (e1 : k1.num_axes_ = k.num_axes_) (e2 : k1.data_buffers_ = k.data_buffers_)
    (e3 : k1.outer_sizes_ = k.outer_sizes_) (e4 : k1.inner_sizes_ = k.inner_sizes_)
    (e5 : k1.axis_sizes_ = k.axis_sizes_) (e6 : k1.mode_ = k.mode_)
    (e7 : k1.mean_multipliers_ = k.mean_multipliers_)
    (e8 : k1.prod_multipliers_ = k.prod_multipliers_)
    (e9 : k1.sum_square_multipliers_ = k.sum_square_multipliers_)
    (hk : PassesReady E k N) : PassesReady E k1 N := by
  unfold PassesReady at hk ⊢
  rw [e1, e2, e3, e4, e5, e6, e7, e8, e9]
  exact hk

/-- The loop of `Run` followed by the terminal pass returns on a kernel that is ready
for the remaining indices; when every launch succeeds it returns `RET_OK` after one
pass per iteration and the terminal pass. -/
theorem Run_loop_returns {D : Type} (E : ReduceModeEnum) (env : Env) (w : List Int)
    (remaining i : Nat) (k : Kernel D) (a : Allocator) (ps : List (ReduceCall D)) (N : Nat)
    (hN : 1 ≤ N) (hk : PassesReady E k N) (hi : i + remaining + 1 ≤ N) :
    (∃ status, (Run.loop E env w remaining i k a ps).outcome = Outcome.returned status) ∧
    ((∀ n, env.launch n = RET_OK) →
      (Run.loop E env w remaining i k a ps).outcome = Outcome.returned RET_OK ∧
      (Run.loop E env w remaining i k a ps).passes.length = ps.length + remaining + 1) := by
  induction remaining generalizing i k ps with
  | zero =>
    rw [Run.loop]
    obtain ⟨h1, h2, h3⟩ := Run_lastPass_returns E env w k a ps N hN hk
    exact ⟨h1, fun hall => ⟨h3 (hall _), h2⟩⟩
  | succ n ih =>
    have hk0 := hk
    obtain ⟨hnum, hdb, hlt, ho, hin, ha, hm, hp, hs⟩ := hk
    obtain ⟨k1, hq⟩ := GetQuantArgs_total E i k
      (fun h => by have := hm h; omega) (fun h => by have := hp h; omega)
      (fun h => by have := hs h; omega)
    have hfr := GetQuantArgs_frame E _ k k1 hq
    have e1 : k1.data_buffers_ = k.data_buffers_ := by rw [hfr]
    have e2 : k1.outer_sizes_ = k.outer_sizes_ := by rw [hfr]
    have e3 : k1.inner_sizes_ = k.inner_sizes_ := by rw [hfr]
    have e4 : k1.axis_sizes_ = k.axis_sizes_ := by rw [hfr]
    have e5 : k1.num_axes_ = k.num_axes_ := by rw [hfr]
    have e6 : k1.mode_ = k.mode_ := by rw [hfr]
    have e7 : k1.mean_multipliers_ = k.mean_multipliers_ := by rw [hfr]
    have e8 : k1.prod_multipliers_ = k.prod_multipliers_ := by rw [hfr]
    have e9 : k1.sum_square_multipliers_ = k.sum_square_multipliers_ := by rw [hfr]
    obtain ⟨dst, g1⟩ : ∃ dst, k1.data_buffers_[i]? = some dst :=
      ⟨_, List.getElem?_eq_getElem (by rw [e1]; omega)⟩
    obtain ⟨outer, g2⟩ : ∃ outer, k1.outer_sizes_[i]? = some outer :=
      ⟨_, List.getElem?_eq_getElem (by rw [e2]; omega)⟩
    obtain ⟨inner, g3⟩ : ∃ inner, k1.inner_sizes_[i]? = some inner :=
      ⟨_, List.getElem?_eq_getElem (by rw [e3]; omega)⟩
    obtain ⟨axis, g4⟩ : ∃ axis, k1.axis_sizes_[i]? = some axis :=
      ⟨_, List.getElem?_eq_getElem (by rw [e4]; omega)⟩
    have hready : PassesReady E
        { k1 with
          dst_data_ := dst, outer_size_ := outer, inner_size_ := inner, axis_size_ := axis,
          src_data_ := dst } N :=
      PassesReady_of_eq E k _ N e5 e1 e2 e3 e4 e6 e7 e8 e9 hk0
    obtain ⟨h1, h2⟩ := ih (i + 1)
      { k1 with
        dst_data_ := dst, outer_size_ := outer, inner_size_ := inner, axis_size_ := axis,
        src_data_ := dst }
      (ps ++ [CallReduceUnit { k1 with
        dst_data_ := dst, outer_size_ := outer, inner_size_ := inner, axis_size_ := axis }])
      hready (by omega)
    rw [Run.loop, hq]
    simp only [g1, g2, g3, g4]
    by_cases hl : env.launch ps.length = RET_OK
    · simp only [hl, ne_eq, not_true_eq_false, if_false]
      refine ⟨h1, fun hall => ?_⟩
      obtain ⟨h3, h4⟩ := h2 hall
      refine ⟨h3, ?_⟩
      rw [h4]
      simp only [List.length_append, List.length_singleton]
      omega
    · simp only [hl, ne_eq, not_false_eq_true, if_true]
      exact ⟨⟨_, rfl⟩, fun hall => absurd (hall _) hl⟩

/-- With two axes or more and a kernel that is set up, `Run` returns, whatever the
collaborators answer; when they all succeed it returns `RET_OK` after `N - 1` passes. -/
theorem Run_returns {D : Type} (E : ReduceModeEnum) (env : Env) (k : Kernel D)
    (a : Allocator) (N : Nat) (hN : 2 ≤ N) (hk : PlanReady E k N) :
    (∃ status, (Run E env k a).outcome = Outcome.returned status) ∧
    (env.prepare_ret = RET_OK → (∀ j, j < N → env.malloc j ≠ 0) →
      (∀ n, env.launch n = RET_OK) →
      (Run E env k a).outcome = Outcome.returned RET_OK ∧
      (Run E env k a).passes.length = N - 1) := by
  obtain ⟨hnum, hbs, hlt, ho, hin, ha, hm, hp, hs⟩ := hk
  unfold Run
  by_cases hprep : env.prepare_ret = RET_OK
  · rw [if_neg (not_not.mpr hprep)]
    obtain ⟨m, hm1, hnz, hf, hcase⟩ := MallocTmpBuffer_spec env.malloc k a
    rcases hmal : MallocTmpBuffer env.malloc k a with ⟨ret, k1, a1⟩
    rw [hmal] at hcase hf
    simp only at hcase hf ⊢
    rcases hcase with ⟨hret, hmn, hpm, hk1, -, -⟩ | ⟨hret, hpm, -, -, -⟩
    · have hready : PassesReady E
          { k1 with is_last_axis_ := false, src_data_ := k1.begin_src_data_ } N := by
        rw [hk1]
        refine ⟨hnum, ?_, hlt, ho, hin, ha, hm, hp, hs⟩
        simp only [List.length_map, List.length_range']
        omega
      have hlen : k1.data_buffers_.length = N - 1 := by
        rw [hk1]
        simp only [List.length_map, List.length_range']
        omega
      have hbound : size_t_sub k1.data_buffers_.length 1 = N - 2 := by
        rw [hlen, size_t_sub_one (N - 1) (by omega) (by omega)]
        omega
      obtain ⟨h1, h2⟩ := Run_loop_returns E env (k1.in_tensor.data.map int8_to_int32)
        (N - 2) 0 { k1 with is_last_axis_ := false, src_data_ := k1.begin_src_data_ } a1 []
        N (by omega) hready (by omega)
      rw [if_neg (not_not.mpr hret)]
      simp only [hbound]
      refine ⟨h1, fun _ _ hall => ?_⟩
      obtain ⟨h3, h4⟩ := h2 hall
      refine ⟨h3, ?_⟩
      rw [h4]
      simp only [List.length_nil]
      omega
    · have hne : ret ≠ RET_OK := by
        rcases hret with ⟨h, -⟩ | ⟨h, -⟩ <;> rw [h] <;> decide
      rw [if_pos hne]
      refine ⟨⟨_, rfl⟩, fun _ hmall _ => ?_⟩
      exact absurd hpm (hmall m (by omega))
  · rw [if_pos hprep]
    exact ⟨⟨_, rfl⟩, fun h => absurd h hprep⟩

/-! ## The claims on `Run`, `MallocTmpBuffer` and `FreeTmpBuffer` -/

/-- C1: for every kernel that holds no buffer (`data_buffers_` empty, `begin_src_data_`
null), every axis count and every behaviour of `Prepare`, `Malloc` (handing out pairwise
distinct blocks) and `ParallelLaunch`: whenever `Run` returns, with whatever status,
`data_buffers_` is empty, `begin_src_data_` is null, the live list of the allocator is the
one of before the call, and the blocks allocated during the call are exactly the blocks
freed during the call, each once. And `Run` does return whenever the kernel is set up
for two axes or more. -/
theorem Run_releases_all_buffers {D : Type} (E : ReduceModeEnum) (env : Env) (k : Kernel D)
    (a : Allocator) (hbufs : k.data_buffers_ = []) (hbegin : k.begin_src_data_ = 0)
    (hdist : DistinctBlocks env.malloc (k.buffer_sizes_.length + 1)) :
    (∀ status, (Run E env k a).outcome = Outcome.returned status →
      (Run E env k a).kernel.data_buffers_ = [] ∧
      (Run E env k a).kernel.begin_src_data_ = 0 ∧
      (Run E env k a).alloc.live = a.live ∧
      ∃ blocks : List Ptr, blocks.Nodup ∧
        (Run E env k a).alloc.allocated = a.allocated ++ blocks ∧
        (Run E env k a).alloc.freed = a.freed ++ blocks) ∧
    (∀ N, 2 ≤ N → PlanReady E k N →
      ∃ status, (Run E env k a).outcome = Outcome.returned status) := by
  refine ⟨fun status hret => ?_, fun N hN hk => (Run_returns E env k a N hN hk).1⟩
  show BuffersReleased a (Run E env k a).kernel (Run E env k a).alloc
  obtain ⟨hnd, hl, hal, hf⟩ := MallocTmpBuffer_holds env.malloc k a hbegin hdist
  unfold Run at hret ⊢
  by_cases hprep : env.prepare_ret = RET_OK
  · rw [if_neg (not_not.mpr hprep)] at hret ⊢
    rcases hm : MallocTmpBuffer env.malloc k a with ⟨ret, k1, a1⟩
    rw [hm] at hnd hl hal hf hret
    by_cases hok : ret = RET_OK
    · simp only [hok, ne_eq, not_true_eq_false, if_false] at hret ⊢
      have hh := heldBuffers_congr k1
        { k1 with is_last_axis_ := false, src_data_ := k1.begin_src_data_ } rfl rfl
      exact Run_loop_released E env _ _ 0 _ a a1 [] (hh ▸ hnd) (hh ▸ hl) (hh ▸ hal) hf
        status hret
    · simp only [hok, ne_eq, not_false_eq_true, if_true] at hret ⊢
      exact FreeTmpBuffer_restores k1 a a1 hnd hl hal hf
  · rw [if_pos hprep]
    exact ⟨hbufs, hbegin, rfl, [], List.nodup_nil, by simp, by simp⟩

theorem sampleEnv_distinct (n : Nat) : DistinctBlocks sampleEnv.malloc n := by
  intro i j hij _ _
  show 100 + i ≠ 100 + j
  omega

theorem sampleEnvSecondMallocFails_distinct (n : Nat) :
    DistinctBlocks sampleEnvSecondMallocFails.malloc n := by
  intro i j hij _ hj
  have hj1 : (if j = 1 then 0 else 100 + j) ≠ 0 := hj
  show (if i = 1 then 0 else 100 + i) ≠ (if j = 1 then 0 else 100 + j)
  split_ifs at hj1 ⊢ <;> omega

/-- Witness of C1: a three-axis run whose second `Malloc` fails returns `RET_ERROR` and
leaves the live list as it was. -/
theorem Run_releases_all_buffers_witness :
    (Run sampleModes sampleEnvSecondMallocFails (sampleKernel 0 3) sampleAllocator).outcome
      = Outcome.returned RET_ERROR ∧
    (Run sampleModes sampleEnvSecondMallocFails (sampleKernel 0 3) sampleAllocator).alloc.live
      = [5] :=
  ⟨by decide,
   ((Run_releases_all_buffers sampleModes sampleEnvSecondMallocFails (sampleKernel 0 3)
      sampleAllocator rfl rfl (sampleEnvSecondMallocFails_distinct _)).1 RET_ERROR
      (by decide)).2.2.1⟩

/-- C2, evaluated on the code: with one axis (no scratch size) and every collaborator
succeeding, the loop bound `data_buffers_.size() - 1` wraps around, `Run` reads
`data_buffers_[0]` of the empty vector and ends in undefined behaviour: no pass is
dispatched, no status is returned, and the widened input block is still live. -/
theorem Run_single_axis_reads_empty_data_buffers :
    size_t_sub 0 1 = 2 ^ 64 - 1 ∧
    (Run sampleModes sampleEnv (sampleKernel 0 1) sampleAllocator).outcome
      = Outcome.undefined ∧
    (Run sampleModes sampleEnv (sampleKernel 0 1) sampleAllocator).passes = [] ∧
    (Run sampleModes sampleEnv (sampleKernel 0 1) sampleAllocator).kernel.data_buffers_ = [] ∧
    (Run sampleModes sampleEnv (sampleKernel 0 1) sampleAllocator).alloc.live = [100, 5] := by
  decide

/-- C3, evaluated on the code: with two axes and every collaborator succeeding `Run`
dispatches one pass only, the terminal pass of axis 1 reading the widened input (block
`101`), and scratch buffer 0 (block `100`) is never written; with three axes it dispatches
two passes, the non-terminal pass of axis 0 and the terminal pass of axis 2 reading
scratch buffer 0, and the pass of axis 1 is missing. -/
theorem Run_dispatches_one_pass_less :
    (Run sampleModes sampleEnv (sampleKernel 0 2) sampleAllocator).outcome
      = Outcome.returned RET_OK ∧
    (Run sampleModes sampleEnv (sampleKernel 0 2) sampleAllocator).passes
      = [{ is_last_axis := true, outer_size := 1, inner_size := 4, axis_size := 3,
           src := 101, dst := 8,
           quant_arg := { sampleQuantArg with mean_multiplier_ := 101,
                                              mean_right_shift_ := 1 } }] ∧
    (Run sampleModes sampleEnv (sampleKernel 0 3) sampleAllocator).outcome
      = Outcome.returned RET_OK ∧
    (Run sampleModes sampleEnv (sampleKernel 0 3) sampleAllocator).passes
      = [{ is_last_axis := false, outer_size := 1, inner_size := 12, axis_size := 2,
           src := 102, dst := 100,
           quant_arg := { sampleQuantArg with mean_multiplier_ := 100 } },
         { is_last_axis := true, outer_size := 1, inner_size := 1, axis_size := 4,
           src := 100, dst := 8,
           quant_arg := { sampleQuantArg with mean_multiplier_ := 102,
                                              mean_right_shift_ := 2 } }] := by
  decide

/-- C4, evaluated on the code: on every kernel with a single axis (no scratch size),
when `Prepare` succeeds and the one `Malloc` call returns a block, `Run` does not return
`RET_OK`, whatever the dispatcher would answer: it ends in undefined behaviour before any
pass is dispatched. -/
theorem Run_single_axis_never_returns {D : Type} (E : ReduceModeEnum) (env : Env)
    (k : Kernel D) (a : Allocator) (hsingle : k.buffer_sizes_ = [])
    (hprep : env.prepare_ret = RET_OK) (hmalloc : env.malloc 0 ≠ 0) :
    (Run E env k a).outcome = Outcome.undefined ∧ (Run E env k a).passes = [] := by
  have hM : MallocTmpBuffer env.malloc k a
      = (RET_OK, { k with data_buffers_ := [], begin_src_data_ := env.malloc 0 },
          a.Malloc (env.malloc 0)) := by
    simp [MallocTmpBuffer, hsingle, MallocTmpBuffer.loop, hmalloc]
  have hbound : size_t_sub 0 1 = (2 ^ 64 - 2) + 1 := by decide
  unfold Run
  rw [if_neg (not_not.mpr hprep), hM]
  simp only [ne_eq, not_true_eq_false, if_false, List.length_nil, hbound]
  rw [Run.loop]
  cases hq : GetQuantArgs E 0
      { k with data_buffers_ := [], begin_src_data_ := env.malloc 0, is_last_axis_ := false,
               src_data_ := env.malloc 0 } with
  | none => simp
  | some k1 =>
    have hfr := GetQuantArgs_frame E _ _ k1 hq
    have hdb : k1.data_buffers_ = [] := by rw [hfr]
    simp [hdb]

/-- Witness of C4's evaluation: the sample single-axis kernel with succeeding
collaborators. -/
theorem Run_single_axis_never_returns_witness :
    (sampleKernel 0 1).buffer_sizes_ = [] ∧ sampleEnv.prepare_ret = RET_OK ∧
    (Run sampleModes sampleEnv (sampleKernel 0 1) sampleAllocator).outcome
      ≠ Outcome.returned RET_OK := by
  refine ⟨rfl, rfl, ?_⟩
  rw [(Run_single_axis_never_returns sampleModes sampleEnv (sampleKernel 0 1) sampleAllocator
    rfl rfl (by decide)).1]
  decide

/-- C10: for every kernel state and allocator, `FreeTmpBuffer` passes to `Free` exactly
the non-null handles the kernel holds, each handle once and in order, changes nothing of
the kernel but `data_buffers_`, which it empties, and `begin_src_data_`, which it nulls;
when the held handles are pairwise distinct, each block is freed exactly once; a second
consecutive call frees nothing and leaves kernel and allocator unchanged. In particular after a `MallocTmpBuffer` that failed at allocation `n` (the blocks of the
calls `0 .. n - 1` were handed out, call `n` returned null) it frees those `n` blocks,
and whatever `begin_src_data_` held before. -/
theorem FreeTmpBuffer_frees_once_and_is_idempotent {D : Type} (k : Kernel D)
    (a : Allocator) :
    (FreeTmpBuffer k a).1 = { k with data_buffers_ := [], begin_src_data_ := 0 } ∧
    (FreeTmpBuffer k a).2.freed = a.freed ++ heldBuffers k ∧
    ((heldBuffers k).Nodup → ∀ p ∈ heldBuffers k,
      (FreeTmpBuffer k a).2.freed.count p = a.freed.count p + 1) ∧
    (FreeTmpBuffer k a).2.allocated = a.allocated ∧
    (FreeTmpBuffer k a).2.live = eraseAll a.live (heldBuffers k) ∧
    FreeTmpBuffer (FreeTmpBuffer k a).1 (FreeTmpBuffer k a).2 = FreeTmpBuffer k a ∧
    ∀ (malloc : Nat → Ptr) (n : Nat), n < k.buffer_sizes_.length →
      (∀ j, j < n → malloc j ≠ 0) → malloc n = 0 →
      (MallocTmpBuffer malloc k a).1 = RET_ERROR ∧
      (MallocTmpBuffer malloc k a).2.1.data_buffers_ = (List.range n).map malloc ∧
      (FreeTmpBuffer (MallocTmpBuffer malloc k a).2.1 (MallocTmpBuffer malloc k a).2.2).2.freed
        = a.freed ++ ((List.range n).map malloc ++
            if k.begin_src_data_ ≠ 0 then [k.begin_src_data_] else []) ∧
      (FreeTmpBuffer (MallocTmpBuffer malloc k a).2.1
        (MallocTmpBuffer malloc k a).2.2).1.data_buffers_ = [] ∧
      (FreeTmpBuffer (MallocTmpBuffer malloc k a).2.1
        (MallocTmpBuffer malloc k a).2.2).1.begin_src_data_ = 0 := by
  obtain ⟨h1, h2, h3, h4⟩ := FreeTmpBuffer_spec k a
  refine ⟨h1, h2, ?_, h3, h4, ?_, ?_⟩
  · intro hnd p hp
    rw [h2, List.count_append, List.count_eq_one_of_mem hnd hp]
  · obtain ⟨g1, g2, g3, g4⟩ := FreeTmpBuffer_spec (FreeTmpBuffer k a).1 (FreeTmpBuffer k a).2
    have hheld : heldBuffers (FreeTmpBuffer k a).1 = [] := by
      rw [h1]; simp [heldBuffers]
    rw [hheld] at g2 g4
    have hk : (FreeTmpBuffer (FreeTmpBuffer k a).1 (FreeTmpBuffer k a).2).1
        = (FreeTmpBuffer k a).1 := by
      rw [g1, h1]
    have ha : (FreeTmpBuffer (FreeTmpBuffer k a).1 (FreeTmpBuffer k a).2).2
        = (FreeTmpBuffer k a).2 := by
      cases hx : (FreeTmpBuffer (FreeTmpBuffer k a).1 (FreeTmpBuffer k a).2).2
      cases hy : (FreeTmpBuffer k a).2
      rw [hx, hy] at g2 g3 g4
      simp only [List.append_nil, eraseAll_nil] at g2 g3 g4
      simp [g2, g3, g4]
    exact Prod.ext hk ha
  · intro malloc n hn hnz hzero
    obtain ⟨m, hm, hmnz, hf, h⟩ := MallocTmpBuffer_spec malloc k a
    have hmn : m = n := by
      rcases h with ⟨-, hmlen, -, -, -, -⟩ | ⟨-, hp, -, -, -⟩
      · exact absurd hzero (hmnz n (by omega))
      · rcases Nat.lt_trichotomy m n with hlt | heq | hgt
        · exact absurd hp (hnz m hlt)
        · exact heq
        · exact absurd hzero (hmnz n hgt)
    subst hmn
    rcases h with ⟨-, hmlen, -, -, -, -⟩ | ⟨hret, hp, hk, hl, hal⟩
    · omega
    · have hret2 : (MallocTmpBuffer malloc k a).1 = RET_ERROR := by
        rcases hret with ⟨-, h5⟩ | ⟨h5, -⟩
        · omega
        · exact h5
      obtain ⟨g1, g2, g3, g4⟩ := FreeTmpBuffer_spec (MallocTmpBuffer malloc k a).2.1
        (MallocTmpBuffer malloc k a).2.2
      have hfil := filter_ne_zero_map_malloc malloc m hmnz
      refine ⟨hret2, ?_, ?_, by rw [g1], by rw [g1]⟩
      · rw [hk, List.range_eq_range']
      · rw [g2, hf, hk]
        simp only [heldBuffers, hfil, Nat.ne_of_lt hn, if_false, List.range_eq_range']

/-- Witness of C10: on the sample kernel with three axes the second `Malloc` fails;
`MallocTmpBuffer` returns `RET_ERROR` holding block `100`, and `FreeTmpBuffer` frees
exactly that block. -/
theorem FreeTmpBuffer_frees_once_and_is_idempotent_witness :
    (1 : Nat) < (sampleKernel 0 3).buffer_sizes_.length ∧
    sampleEnvSecondMallocFails.malloc 1 = 0 ∧
    (MallocTmpBuffer sampleEnvSecondMallocFails.malloc (sampleKernel 0 3)
      sampleAllocator).1 = RET_ERROR ∧
    (FreeTmpBuffer
      (MallocTmpBuffer sampleEnvSecondMallocFails.malloc (sampleKernel 0 3)
        sampleAllocator).2.1
      (MallocTmpBuffer sampleEnvSecondMallocFails.malloc (sampleKernel 0 3)
        sampleAllocator).2.2).2.freed = [100] := by
  have h := (FreeTmpBuffer_frees_once_and_is_idempotent (sampleKernel 0 3)
    sampleAllocator).2.2.2.2.2.2 sampleEnvSecondMallocFails.malloc 1 (by decide)
    (by intro j hj; interval_cases j; decide) rfl
  exact ⟨by decide, rfl, h.1, h.2.2.1.trans (by decide)⟩

/-! ## Lemmas on `CalculateQuantArgs` -/

theorem shiftPairOf_of_inRange (s : Int) (h : ShiftInRange s) :
    ShiftPairOf s (left_shift_of s) (right_shift_of s) := by
  obtain ⟨h1, h2⟩ := h
  norm_num at h1 h2
  unfold ShiftPairOf left_shift_of right_shift_of wrapInt32
  norm_num
  split_ifs <;> omega

theorem getElem?_append_singleton_length {α : Type} (ms : List α) (e : α) :
    (ms ++ [e])[ms.length]? = some e := by
  simp

/-- The mean loop that runs to its end appends one object per iteration, built from
`1 / L` with `L` the length of the axis. -/
theorem meanLoop_next {D : Type} (ops : DoubleOps D) (Q : D → Int × Int)
    (new_ok : Nat → Bool) (k : Kernel D) (remaining i : Nat) (ms ms1 : List QuantMulArg)
    (h : CalculateQuantArgs.meanLoop ops Q new_ok k remaining i ms = some (none, ms1)) :
    ms1.length = ms.length + remaining ∧ (∀ j, j < ms.length → ms1[j]? = ms[j]?) ∧
    ∀ j, j < remaining → ∃ L, axisLength k (i + j) = some L ∧
      ms1[ms.length + j]? = some (newQuantMulArg Q (ops.div ops.one (ops.ofInt L))) := by
  induction remaining generalizing i ms with
  | zero =>
    simp only [CalculateQuantArgs.meanLoop, Option.some.injEq, Prod.mk.injEq, true_and] at h
    subst h
    exact ⟨rfl, fun _ _ => rfl, fun j hj => absurd hj (Nat.not_lt_zero j)⟩
  | succ n ih =>
    rw [CalculateQuantArgs.meanLoop] at h
    cases hax : k.axes_[i]? with
    | none => rw [hax] at h; cases h
    | some axis =>
      rw [hax] at h
      simp only at h
      cases hsh : shapeAt k.in_tensor.shape axis with
      | none => rw [hsh] at h; cases h
      | some len =>
        rw [hsh] at h
        simp only at h
        cases hok : new_ok i with
        | false => simp [hok] at h
        | true =>
          simp only [hok, Bool.not_true, Bool.false_eq_true, if_false] at h
          obtain ⟨h1, h2, h3⟩ := ih (i + 1) _ h
          simp only [List.length_append, List.length_singleton] at h1 h2 h3
          refine ⟨by omega, ?_, ?_⟩
          · intro j hj
            rw [h2 j (by omega), List.getElem?_append_left hj]
          · intro j hj
            cases j with
            | zero =>
              refine ⟨len, by simp [axisLength, hax, hsh], ?_⟩
              rw [Nat.add_zero, h2 ms.length (by omega)]
              exact getElem?_append_singleton_length ms _
            | succ j =>
              obtain ⟨L, hL1, hL2⟩ := h3 j (by omega)
              refine ⟨L, ?_, ?_⟩
              · rw [← hL1]; congr 1; omega
              · rw [← hL2]; congr 1; omega

/-- Whatever way the mean loop ends, the objects it appended were built by the deriver. -/
theorem meanLoop_built {D : Type} (ops : DoubleOps D) (Q : D → Int × Int)
    (new_ok : Nat → Bool) (k : Kernel D) (remaining i : Nat) (ms ms1 : List QuantMulArg)
    (st : Option Int)
    (h : CalculateQuantArgs.meanLoop ops Q new_ok k remaining i ms = some (st, ms1)) :
    (st = none ∨ st = some RET_NULL_PTR) ∧ ∀ qm ∈ ms1, qm ∈ ms ∨ BuiltBy Q qm := by
  induction remaining generalizing i ms with
  | zero =>
    simp only [CalculateQuantArgs.meanLoop, Option.some.injEq, Prod.mk.injEq] at h
    obtain ⟨rfl, rfl⟩ := h
    exact ⟨Or.inl rfl, fun qm hqm => Or.inl hqm⟩
  | succ n ih =>
    rw [CalculateQuantArgs.meanLoop] at h
    cases hax : k.axes_[i]? with
    | none => rw [hax] at h; cases h
    | some axis =>
      rw [hax] at h
      simp only at h
      cases hsh : shapeAt k.in_tensor.shape axis with
      | none => rw [hsh] at h; cases h
      | some len =>
        rw [hsh] at h
        simp only at h
        cases hok : new_ok i with
        | false =>
          simp only [hok, Bool.not_false, if_true, Option.some.injEq, Prod.mk.injEq] at h
          obtain ⟨rfl, rfl⟩ := h
          exact ⟨Or.inr rfl, fun qm hqm => Or.inl hqm⟩
        | true =>
          simp only [hok, Bool.not_true, Bool.false_eq_true, if_false] at h
          obtain ⟨h1, h2⟩ := ih (i + 1) _ h
          refine ⟨h1, fun qm hqm => ?_⟩
          rcases h2 qm hqm with h3 | h3
          · rcases List.mem_append.mp h3 with h4 | h4
            · exact Or.inl h4
            · exact Or.inr ⟨_, List.mem_singleton.mp h4⟩
          · exact Or.inr h3

/-- The mean loop runs to its end when every allocation succeeds and every axis length
can be read. -/
theorem meanLoop_total {D : Type} (ops : DoubleOps D) (Q : D → Int × Int)
    (new_ok : Nat → Bool) (k : Kernel D) (remaining i : Nat) (ms : List QuantMulArg)
    (h : ∀ j, j < remaining → new_ok (i + j) = true ∧ ∃ L, axisLength k (i + j) = some L) :
    ∃ ms1, CalculateQuantArgs.meanLoop ops Q new_ok k remaining i ms = some (none, ms1) := by
  induction remaining generalizing i ms with
  | zero => exact ⟨ms, rfl⟩
  | succ n ih =>
    obtain ⟨hok, L, hL⟩ := h 0 (Nat.succ_pos n)
    rw [Nat.add_zero] at hok hL
    simp only [axisLength, Option.bind_eq_some] at hL
    obtain ⟨axis, hax, hsh⟩ := hL
    rw [CalculateQuantArgs.meanLoop, hax]
    simp only [hsh, hok, Bool.not_true, Bool.false_eq_true, if_false]
    apply ih
    intro j hj
    have := h (j + 1) (by omega)
    rwa [show i + (j + 1) = i + 1 + j by omega] at this

/-- The product loop that runs to its end appends one object per iteration, built from
`in_scale ^ (L - 1)` with `L` the length of the axis. -/
theorem prodLoop_next {D : Type} (ops : DoubleOps D) (Q : D → Int × Int)
    (new_ok : Nat → Bool) (k : Kernel D) (remaining i : Nat) (ms ms1 : List QuantMulArg)
    (h : CalculateQuantArgs.prodLoop ops Q new_ok k remaining i ms = some (none, ms1)) :
    ms1.length = ms.length + remaining ∧ (∀ j, j < ms.length → ms1[j]? = ms[j]?) ∧
    ∀ j, j < remaining → ∃ L, axisLength k (i + j) = some L ∧
      ms1[ms.length + j]?
        = some (newQuantMulArg Q (ops.pow k.quant_arg_.in_scale_ (ops.ofInt (L - 1)))) := by
  induction remaining generalizing i ms with
  | zero =>
    simp only [CalculateQuantArgs.prodLoop, Option.some.injEq, Prod.mk.injEq, true_and] at h
    subst h
    exact ⟨rfl, fun _ _ => rfl, fun j hj => absurd hj (Nat.not_lt_zero j)⟩
  | succ n ih =>
    rw [CalculateQuantArgs.prodLoop] at h
    cases hax : k.axes_[i]? with
    | none => rw [hax] at h; cases h
    | some axis =>
      rw [hax] at h
      simp only at h
      cases hsh : shapeAt k.in_tensor.shape axis with
      | none => rw [hsh] at h; cases h
      | some len =>
        rw [hsh] at h
        simp only at h
        cases hok : new_ok i with
        | false => simp [hok] at h
        | true =>
          simp only [hok, Bool.not_true, Bool.false_eq_true, if_false] at h
          obtain ⟨h1, h2, h3⟩ := ih (i + 1) _ h
          simp only [List.length_append, List.length_singleton] at h1 h2 h3
          refine ⟨by omega, ?_, ?_⟩
          · intro j hj
            rw [h2 j (by omega), List.getElem?_append_left hj]
          · intro j hj
            cases j with
            | zero =>
              refine ⟨len, by simp [axisLength, hax, hsh], ?_⟩
              rw [Nat.add_zero, h2 ms.length (by omega)]
              exact getElem?_append_singleton_length ms _
            | succ j =>
              obtain ⟨L, hL1, hL2⟩ := h3 j (by omega)
              refine ⟨L, ?_, ?_⟩
              · rw [← hL1]; congr 1; omega
              · rw [← hL2]; congr 1; omega

/-- Whatever way the product loop ends, the objects it appended were built by the
deriver. -/
theorem prodLoop_built {D : Type} (ops : DoubleOps D) (Q : D → Int × Int)
    (new_ok : Nat → Bool) (k : Kernel D) (remaining i : Nat) (ms ms1 : List QuantMulArg)
    (st : Option Int)
    (h : CalculateQuantArgs.prodLoop ops Q new_ok k remaining i ms = some (st, ms1)) :
    (st = none ∨ st = some RET_NULL_PTR) ∧ ∀ qm ∈ ms1, qm ∈ ms ∨ BuiltBy Q qm := by
  induction remaining generalizing i ms with
  | zero =>
    simp only [CalculateQuantArgs.prodLoop, Option.some.injEq, Prod.mk.injEq] at h
    obtain ⟨rfl, rfl⟩ := h
    exact ⟨Or.inl rfl, fun qm hqm => Or.inl hqm⟩
  | succ n ih =>
    rw [CalculateQuantArgs.prodLoop] at h
    cases hax : k.axes_[i]? with
    | none => rw [hax] at h; cases h
    | some axis =>
      rw [hax] at h
      simp only at h
      cases hsh : shapeAt k.in_tensor.shape axis with
      | none => rw [hsh] at h; cases h
      | some len =>
        rw [hsh] at h
        simp only at h
        cases hok : new_ok i with
        | false =>
          simp only [hok, Bool.not_false, if_true, Option.some.injEq, Prod.mk.injEq] at h
          obtain ⟨rfl, rfl⟩ := h
          exact ⟨Or.inr rfl, fun qm hqm => Or.inl hqm⟩
        | true =>
          simp only [hok, Bool.not_true, Bool.false_eq_true, if_false] at h
          obtain ⟨h1, h2⟩ := ih (i + 1) _ h
          refine ⟨h1, fun qm hqm => ?_⟩
          rcases h2 qm hqm with h3 | h3
          · rcases List.mem_append.mp h3 with h4 | h4
            · exact Or.inl h4
            · exact Or.inr ⟨_, List.mem_singleton.mp h4⟩
          · exact Or.inr h3

/-- The product loop runs to its end when every allocation succeeds and every axis length
can be read. -/
theorem prodLoop_total {D : Type} (ops : DoubleOps D) (Q : D → Int × Int)
    (new_ok : Nat → Bool) (k : Kernel D) (remaining i : Nat) (ms : List QuantMulArg)
    (h : ∀ j, j < remaining → new_ok (i + j) = true ∧ ∃ L, axisLength k (i + j) = some L) :
    ∃ ms1, CalculateQuantArgs.prodLoop ops Q new_ok k remaining i ms = some (none, ms1) := by
  induction remaining generalizing i ms with
  | zero => exact ⟨ms, rfl⟩
  | succ n ih =>
    obtain ⟨hok, L, hL⟩ := h 0 (Nat.succ_pos n)
    rw [Nat.add_zero] at hok hL
    simp only [axisLength, Option.bind_eq_some] at hL
    obtain ⟨axis, hax, hsh⟩ := hL
    rw [CalculateQuantArgs.prodLoop, hax]
    simp only [hsh, hok, Bool.not_true, Bool.false_eq_true, if_false]
    apply ih
    intro j hj
    have := h (j + 1) (by omega)
    rwa [show i + (j + 1) = i + 1 + j by omega] at this

/-- The sum-square loop that runs to its end appends one object per iteration, built
from `in_scale`. -/
theorem sumSquareLoop_next {D : Type} (Q : D → Int × Int)
    (new_ok : Nat → Bool) (k : Kernel D) (remaining i : Nat) (ms ms1 : List QuantMulArg)
    (h : CalculateQuantArgs.sumSquareLoop Q new_ok k remaining i ms = (none, ms1)) :
    ms1 = ms ++ List.replicate remaining (newQuantMulArg Q k.quant_arg_.in_scale_) := by
  induction remaining generalizing i ms with
  | zero =>
    simp only [CalculateQuantArgs.sumSquareLoop, Prod.mk.injEq, true_and] at h
    simp [h]
  | succ n ih =>
    rw [CalculateQuantArgs.sumSquareLoop] at h
    cases hok : new_ok i with
    | false => simp [hok] at h
    | true =>
      simp only [hok, Bool.not_true, Bool.false_eq_true, if_false] at h
      rw [ih (i + 1) _ h]
      simp [List.replicate_succ]

/-- Whatever way the sum-square loop ends, the objects it appended were built by the
deriver. -/
theorem sumSquareLoop_built {D : Type} (Q : D → Int × Int)
    (new_ok : Nat → Bool) (k : Kernel D) (remaining i : Nat) (ms ms1 : List QuantMulArg)
    (st : Option Int)
    (h : CalculateQuantArgs.sumSquareLoop Q new_ok k remaining i ms = (st, ms1)) :
    (st = none ∨ st = some RET_NULL_PTR) ∧ ∀ qm ∈ ms1, qm ∈ ms ∨ BuiltBy Q qm := by
  induction remaining generalizing i ms with
  | zero =>
    simp only [CalculateQuantArgs.sumSquareLoop, Prod.mk.injEq] at h
    obtain ⟨rfl, rfl⟩ := h
    exact ⟨Or.inl rfl, fun qm hqm => Or.inl hqm⟩
  | succ n ih =>
    rw [CalculateQuantArgs.sumSquareLoop] at h
    cases hok : new_ok i with
    | false =>
      simp only [hok, Bool.not_false, if_true, Prod.mk.injEq] at h
      obtain ⟨rfl, rfl⟩ := h
      exact ⟨Or.inr rfl, fun qm hqm => Or.inl hqm⟩
    | true =>
      simp only [hok, Bool.not_true, Bool.false_eq_true, if_false] at h
      obtain ⟨h1, h2⟩ := ih (i + 1) _ h
      refine ⟨h1, fun qm hqm => ?_⟩
      rcases h2 qm hqm with h3 | h3
      · rcases List.mem_append.mp h3 with h4 | h4
        · exact Or.inl h4
        · exact Or.inr ⟨_, List.mem_singleton.mp h4⟩
      · exact Or.inr h3

/-- The sum-square loop runs to its end when every allocation succeeds. -/
theorem sumSquareLoop_total {D : Type} (Q : D → Int × Int)
    (new_ok : Nat → Bool) (k : Kernel D) (remaining i : Nat) (ms : List QuantMulArg)
    (h : ∀ j, j < remaining → new_ok (i + j) = true) :
    ∃ ms1, CalculateQuantArgs.sumSquareLoop Q new_ok k remaining i ms = (none, ms1) := by
  induction remaining generalizing i ms with
  | zero => exact ⟨ms, rfl⟩
  | succ n ih =>
    have hok := h 0 (Nat.succ_pos n)
    rw [Nat.add_zero] at hok
    rw [CalculateQuantArgs.sumSquareLoop]
    simp only [hok, Bool.not_true, Bool.false_eq_true, if_false]
    apply ih
    intro j hj
    have := h (j + 1) (by omega)
    rwa [show i + (j + 1) = i + 1 + j by omega] at this

/-- Pairwise distinct enumerators, spelled out. -/
theorem modes_distinct (E : ReduceModeEnum) (hE : E.values.Nodup) :
    E.ReduceMode_ReduceMean ≠ E.ReduceMode_ReduceProd ∧
    E.ReduceMode_ReduceMean ≠ E.ReduceMode_ReduceSumSquare ∧
    E.ReduceMode_ReduceProd ≠ E.ReduceMode_ReduceSumSquare := by
  simp only [ReduceModeEnum.values, List.nodup_cons, List.mem_cons, List.mem_singleton,
    not_or, List.not_mem_nil, not_false_eq_true, List.nodup_nil, and_true] at hE
  obtain ⟨⟨-, -, -, h1, h2⟩, -, -, -, h3⟩ := hE
  exact ⟨h1, h2, h3⟩

/-- In mode `ReduceMean`, `GetQuantArgs(i)` loads entry `i` of `mean_multipliers_` into
the three `mean_*` fields and nothing else. -/
theorem GetQuantArgs_mean {D : Type} (E : ReduceModeEnum) (hE : E.values.Nodup) (i : Nat)
    (k : Kernel D) (qm : QuantMulArg) (hmode : k.mode_ = E.ReduceMode_ReduceMean)
    (hi : k.mean_multipliers_[i]? = some qm) :
    GetQuantArgs E i k = some { k with quant_arg_ := { k.quant_arg_ with
      mean_multiplier_ := qm.multiplier_
      mean_left_shift_ := qm.left_shift_
      mean_right_shift_ := qm.right_shift_ } } := by
  obtain ⟨h1, h2, -⟩ := modes_distinct E hE
  simp [GetQuantArgs, hmode, hi, h1, h2]

/-- In mode `ReduceProd`, `GetQuantArgs(i)` loads entry `i` of `prod_multipliers_` into
the three `prod_*` fields and nothing else. -/
theorem GetQuantArgs_prod {D : Type} (E : ReduceModeEnum) (hE : E.values.Nodup) (i : Nat)
    (k : Kernel D) (qm : QuantMulArg) (hmode : k.mode_ = E.ReduceMode_ReduceProd)
    (hi : k.prod_multipliers_[i]? = some qm) :
    GetQuantArgs E i k = some { k with quant_arg_ := { k.quant_arg_ with
      prod_multiplier_ := qm.multiplier_
      prod_left_shift_ := qm.left_shift_
      prod_right_shift_ := qm.right_shift_ } } := by
  obtain ⟨h1, -, h3⟩ := modes_distinct E hE
  simp [GetQuantArgs, hmode, hi, h1.symm, h3]

/-- In mode `ReduceSumSquare`, `GetQuantArgs(i)` loads entry `i` of
`sum_square_multipliers_` into the three `sum_square_*` fields and nothing else. -/
theorem GetQuantArgs_sum_square {D : Type} (E : ReduceModeEnum) (hE : E.values.Nodup)
    (i : Nat) (k : Kernel D) (qm : QuantMulArg)
    (hmode : k.mode_ = E.ReduceMode_ReduceSumSquare)
    (hi : k.sum_square_multipliers_[i]? = some qm) :
    GetQuantArgs E i k = some { k with quant_arg_ := { k.quant_arg_ with
      sum_square_multiplier_ := qm.multiplier_
      sum_square_left_shift_ := qm.left_shift_
      sum_square_right_shift_ := qm.right_shift_ } } := by
  obtain ⟨-, h2, h3⟩ := modes_distinct E hE
  simp [GetQuantArgs, hmode, hi, h2.symm, h3.symm]


theorem inOut_mode {D : Type} (ops : DoubleOps D) (Q : D → Int × Int) (iq oq : QuantArg D)
    (k : Kernel D) : (CalculateQuantArgs.inOut ops Q iq oq k).mode_ = k.mode_ := rfl

theorem inOut_num_axes {D : Type} (ops : DoubleOps D) (Q : D → Int × Int)
    (iq oq : QuantArg D) (k : Kernel D) :
    (CalculateQuantArgs.inOut ops Q iq oq k).num_axes_ = k.num_axes_ := rfl

theorem inOut_mean {D : Type} (ops : DoubleOps D) (Q : D → Int × Int) (iq oq : QuantArg D)
    (k : Kernel D) :
    (CalculateQuantArgs.inOut ops Q iq oq k).mean_multipliers_ = k.mean_multipliers_ := rfl

theorem inOut_prod {D : Type} (ops : DoubleOps D) (Q : D → Int × Int) (iq oq : QuantArg D)
    (k : Kernel D) :
    (CalculateQuantArgs.inOut ops Q iq oq k).prod_multipliers_ = k.prod_multipliers_ := rfl

theorem inOut_sum_square {D : Type} (ops : DoubleOps D) (Q : D → Int × Int)
    (iq oq : QuantArg D) (k : Kernel D) :
    (CalculateQuantArgs.inOut ops Q iq oq k).sum_square_multipliers_
      = k.sum_square_multipliers_ := rfl

theorem inOut_in_scale {D : Type} (ops : DoubleOps D) (Q : D → Int × Int)
    (iq oq : QuantArg D) (k : Kernel D) :
    (CalculateQuantArgs.inOut ops Q iq oq k).quant_arg_.in_scale_ = iq.scale := rfl

theorem inOut_out_scale {D : Type} (ops : DoubleOps D) (Q : D → Int × Int)
    (iq oq : QuantArg D) (k : Kernel D) :
    (CalculateQuantArgs.inOut ops Q iq oq k).quant_arg_.out_scale_ = oq.scale := rfl

theorem inOut_axisLength {D : Type} (ops : DoubleOps D) (Q : D → Int × Int)
    (iq oq : QuantArg D) (k : Kernel D) (i : Nat) :
    axisLength (CalculateQuantArgs.inOut ops Q iq oq k) i = axisLength k i := rfl

theorem head?_of_ne_nil {α : Type} (l : List α) (h : l ≠ []) : ∃ x, l.head? = some x := by
  cases l with
  | nil => exact absurd rfl h
  | cons x _ => exact ⟨x, rfl⟩

theorem meanStage_built {D : Type} (ops : DoubleOps D) (Q : D → Int × Int)
    (new_ok : Nat → Bool) (K : Kernel D) (c : Prop) [Decidable c] (n : Nat)
    (old ms : List QuantMulArg) (st : Option Int)
    (h : (if c then CalculateQuantArgs.meanLoop ops Q new_ok K n 0 old
          else some (none, old)) = some (st, ms)) :
    ∀ qm ∈ ms, qm ∈ old ∨ BuiltBy Q qm := by
  split_ifs at h
  · exact (meanLoop_built ops Q new_ok K n 0 old ms st h).2
  · simp only [Option.some.injEq, Prod.mk.injEq] at h
    obtain ⟨-, rfl⟩ := h
    exact fun qm hqm => Or.inl hqm

theorem prodStage_built {D : Type} (ops : DoubleOps D) (Q : D → Int × Int)
    (new_ok : Nat → Bool) (K : Kernel D) (c : Prop) [Decidable c] (n : Nat)
    (old ms : List QuantMulArg) (st : Option Int)
    (h : (if c then CalculateQuantArgs.prodLoop ops Q new_ok K n 0 old
          else some (none, old)) = some (st, ms)) :
    ∀ qm ∈ ms, qm ∈ old ∨ BuiltBy Q qm := by
  split_ifs at h
  · exact (prodLoop_built ops Q new_ok K n 0 old ms st h).2
  · simp only [Option.some.injEq, Prod.mk.injEq] at h
    obtain ⟨-, rfl⟩ := h
    exact fun qm hqm => Or.inl hqm

/-- Whatever status `CalculateQuantArgs` returns, the kernel it leaves has the
input/output part of `quant_arg_` set from the first quantization parameters, and every
object in the three multiplier lists was there before or was built by the deriver. -/
theorem CalculateQuantArgs_built {D : Type} (E : ReduceModeEnum) (ops : DoubleOps D)
    (Q : D → Int × Int) (nenv : NewEnv) (k k1 : Kernel D) (ret : Int)
    (h : CalculateQuantArgs E ops Q nenv k = some (ret, k1)) :
    (∃ iq oq, k.in_tensor.quant_params.head? = some iq ∧
      k.out_tensor.quant_params.head? = some oq ∧
      k1.quant_arg_ = (CalculateQuantArgs.inOut ops Q iq oq k).quant_arg_) ∧
    (∀ qm ∈ k1.mean_multipliers_, qm ∈ k.mean_multipliers_ ∨ BuiltBy Q qm) ∧
    (∀ qm ∈ k1.prod_multipliers_, qm ∈ k.prod_multipliers_ ∨ BuiltBy Q qm) ∧
    (∀ qm ∈ k1.sum_square_multipliers_,
      qm ∈ k.sum_square_multipliers_ ∨ BuiltBy Q qm) := by
  unfold CalculateQuantArgs at h
  cases hiq : k.in_tensor.quant_params.head? with
  | none => rw [hiq] at h; simp at h
  | some iq =>
    cases hoq : k.out_tensor.quant_params.head? with
    | none => rw [hiq, hoq] at h; simp at h
    | some oq =>
      rw [hiq, hoq] at h
      simp only at h
      refine ⟨⟨iq, oq, rfl, rfl, ?_⟩, ?_⟩
      all_goals
        split at h
        · cases h
        · rename_i status ms hm
          simp only [Option.some.injEq, Prod.mk.injEq] at h
          obtain ⟨-, rfl⟩ := h
          first
          | rfl
          | exact ⟨meanStage_built ops Q _ _ _ _ _ _ _ hm, fun qm hqm => Or.inl hqm,
              fun qm hqm => Or.inl hqm⟩
        · rename_i ms hm
          have hms := meanStage_built ops Q _ _ _ _ _ _ _ hm
          split at h
          · cases h
          · rename_i status ps hp
            simp only [Option.some.injEq, Prod.mk.injEq] at h
            obtain ⟨-, rfl⟩ := h
            first
            | rfl
            | exact ⟨hms, prodStage_built ops Q _ _ _ _ _ _ _ hp, fun qm hqm => Or.inl hqm⟩
          · rename_i ps hp
            have hps := prodStage_built ops Q _ _ _ _ _ _ _ hp
            split at h
            · split at h
              · rename_i status ss hs
                simp only [Option.some.injEq, Prod.mk.injEq] at h
                obtain ⟨-, rfl⟩ := h
                first
                | rfl
                | exact ⟨hms, hps, (sumSquareLoop_built Q _ _ _ _ _ _ _ hs).2⟩
              · rename_i ss hs
                have hss := (sumSquareLoop_built Q _ _ _ _ _ _ _ hs).2
                split at h
                · simp only [Option.some.injEq, Prod.mk.injEq] at h
                  obtain ⟨-, rfl⟩ := h
                  first
                  | rfl
                  | exact ⟨hms, hps, hss⟩
                · simp only [Option.some.injEq, Prod.mk.injEq] at h
                  obtain ⟨-, rfl⟩ := h
                  first
                  | rfl
                  | refine ⟨hms, hps, fun qm hqm => ?_⟩
                    rcases List.mem_append.mp hqm with h4 | h4
                    · exact hss qm h4
                    · exact Or.inr ⟨_, List.mem_singleton.mp h4⟩
            · simp only [Option.some.injEq, Prod.mk.injEq] at h
              obtain ⟨-, rfl⟩ := h
              first
              | rfl
              | exact ⟨hms, hps, fun qm hqm => Or.inl hqm⟩

/-! ## The claims on `CalculateQuantArgs`, `GetQuantArgs` and `Init` -/

/-- The entries of mode `ReduceMean` as the code builds them: `CalculateQuantArgs`
returns `RET_OK` when the quantization parameters are present, every axis length can be
read and every `new QuantMulArg` succeeds; whenever it returns `RET_OK` on a kernel
whose `mean_multipliers_` was empty the list has `N` entries, entry `i` is the object
built for `1 / L_i`, and `GetQuantArgs(i)` loads its three fields. -/
theorem CalculateQuantArgs_mean_entries {D : Type} (E : ReduceModeEnum)
    (ops : DoubleOps D) (Q : D → Int × Int) (nenv : NewEnv) (k : Kernel D) (N : Nat)
    (hE : E.values.Nodup) (hmode : k.mode_ = E.ReduceMode_ReduceMean)
    (hnum : k.num_axes_ = N) (hempty : k.mean_multipliers_ = []) :
    ((k.in_tensor.quant_params ≠ [] ∧ k.out_tensor.quant_params ≠ [] ∧
        ∀ i, i < N → nenv.mean_ok i = true ∧ ∃ L, axisLength k i = some L) →
      ∃ k1, CalculateQuantArgs E ops Q nenv k = some (RET_OK, k1)) ∧
    ∀ k1, CalculateQuantArgs E ops Q nenv k = some (RET_OK, k1) →
      k1.mean_multipliers_.length = N ∧
      ∀ i, i < N → ∃ L, axisLength k i = some L ∧
        k1.mean_multipliers_[i]?
          = some (newQuantMulArg Q (ops.div ops.one (ops.ofInt L))) ∧
        GetQuantArgs E i k1 = some { k1 with quant_arg_ := { k1.quant_arg_ with
          mean_multiplier_ := (Q (ops.div ops.one (ops.ofInt L))).1
          mean_left_shift_ := left_shift_of (Q (ops.div ops.one (ops.ofInt L))).2
          mean_right_shift_ := right_shift_of (Q (ops.div ops.one (ops.ofInt L))).2 } } := by
  obtain ⟨hd1, hd2, -⟩ := modes_distinct E hE
  have hp : ¬ E.ReduceMode_ReduceMean = E.ReduceMode_ReduceProd := hd1
  have hs : ¬ E.ReduceMode_ReduceMean = E.ReduceMode_ReduceSumSquare := hd2
  constructor
  · rintro ⟨hin, hout, hax⟩
    obtain ⟨iq, hiq⟩ := head?_of_ne_nil _ hin
    obtain ⟨oq, hoq⟩ := head?_of_ne_nil _ hout
    obtain ⟨ms1, hms1⟩ := meanLoop_total ops Q nenv.mean_ok
      (CalculateQuantArgs.inOut ops Q iq oq k) N 0 [] (fun j hj => by simpa using hax j hj)
    unfold CalculateQuantArgs
    rw [hiq, hoq]
    simp only [inOut_mode, inOut_num_axes, inOut_mean, hmode, if_true, hnum, Int.toNat_ofNat,
      hempty, hp, hs, if_false, hms1]
    exact ⟨_, rfl⟩
  · intro k1 h
    unfold CalculateQuantArgs at h
    cases hiq : k.in_tensor.quant_params.head? with
    | none => rw [hiq] at h; simp at h
    | some iq =>
      cases hoq : k.out_tensor.quant_params.head? with
      | none => rw [hiq, hoq] at h; simp at h
      | some oq =>
        rw [hiq, hoq] at h
        simp only [inOut_mode, inOut_num_axes, inOut_mean, hmode, if_true, hnum,
          Int.toNat_ofNat, hempty, hp, hs, if_false] at h
        cases hml : CalculateQuantArgs.meanLoop ops Q nenv.mean_ok
            (CalculateQuantArgs.inOut ops Q iq oq k) N 0 [] with
        | none => rw [hml] at h; simp at h
        | some res =>
          obtain ⟨st, ms⟩ := res
          rw [hml] at h
          cases st with
          | some status =>
            simp only [Option.some.injEq, Prod.mk.injEq] at h
            have h2 := (meanLoop_built ops Q nenv.mean_ok _ N 0 [] ms _ hml).1
            rw [h.1] at h2
            simp [RET_OK, RET_NULL_PTR] at h2
          | none =>
            simp only [Option.some.injEq, Prod.mk.injEq, true_and] at h
            subst h
            obtain ⟨h1, -, h3⟩ := meanLoop_next ops Q nenv.mean_ok _ N 0 [] ms hml
            refine ⟨by simpa using h1, ?_⟩
            intro i hi
            obtain ⟨L, hL1, hL2⟩ := h3 i hi
            simp only [List.length_nil, Nat.zero_add] at hL1 hL2
            refine ⟨L, hL1, hL2, ?_⟩
            apply GetQuantArgs_mean E hE i _ (newQuantMulArg Q (ops.div ops.one (ops.ofInt L)))
            · rfl
            · exact hL2

/-- The entries of mode `ReduceProd` as the code builds them: `CalculateQuantArgs`
returns `RET_OK` when the quantization parameters are present, every axis length can be
read and every `new QuantMulArg` succeeds; whenever it returns `RET_OK` on a kernel
whose `prod_multipliers_` was empty the list has `N` entries, entry `i` is the object
built for `pow(in_scale, L_i - 1)`, and `GetQuantArgs(i)` loads its three fields. -/
theorem CalculateQuantArgs_prod_entries {D : Type} (E : ReduceModeEnum)
    (ops : DoubleOps D) (Q : D → Int × Int) (nenv : NewEnv) (k : Kernel D) (N : Nat)
    (hE : E.values.Nodup) (hmode : k.mode_ = E.ReduceMode_ReduceProd)
    (hnum : k.num_axes_ = N) (hempty : k.prod_multipliers_ = []) :
    ((k.in_tensor.quant_params ≠ [] ∧ k.out_tensor.quant_params ≠ [] ∧
        ∀ i, i < N → nenv.prod_ok i = true ∧ ∃ L, axisLength k i = some L) →
      ∃ k1, CalculateQuantArgs E ops Q nenv k = some (RET_OK, k1)) ∧
    ∀ k1, CalculateQuantArgs E ops Q nenv k = some (RET_OK, k1) →
      k1.prod_multipliers_.length = N ∧
      ∃ iq, k.in_tensor.quant_params.head? = some iq ∧
        k1.quant_arg_.in_scale_ = iq.scale ∧
        ∀ i, i < N → ∃ L, axisLength k i = some L ∧
          k1.prod_multipliers_[i]?
            = some (newQuantMulArg Q (ops.pow iq.scale (ops.ofInt (L - 1)))) ∧
          GetQuantArgs E i k1 = some { k1 with quant_arg_ := { k1.quant_arg_ with
            prod_multiplier_ := (Q (ops.pow iq.scale (ops.ofInt (L - 1)))).1
            prod_left_shift_ := left_shift_of (Q (ops.pow iq.scale (ops.ofInt (L - 1)))).2
            prod_right_shift_ :=
              right_shift_of (Q (ops.pow iq.scale (ops.ofInt (L - 1)))).2 } } := by
  obtain ⟨hd1, -, hd3⟩ := modes_distinct E hE
  have hp : ¬ E.ReduceMode_ReduceProd = E.ReduceMode_ReduceMean := fun h => hd1 h.symm
  have hs : ¬ E.ReduceMode_ReduceProd = E.ReduceMode_ReduceSumSquare := hd3
  constructor
  · rintro ⟨hin, hout, hax⟩
    obtain ⟨iq, hiq⟩ := head?_of_ne_nil _ hin
    obtain ⟨oq, hoq⟩ := head?_of_ne_nil _ hout
    unfold CalculateQuantArgs
    rw [hiq, hoq]
    simp only [inOut_mode, inOut_num_axes, inOut_prod, hmode, if_true, hnum, Int.toNat_ofNat,
      hempty, hp, hs, if_false]
    generalize hml : CalculateQuantArgs.prodLoop ops Q nenv.prod_ok _ N 0 [] = res
    have hres : ∃ ms1, res = some (none, ms1) := by
      rw [← hml]
      exact prodLoop_total ops Q nenv.prod_ok _ N 0 []
        (fun j hj => by simpa [axisLength, CalculateQuantArgs.inOut] using hax j hj)
    obtain ⟨ms1, rfl⟩ := hres
    exact ⟨_, rfl⟩
  · intro k1 h
    unfold CalculateQuantArgs at h
    cases hiq : k.in_tensor.quant_params.head? with
    | none => rw [hiq] at h; simp at h
    | some iq =>
      cases hoq : k.out_tensor.quant_params.head? with
      | none => rw [hiq, hoq] at h; simp at h
      | some oq =>
        rw [hiq, hoq] at h
        simp only [inOut_mode, inOut_num_axes, inOut_prod, hmode, if_true, hnum,
          Int.toNat_ofNat, hempty, hp, hs, if_false] at h
        generalize hml : CalculateQuantArgs.prodLoop ops Q nenv.prod_ok _ N 0 [] = res at h
        cases res with
        | none => simp at h
        | some res =>
          obtain ⟨st, ms⟩ := res
          cases st with
          | some status =>
            simp only [Option.some.injEq, Prod.mk.injEq] at h
            have h2 := (prodLoop_built ops Q nenv.prod_ok _ N 0 [] ms _ hml).1
            rw [h.1] at h2
            simp [RET_OK, RET_NULL_PTR] at h2
          | none =>
            simp only [Option.some.injEq, Prod.mk.injEq, true_and] at h
            subst h
            obtain ⟨h1, -, h3⟩ := prodLoop_next ops Q nenv.prod_ok _ N 0 [] ms hml
            refine ⟨by simpa using h1, iq, rfl, rfl, ?_⟩
            intro i hi
            obtain ⟨L, hL1, hL2⟩ := h3 i hi
            simp only [List.length_nil, Nat.zero_add] at hL1 hL2
            refine ⟨L, hL1, hL2, ?_⟩
            apply GetQuantArgs_prod E hE i _
              (newQuantMulArg Q (ops.pow iq.scale (ops.ofInt (L - 1))))
            · rfl
            · exact hL2

/-- The entries of mode `ReduceSumSquare` as the code builds them: `CalculateQuantArgs`
returns `RET_OK` when the quantization parameters are present and every
`new QuantMulArg` succeeds; whenever it returns `RET_OK` on a kernel with `N >= 1` axes
whose `sum_square_multipliers_` was empty the list has `N` entries, the first `N - 1`
built for `in_scale` and the last for `in_scale * in_scale / out_scale`, and
`GetQuantArgs(i)` loads the three fields of entry `i`. -/
theorem CalculateQuantArgs_sum_square_entries {D : Type} (E : ReduceModeEnum)
    (ops : DoubleOps D) (Q : D → Int × Int) (nenv : NewEnv) (k : Kernel D) (N : Nat)
    (hE : E.values.Nodup) (hmode : k.mode_ = E.ReduceMode_ReduceSumSquare) (hN : 1 ≤ N)
    (hnum : k.num_axes_ = N) (hempty : k.sum_square_multipliers_ = []) :
    ((k.in_tensor.quant_params ≠ [] ∧ k.out_tensor.quant_params ≠ [] ∧
        (∀ i, i < N - 1 → nenv.sum_square_ok i = true) ∧ nenv.sum_square_last_ok = true) →
      ∃ k1, CalculateQuantArgs E ops Q nenv k = some (RET_OK, k1)) ∧
    ∀ k1, CalculateQuantArgs E ops Q nenv k = some (RET_OK, k1) →
      k1.sum_square_multipliers_.length = N ∧
      ∃ iq oq, k.in_tensor.quant_params.head? = some iq ∧
        k.out_tensor.quant_params.head? = some oq ∧
        (∀ i, i < N - 1 →
          k1.sum_square_multipliers_[i]? = some (newQuantMulArg Q iq.scale)) ∧
        k1.sum_square_multipliers_[N - 1]?
          = some (newQuantMulArg Q (ops.div (ops.mul iq.scale iq.scale) oq.scale)) ∧
        ∀ i, i < N → ∃ qm, k1.sum_square_multipliers_[i]? = some qm ∧
          GetQuantArgs E i k1 = some { k1 with quant_arg_ := { k1.quant_arg_ with
            sum_square_multiplier_ := qm.multiplier_
            sum_square_left_shift_ := qm.left_shift_
            sum_square_right_shift_ := qm.right_shift_ } } := by
  obtain ⟨-, hd2, hd3⟩ := modes_distinct E hE
  have hp : ¬ E.ReduceMode_ReduceSumSquare = E.ReduceMode_ReduceMean := fun h => hd2 h.symm
  have hs : ¬ E.ReduceMode_ReduceSumSquare = E.ReduceMode_ReduceProd := fun h => hd3 h.symm
  have hcount : ((N : Int) - 1).toNat = N - 1 := by omega
  constructor
  · rintro ⟨hin, hout, hok, hlast⟩
    obtain ⟨iq, hiq⟩ := head?_of_ne_nil _ hin
    obtain ⟨oq, hoq⟩ := head?_of_ne_nil _ hout
    unfold CalculateQuantArgs
    rw [hiq, hoq]
    simp only [inOut_mode, inOut_num_axes, inOut_sum_square, hmode, if_true, hnum, hcount,
      hempty, hp, hs, if_false, hlast, Bool.not_true, Bool.false_eq_true]
    generalize hml : CalculateQuantArgs.sumSquareLoop Q nenv.sum_square_ok _ (N - 1) 0 []
      = res
    have hres : ∃ ms1, res = (none, ms1) := by
      rw [← hml]
      exact sumSquareLoop_total Q nenv.sum_square_ok _ (N - 1) 0 []
        (fun j hj => by simpa using hok j hj)
    obtain ⟨ms1, rfl⟩ := hres
    exact ⟨_, rfl⟩
  · intro k1 h
    unfold CalculateQuantArgs at h
    cases hiq : k.in_tensor.quant_params.head? with
    | none => rw [hiq] at h; simp at h
    | some iq =>
      cases hoq : k.out_tensor.quant_params.head? with
      | none => rw [hiq, hoq] at h; simp at h
      | some oq =>
        rw [hiq, hoq] at h
        simp only [inOut_mode, inOut_num_axes, inOut_sum_square, hmode, if_true, hnum,
          hcount, hempty, hp, hs, if_false, inOut_in_scale, inOut_out_scale] at h
        generalize hml : CalculateQuantArgs.sumSquareLoop Q nenv.sum_square_ok _ (N - 1) 0 []
          = res at h
        obtain ⟨st, ss⟩ := res
        cases st with
        | some status =>
          simp only [Option.some.injEq, Prod.mk.injEq] at h
          have h2 := (sumSquareLoop_built Q nenv.sum_square_ok _ (N - 1) 0 [] ss _ hml).1
          rw [h.1] at h2
          simp [RET_OK, RET_NULL_PTR] at h2
        | none =>
          simp only at h
          cases hlast : nenv.sum_square_last_ok with
          | false => simp [hlast, RET_OK, RET_NULL_PTR] at h
          | true =>
            simp only [hlast, Bool.not_true, Bool.false_eq_true, if_false, Option.some.injEq,
              Prod.mk.injEq, true_and] at h
            subst h
            have hss := sumSquareLoop_next Q nenv.sum_square_ok _ (N - 1) 0 [] ss hml
            simp only [List.nil_append] at hss
            subst hss
            have hlen : (List.replicate (N - 1) (newQuantMulArg Q iq.scale)).length = N - 1 :=
              List.length_replicate _ _
            have h1 : ∀ i, i < N - 1 →
                (List.replicate (N - 1) (newQuantMulArg Q iq.scale) ++
                  [newQuantMulArg Q (ops.div (ops.mul iq.scale iq.scale) oq.scale)])[i]?
                  = some (newQuantMulArg Q iq.scale) := by
              intro i hi
              rw [List.getElem?_append_left (by rw [hlen]; exact hi)]
              simp [List.getElem?_replicate, hi]
            have h2 : (List.replicate (N - 1) (newQuantMulArg Q iq.scale) ++
                  [newQuantMulArg Q (ops.div (ops.mul iq.scale iq.scale) oq.scale)])[N - 1]?
                  = some (newQuantMulArg Q (ops.div (ops.mul iq.scale iq.scale) oq.scale)) := by
              have := getElem?_append_singleton_length
                (List.replicate (N - 1) (newQuantMulArg Q iq.scale))
                (newQuantMulArg Q (ops.div (ops.mul iq.scale iq.scale) oq.scale))
              rwa [hlen] at this
            refine ⟨?_, iq, oq, rfl, rfl, h1, h2, ?_⟩
            · simp only [List.length_append, List.length_replicate, List.length_singleton]
              omega
            · intro i hi
              have hex : ∃ qm, (List.replicate (N - 1) (newQuantMulArg Q iq.scale) ++
                  [newQuantMulArg Q (ops.div (ops.mul iq.scale iq.scale) oq.scale)])[i]?
                  = some qm := by
                by_cases hlt : i < N - 1
                · exact ⟨_, h1 i hlt⟩
                · have hi2 : i = N - 1 := by omega
                  rw [hi2]
                  exact ⟨_, h2⟩
              obtain ⟨qm, hqm⟩ := hex
              refine ⟨qm, hqm, ?_⟩
              apply GetQuantArgs_sum_square E hE i _ qm
              · rfl
              · exact hqm

/-- C5: whatever status `CalculateQuantArgs` returns, every shift pair it stored comes
from a shift `s` the deriver `Q` returned, and when `s` is an `int` other than `INT_MIN`
the stored pair is `left_shift = max(0, -s)`, `right_shift = max(0, s)`, so that both are
non-negative, at most one is non-zero and `right_shift - left_shift = s`: this holds for
the input/output pair (derived from `in_scale / out_scale`) and for every object
appended to the mean, product and sum-square lists. -/
theorem CalculateQuantArgs_stores_shift_pairs {D : Type} (E : ReduceModeEnum)
    (ops : DoubleOps D) (Q : D → Int × Int) (nenv : NewEnv) (k k1 : Kernel D) (ret : Int)
    (h : CalculateQuantArgs E ops Q nenv k = some (ret, k1)) :
    (∀ iq oq, k.in_tensor.quant_params.head? = some iq →
      k.out_tensor.quant_params.head? = some oq →
      k1.quant_arg_.in_out_multiplier_ = (Q (ops.div iq.scale oq.scale)).1 ∧
      (ShiftInRange (Q (ops.div iq.scale oq.scale)).2 →
        ShiftPairOf (Q (ops.div iq.scale oq.scale)).2
          k1.quant_arg_.in_out_left_shift_ k1.quant_arg_.in_out_right_shift_)) ∧
    (∀ qm ∈ k1.mean_multipliers_, qm ∈ k.mean_multipliers_ ∨
      ∃ ratio, qm.multiplier_ = (Q ratio).1 ∧
        (ShiftInRange (Q ratio).2 →
          ShiftPairOf (Q ratio).2 qm.left_shift_ qm.right_shift_)) ∧
    (∀ qm ∈ k1.prod_multipliers_, qm ∈ k.prod_multipliers_ ∨
      ∃ ratio, qm.multiplier_ = (Q ratio).1 ∧
        (ShiftInRange (Q ratio).2 →
          ShiftPairOf (Q ratio).2 qm.left_shift_ qm.right_shift_)) ∧
    (∀ qm ∈ k1.sum_square_multipliers_, qm ∈ k.sum_square_multipliers_ ∨
      ∃ ratio, qm.multiplier_ = (Q ratio).1 ∧
        (ShiftInRange (Q ratio).2 →
          ShiftPairOf (Q ratio).2 qm.left_shift_ qm.right_shift_)) := by
  obtain ⟨⟨iq0, oq0, hiq0, hoq0, hqa⟩, hm, hp, hs⟩ :=
    CalculateQuantArgs_built E ops Q nenv k k1 ret h
  have hbuilt : ∀ qm : QuantMulArg, BuiltBy Q qm →
      ∃ ratio, qm.multiplier_ = (Q ratio).1 ∧
        (ShiftInRange (Q ratio).2 →
          ShiftPairOf (Q ratio).2 qm.left_shift_ qm.right_shift_) := by
    rintro qm ⟨ratio, rfl⟩
    exact ⟨ratio, rfl, fun hr => shiftPairOf_of_inRange _ hr⟩
  refine ⟨?_, ?_, ?_, ?_⟩
  · intro iq oq hiq hoq
    rw [hiq0] at hiq
    rw [hoq0] at hoq
    cases hiq
    cases hoq
    rw [hqa]
    exact ⟨rfl, fun hr => shiftPairOf_of_inRange _ hr⟩
  · exact fun qm hqm => (hm qm hqm).imp id (hbuilt qm)
  · exact fun qm hqm => (hp qm hqm).imp id (hbuilt qm)
  · exact fun qm hqm => (hs qm hqm).imp id (hbuilt qm)

/-- Witness of C5: on the sample kernel the deriver answers shift `155` for
`in_scale / out_scale`, and the stored input/output pair is its shift pair. -/
theorem CalculateQuantArgs_stores_shift_pairs_witness :
    CalculateQuantArgs sampleModes sampleOps sampleQ sampleNewEnv (sampleRawKernel 0 3)
      = some (RET_OK, sampleSetUpKernel) ∧
    ShiftInRange 155 ∧
    ShiftPairOf 155 sampleSetUpKernel.quant_arg_.in_out_left_shift_
      sampleSetUpKernel.quant_arg_.in_out_right_shift_ :=
  ⟨by decide, by unfold ShiftInRange; decide,
   ((CalculateQuantArgs_stores_shift_pairs sampleModes sampleOps sampleQ sampleNewEnv
      (sampleRawKernel 0 3) sampleSetUpKernel RET_OK (by decide)).1 ⟨6, 0⟩ ⟨2, 0⟩ rfl rfl).2
      (by unfold ShiftInRange; decide)⟩

/-! ## The per-axis entries against the spec's shift pair and axis length -/

/-- The object built for a ratio holds the deriver's multiplier and, for a shift that is
an `int` other than `INT_MIN`, the spec's shift pair of the deriver's shift. -/
theorem newQuantMulArg_pair {D : Type} (Q : D → Int × Int) (ratio : D) :
    (newQuantMulArg Q ratio).multiplier_ = (Q ratio).1 ∧
    (ShiftInRange (Q ratio).2 →
      ShiftPairOf (Q ratio).2 (newQuantMulArg Q ratio).left_shift_
        (newQuantMulArg Q ratio).right_shift_) :=
  ⟨rfl, fun h => shiftPairOf_of_inRange _ h⟩

/-- For axes that are `int`s and a shape shorter than `2 ^ 63`, the element the code
reads with `shape()[axes_[i]]` is the spec's axis length: a negative axis is converted
to an index beyond the shape. -/
theorem axisLength_eq_axisLengthOf {D : Type} (k : Kernel D) (i : Nat)
    (haxes : ∀ axis ∈ k.axes_, -(2 ^ 31) ≤ axis ∧ axis < 2 ^ 31)
    (hshape : k.in_tensor.shape.length < 2 ^ 63) :
    axisLength k i = axisLengthOf k i := by
  unfold axisLength axisLengthOf
  cases hax : k.axes_[i]? with
  | none => rfl
  | some axis =>
    obtain ⟨h1, h2⟩ := haxes axis (List.getElem?_mem hax)
    simp only [Option.some_bind, shapeAt, size_t_of_int, SIZE_BITS]
    norm_num at h1 h2 hshape ⊢
    by_cases h0 : 0 ≤ axis
    · rw [if_pos h0, Int.emod_eq_of_lt h0 (by omega)]
    · rw [if_neg h0]
      apply List.getElem?_eq_none
      omega

/-- C7: in mode `ReduceMean`, on a kernel with `N` reduced axes whose `mean_multipliers_`
is empty (the axes being `int`s and the shape a vector shorter than `2 ^ 63`): when the
quantization parameters are present, every `L_i` exists and every `new QuantMulArg`
succeeds, `CalculateQuantArgs` returns `RET_OK`; and whenever it returns `RET_OK`,
`mean_multipliers_` has exactly `N` entries and, for every `i < N`, with `L_i` the entry
of the input shape at index `axes_[i]`, entry `i` holds the multiplier the deriver `Q`
gives for `1 / L_i` and the shift pair `max(0, -s)`, `max(0, s)` of the shift `s` it
gives (for every `int` `s` other than `INT_MIN`), and `GetQuantArgs(i)` loads exactly
that entry into the `mean_*` fields of `quant_arg_`, leaving the rest as it was. -/
theorem CalculateQuantArgs_mean_multipliers {D : Type} (E : ReduceModeEnum)
    (ops : DoubleOps D) (Q : D → Int × Int) (nenv : NewEnv) (k : Kernel D) (N : Nat)
    (hE : E.values.Nodup) (hmode : k.mode_ = E.ReduceMode_ReduceMean)
    (hnum : k.num_axes_ = N) (hempty : k.mean_multipliers_ = [])
    (haxes : ∀ axis ∈ k.axes_, -(2 ^ 31) ≤ axis ∧ axis < 2 ^ 31)
    (hshape : k.in_tensor.shape.length < 2 ^ 63) :
    ((k.in_tensor.quant_params ≠ [] ∧ k.out_tensor.quant_params ≠ [] ∧
        ∀ i, i < N → nenv.mean_ok i = true ∧ ∃ L, axisLengthOf k i = some L) →
      ∃ k1, CalculateQuantArgs E ops Q nenv k = some (RET_OK, k1)) ∧
    ∀ k1, CalculateQuantArgs E ops Q nenv k = some (RET_OK, k1) →
      k1.mean_multipliers_.length = N ∧
      ∀ i, i < N → ∃ L qm, axisLengthOf k i = some L ∧
        k1.mean_multipliers_[i]? = some qm ∧
        qm.multiplier_ = (Q (ops.div ops.one (ops.ofInt L))).1 ∧
        (ShiftInRange (Q (ops.div ops.one (ops.ofInt L))).2 →
          ShiftPairOf (Q (ops.div ops.one (ops.ofInt L))).2
            qm.left_shift_ qm.right_shift_) ∧
        GetQuantArgs E i k1 = some { k1 with quant_arg_ := { k1.quant_arg_ with
          mean_multiplier_ := qm.multiplier_
          mean_left_shift_ := qm.left_shift_
          mean_right_shift_ := qm.right_shift_ } } := by
  have hbr := fun i => axisLength_eq_axisLengthOf k i haxes hshape
  obtain ⟨g1, g2⟩ := CalculateQuantArgs_mean_entries E ops Q nenv k N hE hmode hnum hempty
  refine ⟨fun hpre => g1 ⟨hpre.1, hpre.2.1, fun i hi => ?_⟩, fun k1 hk1 => ?_⟩
  · rw [hbr i]
    exact hpre.2.2 i hi
  · obtain ⟨hlen, hent⟩ := g2 k1 hk1
    refine ⟨hlen, fun i hi => ?_⟩
    obtain ⟨L, hL, hqm, hget⟩ := hent i hi
    rw [hbr i] at hL
    obtain ⟨hm, hs⟩ := newQuantMulArg_pair Q (ops.div ops.one (ops.ofInt L))
    exact ⟨L, _, hL, hqm, hm, hs, hget⟩

/-- Witness of C7: the sample kernel in mode mean with three axes. The length at axis 1
is `3`, the sample deriver answers `(1020, -5)` for `1 / 3`, and entry 1 holds the
multiplier `1020`, left shift `5` and right shift `0`. -/
theorem CalculateQuantArgs_mean_multipliers_witness :
    sampleModes.values.Nodup ∧
    (∀ axis ∈ (sampleRawKernel 0 3).axes_, -(2 ^ 31) ≤ axis ∧ axis < 2 ^ 31) ∧
    axisLengthOf (sampleRawKernel 0 3) 1 = some 3 ∧
    sampleQ (sampleOps.div sampleOps.one (sampleOps.ofInt 3)) = (1020, -5) ∧
    (CalculateQuantArgs sampleModes sampleOps sampleQ sampleNewEnv
        (sampleRawKernel 0 3)).map (fun r => r.2.mean_multipliers_)
      = some [⟨1030, 0, 5⟩, ⟨1020, 5, 0⟩, ⟨1015, 10, 0⟩] ∧
    ∃ k1 qm, CalculateQuantArgs sampleModes sampleOps sampleQ sampleNewEnv
        (sampleRawKernel 0 3) = some (RET_OK, k1) ∧
      k1.mean_multipliers_.length = 3 ∧ k1.mean_multipliers_[1]? = some qm ∧
      qm.multiplier_ = 1020 ∧ qm.left_shift_ = 5 ∧ qm.right_shift_ = 0 := by
  have h := CalculateQuantArgs_mean_multipliers sampleModes sampleOps sampleQ
    sampleNewEnv (sampleRawKernel 0 3) 3 (by decide) rfl rfl rfl (by decide) (by decide)
  obtain ⟨k1, hk1⟩ := h.1 ⟨by decide, by decide, fun i hi => ⟨rfl, by
    interval_cases i <;> exact ⟨_, rfl⟩⟩⟩
  obtain ⟨hlen, hent⟩ := h.2 k1 hk1
  obtain ⟨L, qm, hL, hqm, hm, hs, -⟩ := hent 1 (by decide)
  have hL3 : (3 : Int) = L := Option.some.inj hL
  subst hL3
  have hp := hs (by unfold ShiftInRange; decide)
  exact ⟨by decide, by decide, rfl, rfl, by decide, k1, qm, hk1, hlen, hqm, hm, hp.1,
    hp.2.1⟩

/-- C8: in mode `ReduceProd`, on a kernel with `N` reduced axes whose `prod_multipliers_`
is empty (the axes being `int`s and the shape a vector shorter than `2 ^ 63`): when the
quantization parameters are present, every `L_i` exists and every `new QuantMulArg`
succeeds, `CalculateQuantArgs` returns `RET_OK`; and whenever it returns `RET_OK`,
`prod_multipliers_` has exactly `N` entries and, for every `i < N`, with `in_scale` the
scale of the input and `L_i` the entry of the input shape at index `axes_[i]`, entry `i`
holds the multiplier the deriver `Q` gives for `pow(in_scale, L_i - 1)` and the shift
pair `max(0, -s)`, `max(0, s)` of the shift `s` it gives (for every `int` `s` other than
`INT_MIN`), and `GetQuantArgs(i)` loads exactly that entry into the `prod_*` fields of
`quant_arg_`, leaving the rest as it was. -/
theorem CalculateQuantArgs_prod_multipliers {D : Type} (E : ReduceModeEnum)
    (ops : DoubleOps D) (Q : D → Int × Int) (nenv : NewEnv) (k : Kernel D) (N : Nat)
    (hE : E.values.Nodup) (hmode : k.mode_ = E.ReduceMode_ReduceProd)
    (hnum : k.num_axes_ = N) (hempty : k.prod_multipliers_ = [])
    (haxes : ∀ axis ∈ k.axes_, -(2 ^ 31) ≤ axis ∧ axis < 2 ^ 31)
    (hshape : k.in_tensor.shape.length < 2 ^ 63) :
    ((k.in_tensor.quant_params ≠ [] ∧ k.out_tensor.quant_params ≠ [] ∧
        ∀ i, i < N → nenv.prod_ok i = true ∧ ∃ L, axisLengthOf k i = some L) →
      ∃ k1, CalculateQuantArgs E ops Q nenv k = some (RET_OK, k1)) ∧
    ∀ k1, CalculateQuantArgs E ops Q nenv k = some (RET_OK, k1) →
      k1.prod_multipliers_.length = N ∧
      ∃ iq, k.in_tensor.quant_params.head? = some iq ∧
        k1.quant_arg_.in_scale_ = iq.scale ∧
        ∀ i, i < N → ∃ L qm, axisLengthOf k i = some L ∧
          k1.prod_multipliers_[i]? = some qm ∧
          qm.multiplier_ = (Q (ops.pow iq.scale (ops.ofInt (L - 1)))).1 ∧
          (ShiftInRange (Q (ops.pow iq.scale (ops.ofInt (L - 1)))).2 →
            ShiftPairOf (Q (ops.pow iq.scale (ops.ofInt (L - 1)))).2
              qm.left_shift_ qm.right_shift_) ∧
          GetQuantArgs E i k1 = some { k1 with quant_arg_ := { k1.quant_arg_ with
            prod_multiplier_ := qm.multiplier_
            prod_left_shift_ := qm.left_shift_
            prod_right_shift_ := qm.right_shift_ } } := by
  have hbr := fun i => axisLength_eq_axisLengthOf k i haxes hshape
  obtain ⟨g1, g2⟩ := CalculateQuantArgs_prod_entries E ops Q nenv k N hE hmode hnum hempty
  refine ⟨fun hpre => g1 ⟨hpre.1, hpre.2.1, fun i hi => ?_⟩, fun k1 hk1 => ?_⟩
  · rw [hbr i]
    exact hpre.2.2 i hi
  · obtain ⟨hlen, iq, hiq, hsc, hent⟩ := g2 k1 hk1
    refine ⟨hlen, iq, hiq, hsc, fun i hi => ?_⟩
    obtain ⟨L, hL, hqm, hget⟩ := hent i hi
    rw [hbr i] at hL
    obtain ⟨hm, hs⟩ := newQuantMulArg_pair Q (ops.pow iq.scale (ops.ofInt (L - 1)))
    exact ⟨L, _, hL, hqm, hm, hs, hget⟩

/-- Witness of C8: the sample kernel in mode product with three axes. The input scale is
`6`, the length at axis 1 is `3`, the sample deriver answers `(1036, 11)` for `6 ^ 2`,
and entry 1 holds the multiplier `1036`, left shift `0` and right shift `11`. -/
theorem CalculateQuantArgs_prod_multipliers_witness :
    sampleModes.values.Nodup ∧
    (∀ axis ∈ (sampleRawKernel 3 3).axes_, -(2 ^ 31) ≤ axis ∧ axis < 2 ^ 31) ∧
    axisLengthOf (sampleRawKernel 3 3) 1 = some 3 ∧
    sampleQ (sampleOps.pow 6 (sampleOps.ofInt (3 - 1))) = (1036, 11) ∧
    (CalculateQuantArgs sampleModes sampleOps sampleQ sampleNewEnv
        (sampleRawKernel 3 3)).map (fun r => r.2.prod_multipliers_)
      = some [⟨1006, 19, 0⟩, ⟨1036, 0, 11⟩, ⟨1216, 0, 191⟩] ∧
    ∃ k1 qm, CalculateQuantArgs sampleModes sampleOps sampleQ sampleNewEnv
        (sampleRawKernel 3 3) = some (RET_OK, k1) ∧
      k1.prod_multipliers_.length = 3 ∧ k1.prod_multipliers_[1]? = some qm ∧
      qm.multiplier_ = 1036 ∧ qm.left_shift_ = 0 ∧ qm.right_shift_ = 11 := by
  have h := CalculateQuantArgs_prod_multipliers sampleModes sampleOps sampleQ
    sampleNewEnv (sampleRawKernel 3 3) 3 (by decide) rfl rfl rfl (by decide) (by decide)
  obtain ⟨k1, hk1⟩ := h.1 ⟨by decide, by decide, fun i hi => ⟨rfl, by
    interval_cases i <;> exact ⟨_, rfl⟩⟩⟩
  obtain ⟨hlen, iq, hiq, -, hent⟩ := h.2 k1 hk1
  have hiq6 : (⟨6, 0⟩ : QuantArg Int) = iq := Option.some.inj hiq
  subst hiq6
  obtain ⟨L, qm, hL, hqm, hm, hs, -⟩ := hent 1 (by decide)
  have hL3 : (3 : Int) = L := Option.some.inj hL
  subst hL3
  have hp := hs (by unfold ShiftInRange; decide)
  exact ⟨by decide, by decide, rfl, rfl, by decide, k1, qm, hk1, hlen, hqm, hm, hp.1,
    hp.2.1⟩

/-- C6: in mode `ReduceSumSquare`, on a kernel with `N >= 1` reduced axes whose
`sum_square_multipliers_` is empty: when the quantization parameters are present and
every `new QuantMulArg` succeeds, `CalculateQuantArgs` returns `RET_OK`; and whenever it
returns `RET_OK`, the list has exactly `N` entries; with `in_scale` and `out_scale` the
scales of the input and the output, every entry `i < N - 1` holds the multiplier the
deriver `Q` gives for `in_scale` and entry `N - 1` the one it gives for
`in_scale * in_scale / out_scale`, each with the shift pair `max(0, -s)`, `max(0, s)` of
the shift `s` the deriver gives (for every `int` `s` other than `INT_MIN`); and
`GetQuantArgs(i)` loads exactly entry `i` into the `sum_square_*` fields of
`quant_arg_`, leaving the rest as it was. -/
theorem CalculateQuantArgs_sum_square_multipliers {D : Type} (E : ReduceModeEnum)
    (ops : DoubleOps D) (Q : D → Int × Int) (nenv : NewEnv) (k : Kernel D) (N : Nat)
    (hE : E.values.Nodup) (hmode : k.mode_ = E.ReduceMode_ReduceSumSquare) (hN : 1 ≤ N)
    (hnum : k.num_axes_ = N) (hempty : k.sum_square_multipliers_ = []) :
    ((k.in_tensor.quant_params ≠ [] ∧ k.out_tensor.quant_params ≠ [] ∧
        (∀ i, i < N - 1 → nenv.sum_square_ok i = true) ∧ nenv.sum_square_last_ok = true) →
      ∃ k1, CalculateQuantArgs E ops Q nenv k = some (RET_OK, k1)) ∧
    ∀ k1, CalculateQuantArgs E ops Q nenv k = some (RET_OK, k1) →
      k1.sum_square_multipliers_.length = N ∧
      ∃ iq oq, k.in_tensor.quant_params.head? = some iq ∧
        k.out_tensor.quant_params.head? = some oq ∧
        (∀ i, i < N - 1 → ∃ qm, k1.sum_square_multipliers_[i]? = some qm ∧
          qm.multiplier_ = (Q iq.scale).1 ∧
          (ShiftInRange (Q iq.scale).2 →
            ShiftPairOf (Q iq.scale).2 qm.left_shift_ qm.right_shift_)) ∧
        (∃ qm, k1.sum_square_multipliers_[N - 1]? = some qm ∧
          qm.multiplier_ = (Q (ops.div (ops.mul iq.scale iq.scale) oq.scale)).1 ∧
          (ShiftInRange (Q (ops.div (ops.mul iq.scale iq.scale) oq.scale)).2 →
            ShiftPairOf (Q (ops.div (ops.mul iq.scale iq.scale) oq.scale)).2
              qm.left_shift_ qm.right_shift_)) ∧
        ∀ i, i < N → ∃ qm, k1.sum_square_multipliers_[i]? = some qm ∧
          GetQuantArgs E i k1 = some { k1 with quant_arg_ := { k1.quant_arg_ with
            sum_square_multiplier_ := qm.multiplier_
            sum_square_left_shift_ := qm.left_shift_
            sum_square_right_shift_ := qm.right_shift_ } } := by
  obtain ⟨g1, g2⟩ :=
    CalculateQuantArgs_sum_square_entries E ops Q nenv k N hE hmode hN hnum hempty
  refine ⟨g1, fun k1 hk1 => ?_⟩
  obtain ⟨hlen, iq, oq, hiq, hoq, hfirst, hlast, hget⟩ := g2 k1 hk1
  refine ⟨hlen, iq, oq, hiq, hoq, fun i hi => ?_, ?_, hget⟩
  · obtain ⟨hm, hs⟩ := newQuantMulArg_pair Q iq.scale
    exact ⟨_, hfirst i hi, hm, hs⟩
  · obtain ⟨hm, hs⟩ :=
      newQuantMulArg_pair Q (ops.div (ops.mul iq.scale iq.scale) oq.scale)
    exact ⟨_, hlast, hm, hs⟩

/-- Witness of C6: the sample kernel in mode sum-square with three axes, input scale `6`
and output scale `2`. The sample deriver answers `(1006, -19)` for `in_scale` and
`(2080, 1055)` for `in_scale * in_scale / out_scale`; entry 0 holds the multiplier
`1006`, left shift `19` and right shift `0`, entry 2 holds `2080`, `0` and `1055`, and
`GetQuantArgs(2)` loads entry 2. -/
theorem CalculateQuantArgs_sum_square_multipliers_witness :
    sampleModes.values.Nodup ∧ (1 : Nat) ≤ 3 ∧
    sampleQ 6 = (1006, -19) ∧
    sampleQ (sampleOps.div (sampleOps.mul 6 6) 2) = (2080, 1055) ∧
    (CalculateQuantArgs sampleModes sampleOps sampleQ sampleNewEnv
        (sampleRawKernel 5 3)).map (fun r => r.2.sum_square_multipliers_)
      = some [⟨1006, 19, 0⟩, ⟨1006, 19, 0⟩, ⟨2080, 0, 1055⟩] ∧
    ∃ k1 qm0 qm2, CalculateQuantArgs sampleModes sampleOps sampleQ sampleNewEnv
        (sampleRawKernel 5 3) = some (RET_OK, k1) ∧
      k1.sum_square_multipliers_.length = 3 ∧
      k1.sum_square_multipliers_[0]? = some qm0 ∧
      qm0.multiplier_ = 1006 ∧ qm0.left_shift_ = 19 ∧ qm0.right_shift_ = 0 ∧
      k1.sum_square_multipliers_[2]? = some qm2 ∧
      qm2.multiplier_ = 2080 ∧ qm2.left_shift_ = 0 ∧ qm2.right_shift_ = 1055 ∧
      GetQuantArgs sampleModes 2 k1 = some { k1 with quant_arg_ := { k1.quant_arg_ with
        sum_square_multiplier_ := 2080
        sum_square_left_shift_ := 0
        sum_square_right_shift_ := 1055 } } := by
  have h := CalculateQuantArgs_sum_square_multipliers sampleModes sampleOps sampleQ
    sampleNewEnv (sampleRawKernel 5 3) 3 (by decide) rfl (by decide) rfl rfl
  obtain ⟨k1, hk1⟩ := h.1 ⟨by decide, by decide, fun _ _ => rfl, rfl⟩
  obtain ⟨hlen, iq, oq, hiq, hoq, hfirst, ⟨qm2, hqm2, hm2, hs2⟩, hget⟩ := h.2 k1 hk1
  have hiq6 : (⟨6, 0⟩ : QuantArg Int) = iq := Option.some.inj hiq
  have hoq2 : (⟨2, 0⟩ : QuantArg Int) = oq := Option.some.inj hoq
  subst hiq6 hoq2
  obtain ⟨qm0, hqm0, hm0, hs0⟩ := hfirst 0 (by decide)
  have hp0 := hs0 (by unfold ShiftInRange; decide)
  have hp2 := hs2 (by unfold ShiftInRange; decide)
  obtain ⟨qm, hqm, hload⟩ := hget 2 (by decide)
  rw [hqm2] at hqm
  cases hqm
  rw [hm2, hp2.1, hp2.2.1] at hload
  exact ⟨by decide, by decide, rfl, rfl, by decide, k1, qm0, qm2, hk1, hlen, hqm0, hm0, hp0.1,
    hp0.2.1, hqm2, hm2, hp2.1, hp2.2.1, hload⟩

/-- `CalculateQuantArgs` leaves `mode_` alone. -/
theorem CalculateQuantArgs_mode {D : Type} (E : ReduceModeEnum) (ops : DoubleOps D)
    (Q : D → Int × Int) (nenv : NewEnv) (k k1 : Kernel D) (ret : Int)
    (h : CalculateQuantArgs E ops Q nenv k = some (ret, k1)) : k1.mode_ = k.mode_ := by
  unfold CalculateQuantArgs at h
  cases hiq : k.in_tensor.quant_params.head? with
  | none => rw [hiq] at h; simp at h
  | some iq =>
    cases hoq : k.out_tensor.quant_params.head? with
    | none => rw [hiq, hoq] at h; simp at h
    | some oq =>
      rw [hiq, hoq] at h
      simp only at h
      repeat' split at h
      all_goals first
        | (simp only [Option.some.injEq, Prod.mk.injEq] at h
           obtain ⟨-, rfl⟩ := h
           rfl)
        | cases h

/-- C9: when the base `Init` and `CalculateQuantArgs` succeed, `Init` returns `RET_ERROR`
for every mode that is none of the six enumerators; and for each of the six modes it
binds `reducer_` and `last_reducer_` to the pair of that same mode in the table
(mean, sum, max, min, prod, sum-square) and goes on to the shape check: it returns
`RET_OK` when the shape is not inferred yet and the status of `ReSize` otherwise. The mode
is the one the base `Init` left. -/
theorem Init_binds_the_reducers_of_the_mode {D : Type} (E : ReduceModeEnum)
    (ops : DoubleOps D) (Q : D → Int × Int) (nenv : NewEnv) (ienv : InitEnv D)
    (k k0 k1 : Kernel D) (hE : E.values.Nodup)
    (hbase : ienv.base_Init k = (RET_OK, k0))
    (hcalc : CalculateQuantArgs E ops Q nenv k0 = some (RET_OK, k1)) :
    k1.mode_ = k0.mode_ ∧
    (k1.mode_ ∉ E.values → Init E ops Q nenv ienv k = some (RET_ERROR, k1)) ∧
    ∀ reducer last_reducer, (k1.mode_, reducer, last_reducer) ∈ reducerTable E →
      Init E ops Q nenv ienv k
        = (if !ienv.InferShapeDone
                { k1 with reducer_ := some reducer, last_reducer_ := some last_reducer }
           then some (RET_OK,
                { k1 with reducer_ := some reducer, last_reducer_ := some last_reducer })
           else some (ienv.base_ReSize
                { k1 with reducer_ := some reducer, last_reducer_ := some last_reducer })) := by
  have hinit : Init E ops Q nenv ienv k
      = match Init.bindReducers E k1 with
        | none => some (RET_ERROR, k1)
        | some k2 =>
          if !ienv.InferShapeDone k2 then some (RET_OK, k2) else some (ienv.base_ReSize k2) := by
    unfold Init
    rw [hbase]
    simp only [ne_eq, not_true_eq_false, if_false, hcalc]
  refine ⟨CalculateQuantArgs_mode E ops Q nenv k0 k1 _ hcalc, ?_, ?_⟩
  · intro hmode
    simp only [ReduceModeEnum.values, List.mem_cons, List.mem_singleton, not_or,
      List.not_mem_nil, not_false_eq_true, and_true] at hmode
    obtain ⟨h1, h2, h3, h4, h5, h6⟩ := hmode
    rw [hinit]
    simp [Init.bindReducers, h1, h2, h3, h4, h5, h6]
  · intro reducer last_reducer hmem
    simp only [ReduceModeEnum.values, List.nodup_cons, List.mem_cons, List.mem_singleton,
      not_or, List.not_mem_nil, not_false_eq_true, List.nodup_nil, and_true] at hE
    obtain ⟨⟨a1, a2, a3, a4, a5⟩, ⟨b1, b2, b3, b4⟩, ⟨c1, c2, c3⟩, ⟨d1, d2⟩, e1⟩ := hE
    rw [hinit]
    simp only [reducerTable, List.mem_cons, List.mem_singleton, Prod.mk.injEq,
      List.not_mem_nil, or_false] at hmem
    rcases hmem with ⟨hm, rfl, rfl⟩ | ⟨hm, rfl, rfl⟩ | ⟨hm, rfl, rfl⟩ | ⟨hm, rfl, rfl⟩ |
      ⟨hm, rfl, rfl⟩ | ⟨hm, rfl, rfl⟩
    · simp [Init.bindReducers, hm]
    · simp [Init.bindReducers, hm, Ne.symm a1]
    · simp [Init.bindReducers, hm, Ne.symm a2, Ne.symm b1]
    · simp [Init.bindReducers, hm, Ne.symm a3, Ne.symm b2, Ne.symm c1]
    · simp [Init.bindReducers, hm, Ne.symm a4, Ne.symm b3, Ne.symm c2, Ne.symm d1]
    · simp [Init.bindReducers, hm, Ne.symm a5, Ne.symm b4, Ne.symm c3, Ne.symm d2,
        Ne.symm e1]

/-- Witness of C9: `Init` on the sample kernel in mode sum-square binds the sum-square
reducers and returns `RET_OK`; in the unknown mode `9` it returns `RET_ERROR`. -/
theorem Init_binds_the_reducers_of_the_mode_witness :
    sampleModes.values.Nodup ∧
    (Init sampleModes sampleOps sampleQ sampleNewEnv sampleInitEnv (sampleRawKernel 0 3)).map
        (fun r => (r.1, r.2.reducer_, r.2.last_reducer_))
      = some (RET_OK, some Reducer.ReduceMeanInt8, some Reducer.ReduceMeanLastAxis) := by
  refine ⟨by decide, ?_⟩
  rw [(Init_binds_the_reducers_of_the_mode sampleModes sampleOps sampleQ sampleNewEnv
    sampleInitEnv (sampleRawKernel 0 3) (sampleRawKernel 0 3) sampleSetUpKernel (by decide)
    rfl (by decide)).2.2 Reducer.ReduceMeanInt8 Reducer.ReduceMeanLastAxis (by decide)]
  rfl

/-! ## The ratios handed to the deriver -/

/-- Each entry the mean loop appends is the deriver's answer to
`CalculateQuantArgs.reciprocal` of the axis length. -/
theorem meanLoop_passes_reciprocal {D : Type} (ops : DoubleOps D) (Q : D → Int × Int)
    (new_ok : Nat → Bool) (k : Kernel D) (remaining i : Nat) (ms ms1 : List QuantMulArg)
    (h : CalculateQuantArgs.meanLoop ops Q new_ok k remaining i ms = some (none, ms1)) :
    ∀ j, j < remaining → ∃ L, axisLength k (i + j) = some L ∧
      ms1[ms.length + j]? = some (newQuantMulArg Q (CalculateQuantArgs.reciprocal ops L)) :=
  (meanLoop_next ops Q new_ok k remaining i ms ms1 h).2.2

/-- Each entry the product loop appends is the deriver's answer to
`CalculateQuantArgs.prod_multiplier` of `in_scale_` and the axis length. -/
theorem prodLoop_passes_prod_multiplier {D : Type} (ops : DoubleOps D) (Q : D → Int × Int)
    (new_ok : Nat → Bool) (k : Kernel D) (remaining i : Nat) (ms ms1 : List QuantMulArg)
    (h : CalculateQuantArgs.prodLoop ops Q new_ok k remaining i ms = some (none, ms1)) :
    ∀ j, j < remaining → ∃ L, axisLength k (i + j) = some L ∧
      ms1[ms.length + j]? = some (newQuantMulArg Q
        (CalculateQuantArgs.prod_multiplier ops k.quant_arg_.in_scale_ L)) :=
  (prodLoop_next ops Q new_ok k remaining i ms ms1 h).2.2

theorem reciprocal_exact (L : Int) : CalculateQuantArgs.reciprocal exactOps L = 1 / (L : ℚ) :=
  rfl

theorem prod_multiplier_exact (in_scale : ℚ) (L : Int) (hL : 1 ≤ L) :
    CalculateQuantArgs.prod_multiplier exactOps in_scale L = in_scale ^ (L - 1).toNat := by
  show in_scale ^ (((L - 1 : Int) : ℚ)).num = in_scale ^ (L - 1).toNat
  rw [Rat.num_intCast]
  conv_lhs => rw [← Int.toNat_of_nonneg (show 0 ≤ L - 1 by omega)]
  exact zpow_natCast _ _

/-- C13, as amended: over the exact rationals, for every input scale with
`0 < in_scale < 1` and every reduced axis of length `L >= 1`, the ratio handed to the
deriver, `1 / L` in the mean loop and `in_scale ^ (L - 1)` in the product loop, satisfies
`0 < r <= 1`, and `r < 1` exactly when `L >= 2`: for an axis of length 1 both ratios
are 1. -/
theorem per_axis_ratio_in_unit_interval (in_scale : ℚ) (L : Int) (h0 : 0 < in_scale)
    (h1 : in_scale < 1) (hL : 1 ≤ L) :
    (0 < CalculateQuantArgs.reciprocal exactOps L ∧
      CalculateQuantArgs.reciprocal exactOps L ≤ 1 ∧
      (CalculateQuantArgs.reciprocal exactOps L < 1 ↔ 2 ≤ L)) ∧
    (0 < CalculateQuantArgs.prod_multiplier exactOps in_scale L ∧
      CalculateQuantArgs.prod_multiplier exactOps in_scale L ≤ 1 ∧
      (CalculateQuantArgs.prod_multiplier exactOps in_scale L < 1 ↔ 2 ≤ L)) := by
  have hLq : (1 : ℚ) ≤ (L : ℚ) := by exact_mod_cast hL
  have hLpos : (0 : ℚ) < (L : ℚ) := by linarith
  constructor
  · rw [reciprocal_exact]
    refine ⟨by positivity, ?_, ?_⟩
    · rw [div_le_one hLpos]; exact hLq
    · rw [div_lt_one hLpos]
      constructor
      · intro h
        have : (1 : Int) < L := by exact_mod_cast h
        omega
      · intro h
        have : (1 : Int) < L := by omega
        exact_mod_cast this
  · rw [prod_multiplier_exact in_scale L hL]
    refine ⟨pow_pos h0 _, pow_le_one₀ h0.le h1.le, ?_⟩
    constructor
    · intro h
      by_contra hlt
      have hL1 : L = 1 := by omega
      rw [hL1] at h
      simp at h
    · intro h
      have hn : (L - 1).toNat ≠ 0 := by omega
      exact pow_lt_one₀ h0.le h1 hn

/-- Witness of C13 as amended: scale `1/2` and an axis of length 3 give the ratios `1/3`
and `1/4`. -/
theorem per_axis_ratio_in_unit_interval_witness :
    (0 : ℚ) < 1 / 2 ∧ (1 / 2 : ℚ) < 1 ∧ (1 : Int) ≤ 3 ∧
    CalculateQuantArgs.reciprocal exactOps 3 < 1 ∧
    CalculateQuantArgs.prod_multiplier exactOps (1 / 2) 3 < 1 := by
  have h := per_axis_ratio_in_unit_interval (1 / 2) 3 (by norm_num) (by norm_num)
    (by norm_num)
  exact ⟨by norm_num, by norm_num, by norm_num, h.1.2.2.mpr (by norm_num),
    h.2.2.2.mpr (by norm_num)⟩

/-- C13 as stated fails for an axis of length 1: with `in_scale = 1/2` the mean loop hands
`1 / 1 = 1` and the product loop hands `(1/2) ^ 0 = 1` to the deriver, and `1 < 1` is
false. -/
theorem per_axis_ratio_is_one_for_length_one :
    CalculateQuantArgs.reciprocal exactOps 1 = 1 ∧
    CalculateQuantArgs.prod_multiplier exactOps (1 / 2) 1 = 1 ∧
    ¬ (∀ (in_scale : ℚ) (L : Int), 0 < in_scale → in_scale < 1 → 1 ≤ L →
        (0 < CalculateQuantArgs.reciprocal exactOps L ∧
          CalculateQuantArgs.reciprocal exactOps L < 1) ∧
        (0 < CalculateQuantArgs.prod_multiplier exactOps in_scale L ∧
          CalculateQuantArgs.prod_multiplier exactOps in_scale L < 1)) := by
  have e1 : CalculateQuantArgs.reciprocal exactOps 1 = 1 := by
    rw [reciprocal_exact]; norm_num
  have e2 : CalculateQuantArgs.prod_multiplier exactOps (1 / 2) 1 = 1 := by
    rw [prod_multiplier_exact _ _ (le_refl 1)]; norm_num
  refine ⟨e1, e2, fun h => ?_⟩
  have h3 := (h (1 / 2) 1 (by norm_num) (by norm_num) (le_refl 1)).1.2
  rw [e1] at h3
  exact lt_irrefl _ h3

/-! ## The widened input and the trace of `Run` -/

theorem CallReduceUnit_src {D : Type} (k : Kernel D) : (CallReduceUnit k).src = k.src_data_ := by
  unfold CallReduceUnit
  split <;> rfl

/-- The terminal part of `Run` keeps the widened values and the input tensor, and the
pass it adds reads from `src_data_`. -/
theorem Run_lastPass_trace {D : Type} (E : ReduceModeEnum) (env : Env) (w : List Int)
    (k : Kernel D) (a : Allocator) (ps : List (ReduceCall D)) :
    (Run.lastPass E env w k a ps).widened = w ∧
    (Run.lastPass E env w k a ps).kernel.in_tensor = k.in_tensor ∧
    ∃ more, (Run.lastPass E env w k a ps).passes = ps ++ more ∧
      ∀ p, more.head? = some p → p.src = k.src_data_ := by
  unfold Run.lastPass
  cases hq : GetQuantArgs E (size_t_of_int (k.num_axes_ - 1)) k with
  | none => exact ⟨rfl, rfl, [], by simp, by simp⟩
  | some k1 =>
    have hfr := GetQuantArgs_frame E _ k k1 hq
    have h1 : k1.in_tensor = k.in_tensor := by rw [hfr]
    have h2 : k1.src_data_ = k.src_data_ := by rw [hfr]
    simp only
    split
    · rename_i outer inner axis _ _ _
      have hsrc : ∀ p, ([CallReduceUnit
          { k1 with
            outer_size_ := outer, inner_size_ := inner, axis_size_ := axis,
            last_dst_data_ := k1.out_tensor.data_ptr, is_last_axis_ := true }]).head? = some p →
          p.src = k.src_data_ := by
        intro p hp
        simp only [List.head?_cons, Option.some.injEq] at hp
        rw [← hp, CallReduceUnit_src]
        exact h2
      split
      · refine ⟨rfl, ?_, _, rfl, hsrc⟩
        show (FreeTmpBuffer _ a).1.in_tensor = k.in_tensor
        rw [(FreeTmpBuffer_spec _ a).1]
        exact h1
      · refine ⟨rfl, ?_, _, rfl, hsrc⟩
        show (FreeTmpBuffer _ a).1.in_tensor = k.in_tensor
        rw [(FreeTmpBuffer_spec _ a).1]
        exact h1
    · exact ⟨rfl, h1, [], by simp, by simp⟩

/-- The loop of `Run` with what follows keeps the widened values and the input tensor,
and the first pass it adds reads from `src_data_`. -/
theorem Run_loop_trace {D : Type} (E : ReduceModeEnum) (env : Env) (w : List Int)
    (remaining i : Nat) (k : Kernel D) (a : Allocator) (ps : List (ReduceCall D)) :
    (Run.loop E env w remaining i k a ps).widened = w ∧
    (Run.loop E env w remaining i k a ps).kernel.in_tensor = k.in_tensor ∧
    ∃ more, (Run.loop E env w remaining i k a ps).passes = ps ++ more ∧
      ∀ p, more.head? = some p → p.src = k.src_data_ := by
  induction remaining generalizing i k ps with
  | zero =>
    rw [Run.loop]
    exact Run_lastPass_trace E env w k a ps
  | succ n ih =>
    rw [Run.loop]
    cases hq : GetQuantArgs E i k with
    | none => exact ⟨rfl, rfl, [], by simp, by simp⟩
    | some k1 =>
      have hfr := GetQuantArgs_frame E _ k k1 hq
      have h1 : k1.in_tensor = k.in_tensor := by rw [hfr]
      have h2 : k1.src_data_ = k.src_data_ := by rw [hfr]
      simp only
      split
      · rename_i dst outer inner axis _ _ _ _
        have hsrc : (CallReduceUnit
            { k1 with
              dst_data_ := dst, outer_size_ := outer, inner_size_ := inner,
              axis_size_ := axis }).src = k.src_data_ := by
          rw [CallReduceUnit_src]
          exact h2
        split
        · refine ⟨rfl, ?_, _, rfl, ?_⟩
          · show (FreeTmpBuffer _ a).1.in_tensor = k.in_tensor
            rw [(FreeTmpBuffer_spec _ a).1]
            exact h1
          · intro p hp
            simp only [List.head?_cons, Option.some.injEq] at hp
            rw [← hp]
            exact hsrc
        · obtain ⟨g1, g2, more, g3, -⟩ := ih (i + 1)
            { k1 with
              dst_data_ := dst, outer_size_ := outer, inner_size_ := inner,
              axis_size_ := axis, src_data_ := dst }
            (ps ++ [CallReduceUnit
              { k1 with
                dst_data_ := dst, outer_size_ := outer, inner_size_ := inner,
                axis_size_ := axis }])
          refine ⟨g1, g2.trans h1,
            CallReduceUnit
              { k1 with
                dst_data_ := dst, outer_size_ := outer, inner_size_ := inner,
                axis_size_ := axis } :: more, ?_, ?_⟩
          · rw [g3, List.append_assoc]
            rfl
          · intro p hp
            simp only [List.head?_cons, Option.some.injEq] at hp
            rw [← hp]
            exact hsrc
      · exact ⟨rfl, h1, [], by simp, by simp⟩

theorem MallocTmpBuffer_in_tensor {D : Type} (malloc : Nat → Ptr) (k : Kernel D)
    (a : Allocator) : (MallocTmpBuffer malloc k a).2.1.in_tensor = k.in_tensor := by
  obtain ⟨m, -, -, -, h⟩ := MallocTmpBuffer_spec malloc k a
  rcases h with ⟨-, -, -, hk, -, -⟩ | ⟨-, -, hk, -, -⟩ <;> rw [hk]

/-- The cast `static_cast<int32_t>(int8_t)` of a stored byte: a value of `[-128, 127]`
congruent to the byte modulo 256. -/
theorem int8_to_int32_signed (b : Nat) (hb : b < 256) :
    -128 ≤ int8_to_int32 b ∧ int8_to_int32 b ≤ 127 ∧
    (int8_to_int32 b - (b : Int)) % 256 = 0 ∧
    (b < 128 → int8_to_int32 b = (b : Int)) ∧
    (128 ≤ b → int8_to_int32 b = (b : Int) - 256 ∧ int8_to_int32 b ≠ (b : Int)) := by
  unfold int8_to_int32
  have hmod : b % 256 = b := Nat.mod_eq_of_lt hb
  rw [hmod]
  split_ifs with h
  · refine ⟨by omega, by omega, by omega, fun _ => rfl, fun h2 => by omega⟩
  · refine ⟨by omega, by omega, by omega, fun h2 => by omega, fun _ => ⟨rfl, by omega⟩⟩

/-- What `Run` leaves of the input and of the widened copy: the input tensor is as
before, a first dispatched pass reads from the block allocated for `begin_src_data_`,
and once `Prepare` and `MallocTmpBuffer` have succeeded the values stored through
`begin_src_data_` are the casts of the stored input bytes. -/
theorem Run_trace {D : Type} (E : ReduceModeEnum) (env : Env) (k : Kernel D) (a : Allocator) :
    (Run E env k a).kernel.in_tensor = k.in_tensor ∧
    (∀ p, (Run E env k a).passes.head? = some p →
      p.src = (MallocTmpBuffer env.malloc k a).2.1.begin_src_data_) ∧
    (env.prepare_ret = RET_OK → (MallocTmpBuffer env.malloc k a).1 = RET_OK →
      (Run E env k a).widened = k.in_tensor.data.map int8_to_int32) := by
  have hin := MallocTmpBuffer_in_tensor env.malloc k a
  unfold Run
  by_cases hprep : env.prepare_ret = RET_OK
  · rw [if_neg (not_not.mpr hprep)]
    rcases hm : MallocTmpBuffer env.malloc k a with ⟨ret, k1, a1⟩
    rw [hm] at hin
    simp only at hin ⊢
    by_cases hok : ret = RET_OK
    · rw [if_neg (not_not.mpr hok)]
      obtain ⟨g1, g2, more, g3, g4⟩ := Run_loop_trace E env
        (k1.in_tensor.data.map int8_to_int32) (size_t_sub k1.data_buffers_.length 1) 0
        { k1 with is_last_axis_ := false, src_data_ := k1.begin_src_data_ } a1 []
      refine ⟨g2.trans hin, ?_, fun _ _ => ?_⟩
      · intro p hp
        rw [g3, List.nil_append] at hp
        exact g4 p hp
      · rw [g1, hin]
    · rw [if_pos hok]
      refine ⟨?_, ?_, fun _ h => absurd h hok⟩
      · show (FreeTmpBuffer k1 a1).1.in_tensor = k.in_tensor
        rw [(FreeTmpBuffer_spec k1 a1).1]
        exact hin
      · intro p hp
        simp at hp
  · rw [if_pos hprep]
    exact ⟨rfl, fun p hp => by simp at hp, fun h => absurd h hprep⟩

/-- C12: once `Prepare` and `MallocTmpBuffer` have succeeded, the int32 buffer written
through `begin_src_data_` has one element per stored input byte, and element `i` is the
signed value of byte `b` number `i`: a value of `[-128, 127]` congruent to `b` modulo 256,
equal to `b` for `b < 128` and to `b - 256` (never `b`) for `b >= 128`. `Run` leaves the
input tensor unchanged, and a first dispatched pass has the block of `begin_src_data_` as
its source; with two axes or more, a kernel that is set up and collaborators that succeed
there is such a pass. -/
theorem Run_widens_input_with_sign_extension {D : Type} (E : ReduceModeEnum) (env : Env)
    (k : Kernel D) (a : Allocator) :
    (env.prepare_ret = RET_OK → (MallocTmpBuffer env.malloc k a).1 = RET_OK →
      (Run E env k a).widened.length = k.in_tensor.ElementsNum ∧
      ∀ (i b : Nat), k.in_tensor.data[i]? = some b → b < 256 →
        ∃ v, (Run E env k a).widened[i]? = some v ∧ -128 ≤ v ∧ v ≤ 127 ∧
          (v - (b : Int)) % 256 = 0 ∧ (b < 128 → v = (b : Int)) ∧
          (128 ≤ b → v = (b : Int) - 256 ∧ v ≠ (b : Int))) ∧
    (Run E env k a).kernel.in_tensor = k.in_tensor ∧
    (∀ p, (Run E env k a).passes.head? = some p →
      p.src = (MallocTmpBuffer env.malloc k a).2.1.begin_src_data_) ∧
    (∀ N, 2 ≤ N → PlanReady E k N → env.prepare_ret = RET_OK →
      (∀ j, j < N → env.malloc j ≠ 0) → (∀ n, env.launch n = RET_OK) →
      (Run E env k a).passes ≠ []) := by
  obtain ⟨h1, h2, h3⟩ := Run_trace E env k a
  refine ⟨fun hprep hmal => ?_, h1, h2, fun N hN hk hprep hmal hl => ?_⟩
  · rw [h3 hprep hmal]
    refine ⟨by simp [Tensor.ElementsNum], fun i b hb hlt => ?_⟩
    obtain ⟨g1, g2, g3, g4, g5⟩ := int8_to_int32_signed b hlt
    exact ⟨int8_to_int32 b, by simp [List.getElem?_map, hb], g1, g2, g3, g4, g5⟩
  · have hlen := ((Run_returns E env k a N hN hk).2 hprep hmal hl).2
    intro hnil
    rw [hnil] at hlen
    simp only [List.length_nil] at hlen
    omega

/-- Witness of C12: on the sample kernel with three axes the stored byte `132` (element
12 of the input) is widened to `-124`, and the first pass reads block `102`, the block
of `begin_src_data_`. -/
theorem Run_widens_input_with_sign_extension_witness :
    sampleEnv.prepare_ret = RET_OK ∧
    (MallocTmpBuffer sampleEnv.malloc (sampleKernel 0 3) sampleAllocator).1 = RET_OK ∧
    sampleInput.data[12]? = some 132 ∧
    (Run sampleModes sampleEnv (sampleKernel 0 3) sampleAllocator).widened[12]?
      = some (-124) ∧
    (Run sampleModes sampleEnv (sampleKernel 0 3) sampleAllocator).passes ≠ [] := by
  have h := Run_widens_input_with_sign_extension sampleModes sampleEnv (sampleKernel 0 3)
    sampleAllocator
  obtain ⟨v, hv, -, -, -, -, hv2⟩ := (h.1 rfl (by decide)).2 12 132 (by decide) (by decide)
  refine ⟨rfl, by decide, by decide, ?_, ?_⟩
  · rw [hv, (hv2 (by decide)).1]
    rfl
  · exact h.2.2.2 3 (by decide)
      ⟨rfl, by decide, by decide, by decide, by decide, by decide, by decide, by decide,
        by decide⟩ rfl (by intro j hj; interval_cases j <;> decide) (fun _ => rfl)

/-! ## Lemmas on running again -/

/-- `GetQuantArgs` is `loadQuantArg` on `quant_arg_`, the rest of the kernel untouched. -/
theorem GetQuantArgs_eq_load {D : Type} (E : ReduceModeEnum) (i : Nat) (k : Kernel D) :
    GetQuantArgs E i k
      = (loadQuantArg E k.mode_ k.mean_multipliers_ k.prod_multipliers_
          k.sum_square_multipliers_ i k.quant_arg_).map
          fun qa => { k with quant_arg_ := qa } := by
  rcases k with ⟨mode, na, ax, it, ot, bs, os, is, as, o, n, a, db, bsd, sd, dd, ldd, ila, qa,
    means, prods, sqs, r, lr⟩
  rcases E with ⟨M, S, X, N, P, Q⟩
  unfold GetQuantArgs loadQuantArg
  dsimp only
  rcases eq_or_ne mode M with rfl | c1 <;>
  rcases eq_or_ne mode P with rfl | c2 <;>
  rcases eq_or_ne mode Q with rfl | c3 <;>
  rcases hm : means[i]? with _ | m <;>
  rcases hp : prods[i]? with _ | p <;>
  rcases hq : sqs[i]? with _ | q <;>
  simp [*]

/-- A load overwrites what an earlier load wrote. -/
theorem loadQuantArg_absorb {D : Type} (E : ReduceModeEnum) (mode : Int)
    (means prods squares : List QuantMulArg) (i : Nat) (qa qa1 : ReduceQuantArg D)
    (h : loadQuantArg E mode means prods squares i qa = some qa1) (j : Nat) :
    loadQuantArg E mode means prods squares j qa1
      = loadQuantArg E mode means prods squares j qa := by
  rcases E with ⟨M, S, X, N, P, Q⟩
  unfold loadQuantArg at h ⊢
  dsimp only at h ⊢
  rcases eq_or_ne mode M with rfl | c1 <;>
  rcases eq_or_ne mode P with rfl | c2 <;>
  rcases eq_or_ne mode Q with rfl | c3 <;>
  rcases hm : means[i]? with _ | m <;>
  rcases hp : prods[i]? with _ | p <;>
  rcases hq : squares[i]? with _ | q <;>
  simp [*] at h <;>
  subst h <;>
  rcases hm2 : means[j]? with _ | m2 <;>
  rcases hp2 : prods[j]? with _ | p2 <;>
  rcases hq2 : squares[j]? with _ | q2 <;>
  simp [*]

theorem SamePlan_refl {D : Type} (E : ReduceModeEnum) (k : Kernel D) : SamePlan E k k :=
  ⟨rfl, rfl, rfl, rfl, rfl, rfl, rfl, rfl, rfl, rfl, rfl, fun _ => rfl⟩

/-- `SamePlan` passes to a kernel that differs in members outside the plan only. -/
theorem SamePlan_of_eq {D : Type} (E : ReduceModeEnum) (k k1 k2 : Kernel D)
    (h : SamePlan E k k1)
    (e1 : k2.mode_ = k1.mode_) (e2 : k2.num_axes_ = k1.num_axes_)
    (e3 : k2.in_tensor = k1.in_tensor) (e4 : k2.out_tensor = k1.out_tensor)
    (e5 : k2.buffer_sizes_ = k1.buffer_sizes_) (e6 : k2.outer_sizes_ = k1.outer_sizes_)
    (e7 : k2.inner_sizes_ = k1.inner_sizes_) (e8 : k2.axis_sizes_ = k1.axis_sizes_)
    (e9 : k2.mean_multipliers_ = k1.mean_multipliers_)
    (e10 : k2.prod_multipliers_ = k1.prod_multipliers_)
    (e11 : k2.sum_square_multipliers_ = k1.sum_square_multipliers_)
    (e12 : k2.quant_arg_ = k1.quant_arg_) : SamePlan E k k2 := by
  obtain ⟨h1, h2, h3, h4, h5, h6, h7, h8, h9, h10, h11, h12⟩ := h
  exact ⟨e1.trans h1, e2.trans h2, e3.trans h3, e4.trans h4, e5.trans h5, e6.trans h6,
    e7.trans h7, e8.trans h8, e9.trans h9, e10.trans h10, e11.trans h11,
    fun i => by rw [e12]; exact h12 i⟩

/-- `SamePlan` passes through `GetQuantArgs`. -/
theorem SamePlan_GetQuantArgs {D : Type} (E : ReduceModeEnum) (k k1 k2 : Kernel D) (j : Nat)
    (h : SamePlan E k k1) (hq : GetQuantArgs E j k1 = some k2) : SamePlan E k k2 := by
  obtain ⟨h1, h2, h3, h4, h5, h6, h7, h8, h9, h10, h11, h12⟩ := h
  rw [GetQuantArgs_eq_load] at hq
  simp only [Option.map_eq_some'] at hq
  obtain ⟨q, hload, rfl⟩ := hq
  rw [h1, h9, h10, h11] at hload
  refine ⟨h1, h2, h3, h4, h5, h6, h7, h8, h9, h10, h11, fun i => ?_⟩
  show loadQuantArg E k.mode_ k.mean_multipliers_ k.prod_multipliers_
      k.sum_square_multipliers_ i q = _
  rw [loadQuantArg_absorb E _ _ _ _ j _ q hload i]
  exact h12 i

/-- `SamePlan` passes through `FreeTmpBuffer`. -/
theorem SamePlan_FreeTmpBuffer {D : Type} (E : ReduceModeEnum) (k k1 : Kernel D)
    (a : Allocator) (h : SamePlan E k k1) : SamePlan E k (FreeTmpBuffer k1 a).1 := by
  rw [(FreeTmpBuffer_spec k1 a).1]
  exact SamePlan_of_eq E k k1 _ h rfl rfl rfl rfl rfl rfl rfl rfl rfl rfl rfl rfl

/-- `MallocTmpBuffer` changes `data_buffers_` and `begin_src_data_` only. -/
theorem MallocTmpBuffer_frame {D : Type} (malloc : Nat → Ptr) (k : Kernel D) (a : Allocator) :
    ∃ bufs b, (MallocTmpBuffer malloc k a).2.1
      = { k with data_buffers_ := bufs, begin_src_data_ := b } := by
  obtain ⟨m, -, -, -, h⟩ := MallocTmpBuffer_spec malloc k a
  rcases h with ⟨-, -, -, hk, -, -⟩ | ⟨-, -, hk, -, -⟩ <;> exact ⟨_, _, hk⟩

/-- The terminal part of `Run` leaves a kernel with the plan it started from. -/
theorem Run_lastPass_samePlan {D : Type} (E : ReduceModeEnum) (env : Env) (w : List Int)
    (k0 k : Kernel D) (a : Allocator) (ps : List (ReduceCall D)) (h : SamePlan E k0 k) :
    SamePlan E k0 (Run.lastPass E env w k a ps).kernel := by
  unfold Run.lastPass
  cases hq : GetQuantArgs E (size_t_of_int (k.num_axes_ - 1)) k with
  | none => exact h
  | some k1 =>
    have h1 := SamePlan_GetQuantArgs E k0 k k1 _ h hq
    simp only
    split
    · rename_i outer inner axis _ _ _
      have h2 : SamePlan E k0
          { k1 with
            outer_size_ := outer, inner_size_ := inner, axis_size_ := axis,
            last_dst_data_ := k1.out_tensor.data_ptr, is_last_axis_ := true } :=
        SamePlan_of_eq E k0 k1 _ h1 rfl rfl rfl rfl rfl rfl rfl rfl rfl rfl rfl rfl
      split
      · exact SamePlan_FreeTmpBuffer E k0 _ a h2
      · exact SamePlan_FreeTmpBuffer E k0 _ a h2
    · exact h1

/-- The loop of `Run` with what follows leaves a kernel with the plan it started
from. -/
theorem Run_loop_samePlan {D : Type} (E : ReduceModeEnum) (env : Env) (w : List Int)
    (remaining i : Nat) (k0 k : Kernel D) (a : Allocator) (ps : List (ReduceCall D))
    (h : SamePlan E k0 k) :
    SamePlan E k0 (Run.loop E env w remaining i k a ps).kernel := by
  induction remaining generalizing i k ps with
  | zero =>
    rw [Run.loop]
    exact Run_lastPass_samePlan E env w k0 k a ps h
  | succ n ih =>
    rw [Run.loop]
    cases hq : GetQuantArgs E i k with
    | none => exact h
    | some k1 =>
      have h1 := SamePlan_GetQuantArgs E k0 k k1 _ h hq
      simp only
      split
      · rename_i dst outer inner axis _ _ _ _
        split
        · exact SamePlan_FreeTmpBuffer E k0 _ a
            (SamePlan_of_eq E k0 k1 _ h1 rfl rfl rfl rfl rfl rfl rfl rfl rfl rfl rfl rfl)
        · exact ih (i + 1) _ _
            (SamePlan_of_eq E k0 k1 _ h1 rfl rfl rfl rfl rfl rfl rfl rfl rfl rfl rfl rfl)
      · exact h1

/-- Whatever way `Run` ends, it leaves a kernel with the plan it started from. -/
theorem Run_samePlan {D : Type} (E : ReduceModeEnum) (env : Env) (k : Kernel D)
    (a : Allocator) : SamePlan E k (Run E env k a).kernel := by
  obtain ⟨bufs, b, hk⟩ := MallocTmpBuffer_frame env.malloc k a
  unfold Run
  split
  · exact SamePlan_refl E k
  · rcases hm : MallocTmpBuffer env.malloc k a with ⟨ret, k1, a1⟩
    rw [hm] at hk
    simp only at hk ⊢
    have h1 : SamePlan E k k1 := by
      rw [hk]
      exact SamePlan_of_eq E k k _ (SamePlan_refl E k) rfl rfl rfl rfl rfl rfl rfl rfl rfl
        rfl rfl rfl
    split
    · exact SamePlan_FreeTmpBuffer E k k1 a1 h1
    · exact Run_loop_samePlan E env _ _ 0 k _ a1 []
        (SamePlan_of_eq E k k1 _ h1 rfl rfl rfl rfl rfl rfl rfl rfl rfl rfl rfl rfl)

/-- `SamePlan` passes to a first kernel that differs in members outside the plan only. -/
theorem SamePlan_left {D : Type} (E : ReduceModeEnum) (k k1 k2 : Kernel D)
    (h : SamePlan E k k1)
    (e1 : k2.mode_ = k.mode_) (e2 : k2.num_axes_ = k.num_axes_)
    (e3 : k2.in_tensor = k.in_tensor) (e4 : k2.out_tensor = k.out_tensor)
    (e5 : k2.buffer_sizes_ = k.buffer_sizes_) (e6 : k2.outer_sizes_ = k.outer_sizes_)
    (e7 : k2.inner_sizes_ = k.inner_sizes_) (e8 : k2.axis_sizes_ = k.axis_sizes_)
    (e9 : k2.mean_multipliers_ = k.mean_multipliers_)
    (e10 : k2.prod_multipliers_ = k.prod_multipliers_)
    (e11 : k2.sum_square_multipliers_ = k.sum_square_multipliers_)
    (e12 : k2.quant_arg_ = k.quant_arg_) : SamePlan E k2 k1 := by
  obtain ⟨h1, h2, h3, h4, h5, h6, h7, h8, h9, h10, h11, h12⟩ := h
  refine ⟨h1.trans e1.symm, h2.trans e2.symm, h3.trans e3.symm, h4.trans e4.symm,
    h5.trans e5.symm, h6.trans e6.symm, h7.trans e7.symm, h8.trans e8.symm,
    h9.trans e9.symm, h10.trans e10.symm, h11.trans e11.symm, fun i => ?_⟩
  rw [e1, e9, e10, e11, e12]
  exact h12 i

/-- Two kernels that agree on the plan and on `quant_arg_` have the same plan. -/
theorem SamePlan_of_fields {D : Type} (E : ReduceModeEnum) (k k1 : Kernel D)
    (e1 : k1.mode_ = k.mode_) (e2 : k1.num_axes_ = k.num_axes_)
    (e3 : k1.in_tensor = k.in_tensor) (e4 : k1.out_tensor = k.out_tensor)
    (e5 : k1.buffer_sizes_ = k.buffer_sizes_) (e6 : k1.outer_sizes_ = k.outer_sizes_)
    (e7 : k1.inner_sizes_ = k.inner_sizes_) (e8 : k1.axis_sizes_ = k.axis_sizes_)
    (e9 : k1.mean_multipliers_ = k.mean_multipliers_)
    (e10 : k1.prod_multipliers_ = k.prod_multipliers_)
    (e11 : k1.sum_square_multipliers_ = k.sum_square_multipliers_)
    (e12 : k1.quant_arg_ = k.quant_arg_) : SamePlan E k k1 :=
  ⟨e1, e2, e3, e4, e5, e6, e7, e8, e9, e10, e11, fun i => by rw [e12]⟩

/-- On two kernels with the same plan `GetQuantArgs` fails on both or leaves the same
`quant_arg_` in both. -/
theorem GetQuantArgs_samePlan {D : Type} (E : ReduceModeEnum) (i : Nat) (kA kB : Kernel D)
    (h : SamePlan E kA kB) :
    (GetQuantArgs E i kA = none ∧ GetQuantArgs E i kB = none) ∨
    ∃ q, GetQuantArgs E i kA = some { kA with quant_arg_ := q } ∧
      GetQuantArgs E i kB = some { kB with quant_arg_ := q } := by
  obtain ⟨h1, -, -, -, -, -, -, -, h9, h10, h11, h12⟩ := h
  have key : loadQuantArg E kB.mode_ kB.mean_multipliers_ kB.prod_multipliers_
      kB.sum_square_multipliers_ i kB.quant_arg_
      = loadQuantArg E kA.mode_ kA.mean_multipliers_ kA.prod_multipliers_
          kA.sum_square_multipliers_ i kA.quant_arg_ := by
    rw [h1, h9, h10, h11]
    exact h12 i
  rw [GetQuantArgs_eq_load, GetQuantArgs_eq_load, key]
  cases loadQuantArg E kA.mode_ kA.mean_multipliers_ kA.prod_multipliers_
      kA.sum_square_multipliers_ i kA.quant_arg_ with
  | none => exact Or.inl ⟨rfl, rfl⟩
  | some q => exact Or.inr ⟨q, rfl, rfl⟩

/-- The dispatched call depends on the flag, the sizes, the source, the destination the
flag selects and `quant_arg_` only. -/
theorem CallReduceUnit_congr {D : Type} (kA kB : Kernel D)
    (e1 : kB.is_last_axis_ = kA.is_last_axis_) (e2 : kB.outer_size_ = kA.outer_size_)
    (e3 : kB.inner_size_ = kA.inner_size_) (e4 : kB.axis_size_ = kA.axis_size_)
    (e5 : kB.src_data_ = kA.src_data_)
    (e6 : kA.is_last_axis_ = false → kB.dst_data_ = kA.dst_data_)
    (e7 : kA.is_last_axis_ = true → kB.last_dst_data_ = kA.last_dst_data_)
    (e8 : kB.quant_arg_ = kA.quant_arg_) : CallReduceUnit kB = CallReduceUnit kA := by
  unfold CallReduceUnit
  rw [e1, e2, e3, e4, e5, e8]
  cases hl : kA.is_last_axis_ with
  | false => simp [e6 hl]
  | true => simp [e7 hl]

/-- The terminal part of `Run` on two kernels with the same plan and the same source:
the same outcome and the same passes. -/
theorem Run_lastPass_same {D : Type} (E : ReduceModeEnum) (env : Env) (wA wB : List Int)
    (kA kB : Kernel D) (aA aB : Allocator) (ps : List (ReduceCall D))
    (h : SamePlan E kA kB) (hsrc : kB.src_data_ = kA.src_data_) :
    (Run.lastPass E env wB kB aB ps).outcome = (Run.lastPass E env wA kA aA ps).outcome ∧
    (Run.lastPass E env wB kB aB ps).passes = (Run.lastPass E env wA kA aA ps).passes := by
  have hh := h
  obtain ⟨h1, h2, h3, h4, h5, h6, h7, h8, h9, h10, h11, h12⟩ := hh
  have eo : kB.outer_sizes_.getLast? = kA.outer_sizes_.getLast? := by rw [h6]
  have ei : kB.inner_sizes_.getLast? = kA.inner_sizes_.getLast? := by rw [h7]
  have ea : kB.axis_sizes_.getLast? = kA.axis_sizes_.getLast? := by rw [h8]
  unfold Run.lastPass
  rw [h2]
  rcases GetQuantArgs_samePlan E (size_t_of_int (kA.num_axes_ - 1)) kA kB h with
    ⟨hA, hB⟩ | ⟨q, hA, hB⟩
  · rw [hA, hB]
    exact ⟨rfl, rfl⟩
  · rw [hA, hB]
    dsimp only
    rw [eo, ei, ea]
    rcases kA.outer_sizes_.getLast? with _ | outer
    · exact ⟨rfl, rfl⟩
    rcases kA.inner_sizes_.getLast? with _ | inner
    · exact ⟨rfl, rfl⟩
    rcases kA.axis_sizes_.getLast? with _ | axis
    · exact ⟨rfl, rfl⟩
    dsimp only
    have hc : CallReduceUnit
        { kB with
          quant_arg_ := q, outer_size_ := outer, inner_size_ := inner, axis_size_ := axis,
          last_dst_data_ := kB.out_tensor.data_ptr, is_last_axis_ := true }
        = CallReduceUnit
        { kA with
          quant_arg_ := q, outer_size_ := outer, inner_size_ := inner, axis_size_ := axis,
          last_dst_data_ := kA.out_tensor.data_ptr, is_last_axis_ := true } :=
      CallReduceUnit_congr _ _ rfl rfl rfl rfl hsrc (fun hf => Bool.noConfusion hf)
        (fun _ => congrArg Tensor.data_ptr h4) rfl
    by_cases hl : env.launch ps.length ≠ RET_OK
    · rw [if_pos hl, if_pos hl]
      exact ⟨rfl, congrArg (fun c => ps ++ [c]) hc⟩
    · rw [if_neg hl, if_neg hl]
      exact ⟨rfl, congrArg (fun c => ps ++ [c]) hc⟩

/-- The loop of `Run` with what follows, on two kernels with the same plan, the same
scratch buffers, the same source and the flag reset: the same outcome and the same
passes. -/
theorem Run_loop_same {D : Type} (E : ReduceModeEnum) (env : Env) (wA wB : List Int)
    (remaining i : Nat) (kA kB : Kernel D) (aA aB : Allocator) (ps : List (ReduceCall D))
    (h : SamePlan E kA kB) (hdb : kB.data_buffers_ = kA.data_buffers_)
    (hsrc : kB.src_data_ = kA.src_data_) (hfA : kA.is_last_axis_ = false)
    (hfB : kB.is_last_axis_ = false) :
    (Run.loop E env wB remaining i kB aB ps).outcome
      = (Run.loop E env wA remaining i kA aA ps).outcome ∧
    (Run.loop E env wB remaining i kB aB ps).passes
      = (Run.loop E env wA remaining i kA aA ps).passes := by
  induction remaining generalizing i kA kB ps with
  | zero =>
    rw [Run.loop, Run.loop]
    exact Run_lastPass_same E env wA wB kA kB aA aB ps h hsrc
  | succ n ih =>
    have hh := h
    obtain ⟨h1, h2, h3, h4, h5, h6, h7, h8, h9, h10, h11, h12⟩ := hh
    have ed : kB.data_buffers_[i]? = kA.data_buffers_[i]? := by rw [hdb]
    have eo : kB.outer_sizes_[i]? = kA.outer_sizes_[i]? := by rw [h6]
    have ei : kB.inner_sizes_[i]? = kA.inner_sizes_[i]? := by rw [h7]
    have ea : kB.axis_sizes_[i]? = kA.axis_sizes_[i]? := by rw [h8]
    rw [Run.loop, Run.loop]
    rcases GetQuantArgs_samePlan E i kA kB h with ⟨hA, hB⟩ | ⟨q, hA, hB⟩
    · rw [hA, hB]
      exact ⟨rfl, rfl⟩
    · rw [hA, hB]
      dsimp only
      rw [ed, eo, ei, ea]
      rcases kA.data_buffers_[i]? with _ | dst
      · exact ⟨rfl, rfl⟩
      rcases kA.outer_sizes_[i]? with _ | outer
      · exact ⟨rfl, rfl⟩
      rcases kA.inner_sizes_[i]? with _ | inner
      · exact ⟨rfl, rfl⟩
      rcases kA.axis_sizes_[i]? with _ | axis
      · exact ⟨rfl, rfl⟩
      dsimp only
      have hc : CallReduceUnit
          { kB with
            quant_arg_ := q, dst_data_ := dst, outer_size_ := outer, inner_size_ := inner,
            axis_size_ := axis }
          = CallReduceUnit
          { kA with
            quant_arg_ := q, dst_data_ := dst, outer_size_ := outer, inner_size_ := inner,
            axis_size_ := axis } :=
        CallReduceUnit_congr _ _ (hfB.trans hfA.symm) rfl rfl rfl hsrc (fun _ => rfl)
          (fun ht => Bool.noConfusion (hfA.symm.trans ht)) rfl
      by_cases hl : env.launch ps.length ≠ RET_OK
      · rw [if_pos hl, if_pos hl]
        exact ⟨rfl, congrArg (fun c => ps ++ [c]) hc⟩
      · rw [if_neg hl, if_neg hl, hc]
        exact ih (i + 1) _ _ _
          (SamePlan_of_fields E _ _ h1 h2 h3 h4 h5 h6 h7 h8 h9 h10 h11 rfl) hdb rfl hfA hfB

/-- The status and the buffers of the loop of `MallocTmpBuffer` do not depend on the
allocator. -/
theorem MallocTmpBuffer_loop_indep (malloc : Nat → Ptr) (sizes : List Nat) (j : Nat)
    (bufs : List Ptr) (a a2 : Allocator) :
    (MallocTmpBuffer.loop malloc sizes j bufs a2).1
      = (MallocTmpBuffer.loop malloc sizes j bufs a).1 ∧
    (MallocTmpBuffer.loop malloc sizes j bufs a2).2.1
      = (MallocTmpBuffer.loop malloc sizes j bufs a).2.1 := by
  induction sizes generalizing j bufs a a2 with
  | nil => exact ⟨rfl, rfl⟩
  | cons sz rest ih =>
    by_cases h0 : malloc j = 0
    · simp [MallocTmpBuffer.loop, h0]
    · simp only [MallocTmpBuffer.loop, h0, if_false]
      exact ih _ _ _ _

/-- On two kernels with the same scratch sizes and the same answers of `Malloc`,
`MallocTmpBuffer` returns the same status and leaves the same `data_buffers_` and, when
it succeeds, the same `begin_src_data_`. -/
theorem MallocTmpBuffer_same {D : Type} (malloc : Nat → Ptr) (kA kB : Kernel D)
    (aA aB : Allocator) (hbs : kB.buffer_sizes_ = kA.buffer_sizes_) :
    (MallocTmpBuffer malloc kB aB).1 = (MallocTmpBuffer malloc kA aA).1 ∧
    (MallocTmpBuffer malloc kB aB).2.1.data_buffers_
      = (MallocTmpBuffer malloc kA aA).2.1.data_buffers_ ∧
    ((MallocTmpBuffer malloc kA aA).1 = RET_OK →
      (MallocTmpBuffer malloc kB aB).2.1.begin_src_data_
        = (MallocTmpBuffer malloc kA aA).2.1.begin_src_data_) := by
  obtain ⟨g1, g2⟩ := MallocTmpBuffer_loop_indep malloc kA.buffer_sizes_ 0 [] aA aB
  unfold MallocTmpBuffer
  rw [hbs]
  rcases hA : MallocTmpBuffer.loop malloc kA.buffer_sizes_ 0 [] aA with ⟨fA, bA, a1A⟩
  rcases hB : MallocTmpBuffer.loop malloc kA.buffer_sizes_ 0 [] aB with ⟨fB, bB, a1B⟩
  rw [hA, hB] at g1 g2
  simp only at g1 g2
  subst g1 g2
  cases fB with
  | false => simp [RET_OK, RET_ERROR]
  | true =>
    by_cases hp : malloc kA.buffer_sizes_.length = 0
    · simp [hp, RET_OK, RET_NULL_PTR]
    · simp [hp]

/-- `Run` on two kernels with the same plan, under the same answers of the
collaborators: the same outcome and the same passes, whatever the two kernels hold in the
members `Run` overwrites and whatever the allocators. -/
theorem Run_same {D : Type} (E : ReduceModeEnum) (env : Env) (kA kB : Kernel D)
    (aA aB : Allocator) (h : SamePlan E kA kB) :
    (Run E env kB aB).outcome = (Run E env kA aA).outcome ∧
    (Run E env kB aB).passes = (Run E env kA aA).passes := by
  obtain ⟨g1, g2, g3⟩ := MallocTmpBuffer_same env.malloc kA kB aA aB h.2.2.2.2.1
  obtain ⟨bufsA, bA, fA⟩ := MallocTmpBuffer_frame env.malloc kA aA
  obtain ⟨bufsB, bB, fB⟩ := MallocTmpBuffer_frame env.malloc kB aB
  unfold Run
  by_cases hprep : env.prepare_ret ≠ RET_OK
  · rw [if_pos hprep, if_pos hprep]
    exact ⟨rfl, rfl⟩
  · rw [if_neg hprep, if_neg hprep]
    rcases hmA : MallocTmpBuffer env.malloc kA aA with ⟨retA, k1A, a1A⟩
    rcases hmB : MallocTmpBuffer env.malloc kB aB with ⟨retB, k1B, a1B⟩
    rw [hmA, hmB] at g1 g2
    rw [hmA] at g3 fA
    rw [hmB] at g3 fB
    simp only at g1 g2 g3 fA fB ⊢
    subst g1
    by_cases hret : retB ≠ RET_OK
    · rw [if_pos hret, if_pos hret]
      exact ⟨rfl, rfl⟩
    · rw [if_neg hret, if_neg hret]
      have hb := g3 (not_not.mp hret)
      have hlen : size_t_sub k1B.data_buffers_.length 1
          = size_t_sub k1A.data_buffers_.length 1 := by rw [g2]
      rw [hlen]
      exact Run_loop_same E env _ _ _ 0 _ _ a1A a1B []
        (SamePlan_of_eq E _ _ _
          (SamePlan_left E kA kB _ h
            (by rw [fA]) (by rw [fA]) (by rw [fA]) (by rw [fA]) (by rw [fA]) (by rw [fA])
            (by rw [fA]) (by rw [fA]) (by rw [fA]) (by rw [fA]) (by rw [fA]) (by rw [fA]))
          (by rw [fB]) (by rw [fB]) (by rw [fB]) (by rw [fB]) (by rw [fB]) (by rw [fB])
          (by rw [fB]) (by rw [fB]) (by rw [fB]) (by rw [fB]) (by rw [fB]) (by rw [fB]))
        g2 hb rfl rfl

theorem CallReduceUnit_flag {D : Type} (k : Kernel D) :
    (CallReduceUnit k).is_last_axis = k.is_last_axis_ := by
  unfold CallReduceUnit
  cases k.is_last_axis_ <;> rfl

/-- The terminal part of `Run` adds at most one pass, with the flag set, and leaves the
flag set when it returns `RET_OK`. -/
theorem Run_lastPass_flags {D : Type} (E : ReduceModeEnum) (env : Env) (w : List Int)
    (k : Kernel D) (a : Allocator) (ps : List (ReduceCall D)) :
    ((Run.lastPass E env w k a ps).outcome = Outcome.returned RET_OK →
      (Run.lastPass E env w k a ps).kernel.is_last_axis_ = true) ∧
    ∃ more, (Run.lastPass E env w k a ps).passes = ps ++ more ∧
      ∀ (j : Nat) (c : ReduceCall D), more[j]? = some c →
        c.is_last_axis = decide (j = 0) := by
  unfold Run.lastPass
  cases hq : GetQuantArgs E (size_t_of_int (k.num_axes_ - 1)) k with
  | none => exact ⟨(fun h => by cases h), [], by simp, by simp⟩
  | some k1 =>
    simp only
    split
    · rename_i outer inner axis _ _ _
      have hfl : ∀ (j : Nat) (c : ReduceCall D), ([CallReduceUnit
          { k1 with
            outer_size_ := outer, inner_size_ := inner, axis_size_ := axis,
            last_dst_data_ := k1.out_tensor.data_ptr, is_last_axis_ := true }])[j]? = some c →
          c.is_last_axis = decide (j = 0) := by
        intro j c hc
        cases j with
        | zero =>
          simp only [List.getElem?_cons_zero, Option.some.injEq] at hc
          rw [← hc, CallReduceUnit_flag]
          rfl
        | succ j => simp at hc
      split
      · exact ⟨(fun h => by cases h), _, rfl, hfl⟩
      · refine ⟨fun _ => ?_, _, rfl, hfl⟩
        show (FreeTmpBuffer _ a).1.is_last_axis_ = true
        rw [(FreeTmpBuffer_spec _ a).1]
    · exact ⟨(fun h => by cases h), [], by simp, by simp⟩

/-- The loop of `Run` with what follows, entered with the flag reset: the pass number
`j` it adds carries the flag exactly when `j` is the number of loop iterations, and the
flag is left set when `RET_OK` is returned. -/
theorem Run_loop_flags {D : Type} (E : ReduceModeEnum) (env : Env) (w : List Int)
    (remaining i : Nat) (k : Kernel D) (a : Allocator) (ps : List (ReduceCall D))
    (hf : k.is_last_axis_ = false) :
    ((Run.loop E env w remaining i k a ps).outcome = Outcome.returned RET_OK →
      (Run.loop E env w remaining i k a ps).kernel.is_last_axis_ = true) ∧
    ∃ more, (Run.loop E env w remaining i k a ps).passes = ps ++ more ∧
      ∀ (j : Nat) (c : ReduceCall D), more[j]? = some c →
        c.is_last_axis = decide (j = remaining) := by
  induction remaining generalizing i k ps with
  | zero =>
    rw [Run.loop]
    exact Run_lastPass_flags E env w k a ps
  | succ n ih =>
    rw [Run.loop]
    cases hq : GetQuantArgs E i k with
    | none => exact ⟨(fun h => by cases h), [], by simp, by simp⟩
    | some k1 =>
      have hfr := GetQuantArgs_frame E _ k k1 hq
      have h1 : k1.is_last_axis_ = false := by rw [hfr]; exact hf
      simp only
      split
      · rename_i dst outer inner axis _ _ _ _
        have hc0 : (CallReduceUnit
            { k1 with
              dst_data_ := dst, outer_size_ := outer, inner_size_ := inner,
              axis_size_ := axis }).is_last_axis = false := by
          rw [CallReduceUnit_flag]
          exact h1
        split
        · refine ⟨(fun h => by cases h), _, rfl, ?_⟩
          intro j c hc
          cases j with
          | zero =>
            simp only [List.getElem?_cons_zero, Option.some.injEq] at hc
            rw [← hc, hc0]
            simp
          | succ j => simp at hc
        · obtain ⟨g1, more, g2, g3⟩ := ih (i + 1)
            { k1 with
              dst_data_ := dst, outer_size_ := outer, inner_size_ := inner,
              axis_size_ := axis, src_data_ := dst }
            (ps ++ [CallReduceUnit
              { k1 with
                dst_data_ := dst, outer_size_ := outer, inner_size_ := inner,
                axis_size_ := axis }]) h1
          refine ⟨g1,
            CallReduceUnit
              { k1 with
                dst_data_ := dst, outer_size_ := outer, inner_size_ := inner,
                axis_size_ := axis } :: more, ?_, ?_⟩
          · rw [g2, List.append_assoc]
            rfl
          · intro j c hc
            cases j with
            | zero =>
              simp only [List.getElem?_cons_zero, Option.some.injEq] at hc
              rw [← hc, hc0]
              simp
            | succ j =>
              simp only [List.getElem?_cons_succ] at hc
              rw [g3 j c hc]
              simp
      · exact ⟨(fun h => by cases h), [], by simp, by simp⟩

/-- The flags of `Run` with two axes or more on a kernel that is set up: pass number `j`
carries the flag exactly when `j = N - 2`, and the flag is left set when `RET_OK` is
returned. -/
theorem Run_flags {D : Type} (E : ReduceModeEnum) (env : Env) (k : Kernel D)
    (a : Allocator) (N : Nat) (hN : 2 ≤ N) (hk : PlanReady E k N) :
    ((Run E env k a).outcome = Outcome.returned RET_OK →
      (Run E env k a).kernel.is_last_axis_ = true) ∧
    ∀ (j : Nat) (c : ReduceCall D), (Run E env k a).passes[j]? = some c →
      c.is_last_axis = decide (j + 2 = N) := by
  obtain ⟨hnum, hbs, hlt, -⟩ := hk
  obtain ⟨m, hm1, hnz, hfreed, hcase⟩ := MallocTmpBuffer_spec env.malloc k a
  unfold Run
  by_cases hprep : env.prepare_ret ≠ RET_OK
  · rw [if_pos hprep]
    refine ⟨fun h => ?_, fun j c hc => by simp at hc⟩
    simp only [Outcome.returned.injEq] at h
    exact absurd h hprep
  · rw [if_neg hprep]
    rcases hmal : MallocTmpBuffer env.malloc k a with ⟨ret, k1, a1⟩
    rw [hmal] at hcase
    simp only at hcase ⊢
    by_cases hret : ret ≠ RET_OK
    · rw [if_pos hret]
      refine ⟨fun h => ?_, fun j c hc => by simp at hc⟩
      simp only [Outcome.returned.injEq] at h
      exact absurd h hret
    · rw [if_neg hret]
      rcases hcase with ⟨-, hmn, -, hk1, -, -⟩ | ⟨h, -⟩
      · have hlen : k1.data_buffers_.length = N - 1 := by
          rw [hk1]
          simp only [List.length_map, List.length_range']
          omega
        have hbound : size_t_sub k1.data_buffers_.length 1 = N - 2 := by
          rw [hlen, size_t_sub_one (N - 1) (by omega) (by omega)]
          omega
        obtain ⟨g1, more, g2, g3⟩ := Run_loop_flags E env
          (k1.in_tensor.data.map int8_to_int32) (N - 2) 0
          { k1 with is_last_axis_ := false, src_data_ := k1.begin_src_data_ } a1 [] rfl
        simp only [hbound]
        refine ⟨g1, fun j c hc => ?_⟩
        rw [g2, List.nil_append] at hc
        rw [g3 j c hc]
        simp only [decide_eq_decide]
        omega
      · exfalso
        apply hret
        rcases h with ⟨h, -⟩ | ⟨h, -⟩ <;> rw [h] <;> decide

/-! ## The claim on running `Run` again -/

/-- C11: with `N >= 2` axes and a kernel that is set up, a first `Run` returns, whatever
its collaborators answer and whatever it held at the start, and a following `Run` on the
kernel and the allocator it leaves behaves as a `Run` on the freshly set-up kernel under
the same answers of the collaborators: both return, with the same status, and they
dispatch the same passes in the same order (flag, sizes, source, destination and
`quant_arg_` of each pass). A first `Run` that returned `RET_OK` leaves `is_last_axis_`
true, and the following `Run` does not see it: its pass number `j` carries the flag
exactly when `j = N - 2`, as on the fresh kernel, so with three axes or more its first
pass is a non-terminal one. -/
theorem Run_after_Run_behaves_as_on_fresh_kernel {D : Type} (E : ReduceModeEnum)
    (env1 env2 : Env) (k : Kernel D) (a a2 : Allocator) (N : Nat) (hN : 2 ≤ N)
    (hk : PlanReady E k N) :
    (∃ status1, (Run E env1 k a).outcome = Outcome.returned status1) ∧
    (∃ status, (Run E env2 (Run E env1 k a).kernel (Run E env1 k a).alloc).outcome
        = Outcome.returned status ∧
      (Run E env2 k a2).outcome = Outcome.returned status) ∧
    (Run E env2 (Run E env1 k a).kernel (Run E env1 k a).alloc).passes
      = (Run E env2 k a2).passes ∧
    ((Run E env1 k a).outcome = Outcome.returned RET_OK →
      (Run E env1 k a).kernel.is_last_axis_ = true) ∧
    (∀ (j : Nat) (c : ReduceCall D),
      (Run E env2 (Run E env1 k a).kernel (Run E env1 k a).alloc).passes[j]? = some c →
      c.is_last_axis = decide (j + 2 = N)) ∧
    (3 ≤ N → ∀ c,
      (Run E env2 (Run E env1 k a).kernel (Run E env1 k a).alloc).passes.head? = some c →
      c.is_last_axis = false) := by
  obtain ⟨s1, hs1⟩ := (Run_returns E env1 k a N hN hk).1
  obtain ⟨s2, hs2⟩ := (Run_returns E env2 k a2 N hN hk).1
  obtain ⟨g1, g2⟩ := Run_same E env2 k (Run E env1 k a).kernel a2 (Run E env1 k a).alloc
    (Run_samePlan E env1 k a)
  obtain ⟨f1, -⟩ := Run_flags E env1 k a N hN hk
  obtain ⟨-, f2⟩ := Run_flags E env2 k a2 N hN hk
  refine ⟨⟨s1, hs1⟩, ⟨s2, g1.trans hs2, hs2⟩, g2, f1, fun j c hc => ?_, fun h3 c hc => ?_⟩
  · rw [g2] at hc
    exact f2 j c hc
  · rw [g2, List.head?_eq_getElem?] at hc
    rw [f2 0 c hc]
    simp only [decide_eq_false_iff_not]
    omega

/-- Witness of C11: the sample kernel with three axes is run with collaborators that
succeed, which leaves the flag set, and run again: the second `Run` returns `RET_OK` and
dispatches the two passes of the first, the non-terminal one first. -/
theorem Run_after_Run_behaves_as_on_fresh_kernel_witness :
    2 ≤ 3 ∧ PlanReady sampleModes (sampleKernel 0 3) 3 ∧
    (Run sampleModes sampleEnv (sampleKernel 0 3) sampleAllocator).kernel.is_last_axis_
      = true ∧
    (Run sampleModes sampleEnv
        (Run sampleModes sampleEnv (sampleKernel 0 3) sampleAllocator).kernel
        (Run sampleModes sampleEnv (sampleKernel 0 3) sampleAllocator).alloc).passes
      = [{ is_last_axis := false, outer_size := 1, inner_size := 12, axis_size := 2,
           src := 102, dst := 100,
           quant_arg := { sampleQuantArg with mean_multiplier_ := 100 } },
         { is_last_axis := true, outer_size := 1, inner_size := 1, axis_size := 4,
           src := 100, dst := 8,
           quant_arg := { sampleQuantArg with mean_multiplier_ := 102,
                                              mean_right_shift_ := 2 } }] :=
  have hk : PlanReady sampleModes (sampleKernel 0 3) 3 :=
    ⟨rfl, by decide, by decide, by decide, by decide, by decide, by decide, by decide,
      by decide⟩
  have h := Run_after_Run_behaves_as_on_fresh_kernel sampleModes sampleEnv sampleEnv
    (sampleKernel 0 3) sampleAllocator sampleAllocator 3 (by decide) hk
  ⟨by decide, hk, h.2.2.2.1 (by decide), h.2.2.1.trans (by decide)⟩

end ReduceInt8
